import Mathlib

/-!
# Verification of the fightailauncher track-continuity engine

Shallow embedding of `src/engine/tracking.py` (the `TrackManager` data-association
and track-lifecycle engine) and of `_bbox_from_landmarks` from `src/engine/pose.py`,
together with proofs settling the frozen claims about the natural-language spec.

Modelling conventions:
* Python floats are modelled as `ℚ` for coordinates/heights and as `ℝ` for
  assignment costs (the cost uses `math.hypot`, i.e. a square root).
* Landmark dictionaries (`{"name": ..., "x": ..., "y": ..., "z": ..., "conf": ...}`)
  become a structure whose scalar fields are `Option ℚ` (a `none` models a missing
  or `None` entry, which the source reads via `dict.get`).
* The `dict[int, TrackState]` track table becomes a list of `TrackState` in
  insertion order (Python dicts preserve insertion order; ids are never deleted).
* `deque(maxlen=w)` becomes a list with an explicit capped push.
* The field spelled `height_ratio` in the source is spelled `height_frac` here
  (and `MIN_BBOX_HEIGHT_RATIO` becomes `MIN_BBOX_HEIGHT_FRAC`); it is the same
  quantity, renamed for Lean naming reasons only.
-/

/-- One named landmark, as produced by `_landmarks_from_result` in
`src/engine/pose.py` and consumed throughout `src/engine/tracking.py`.
Scalar fields are optional because the source accesses them with `dict.get`. -/
structure Landmark where
  name : String
  x : Option ℚ := none
  y : Option ℚ := none
  z : Option ℚ := none
  conf : Option ℚ := none
deriving DecidableEq

/-- The bounding box computed by `_bbox_from_landmarks` in `src/engine/pose.py`.
`height_frac` models the source field `height_ratio`. -/
structure BBox where
  x_min : ℚ
  y_min : ℚ
  x_max : ℚ
  y_max : ℚ
  height : ℚ
  height_px : ℚ
  height_frac : ℚ
  above_threshold : Bool
deriving DecidableEq

/-- One per-frame detection, as assembled by `_detections_from_result` in
`src/engine/pose.py`: landmarks, derived box, center, scale and size flags. -/
structure Detection where
  landmarks : List Landmark
  bbox : BBox
  center : ℚ × ℚ
  scale : ℚ
  too_small : Bool
  above_threshold : Bool
deriving DecidableEq

/-- `TrackState` from `src/engine/tracking.py` (the persistent per-track record). -/
structure TrackState where
  track_id : ℕ
  last_center : Option (ℚ × ℚ) := none
  last_bbox : Option BBox := none
  velocity : ℚ × ℚ := (0, 0)
  last_landmarks : Option (List Landmark) := none
  last_smoothed : Option (List Landmark) := none
  current_detection : Option Detection := none
  last_seen_frame : ℤ := -1
  missed_frames : ℕ := 0
  hold_frames : ℕ := 0
  current_dropout : ℕ := 0
  longest_dropout : ℕ := 0
  detected_frames : ℕ := 0
  predicted_frames : ℕ := 0
  height_history : List ℚ := []
  height_history_above : List ℚ := []
deriving DecidableEq

/-- `TrackState.average_height_above`: mean of the above-threshold height window,
`0` when the window is empty. -/
def TrackState.average_height_above (t : TrackState) : ℚ :=
  if t.height_history_above = [] then 0
  else t.height_history_above.sum / t.height_history_above.length

/-- `TrackState.average_height`: mean of the full height window, `0` when empty. -/
def TrackState.average_height (t : TrackState) : ℚ :=
  if t.height_history = [] then 0
  else t.height_history.sum / t.height_history.length

/-- `TrackState.has_above_threshold`: the above-threshold window is non-empty. -/
def TrackState.has_above_threshold (t : TrackState) : Bool :=
  0 < t.height_history_above.length

/-- The `TrackManager` configuration and mutable state
(`TrackManager.__init__` in `src/engine/tracking.py`). -/
structure TrackManager where
  primary_track_count : ℕ
  max_hold_frames : ℕ
  primary_drop_frames : ℕ
  ema_alpha : ℚ
  conf_decay : ℚ
  assignment_threshold : ℚ
  tracks : List TrackState := []
  primary_track_ids : List ℕ := []
  next_id : ℕ := 1
  height_window : ℕ := 30
deriving DecidableEq

/-- Dictionary lookup `self.tracks.get(track_id)` on the insertion-ordered table. -/
def TrackManager.lookup (m : TrackManager) (id : ℕ) : Option TrackState :=
  m.tracks.find? (fun t => t.track_id = id)

/-- `_ema` from `src/engine/tracking.py`: per-scalar exponential moving average
with fallback to the available value when either side is missing. -/
def ema (current_value previous_value : Option ℚ) (alpha : ℚ) : Option ℚ :=
  match current_value, previous_value with
  | none, p => p
  | some c, none => some c
  | some c, some p => some (alpha * c + (1 - alpha) * p)

/-- The `previous_map` dictionary built by `smooth_landmarks`
(`{landmark.get("name"): landmark for landmark in previous}`): later entries
overwrite earlier ones. -/
def previousMap (previous : List Landmark) : String → Option Landmark :=
  previous.foldl (fun acc lm => fun n => if n = lm.name then some lm else acc n)
    (fun _ => none)

/-- `smooth_landmarks` from `src/engine/tracking.py`.  The `previous` argument is
`list | None` in the source; `none` and `some []` both fail Python's
`if not previous` truthiness test and return `current` unchanged. -/
def smooth_landmarks (current : List Landmark) (previous : Option (List Landmark))
    (alpha : ℚ) : List Landmark :=
  match previous with
  | none => current
  | some prev =>
    if prev = [] then current
    else
      current.map (fun lm =>
        match previousMap prev lm.name with
        | none => lm
        | some p =>
          { name := lm.name
            x := ema lm.x p.x alpha
            y := ema lm.y p.y alpha
            z := ema lm.z p.z alpha
            conf := ema lm.conf p.conf alpha })

/-- The per-landmark body of `apply_conf_decay`: coordinates are re-read with
`float(landmark.get(k, 0.0))` (default `0` when missing) and a present confidence
is multiplied by `decay_factor`. -/
def decayLandmark (decay_factor : ℚ) (lm : Landmark) : Landmark :=
  { name := lm.name
    x := some (lm.x.getD 0)
    y := some (lm.y.getD 0)
    z := some (lm.z.getD 0)
    conf := lm.conf.map (fun c => c * decay_factor) }

/-- `apply_conf_decay` from `src/engine/tracking.py`. -/
def apply_conf_decay (landmarks : List Landmark) (decay_factor : ℚ) : List Landmark :=
  landmarks.map (decayLandmark decay_factor)

/-- `_velocity` from `src/engine/tracking.py`. -/
def velocity (previous_center : Option (ℚ × ℚ)) (current_center : ℚ × ℚ) : ℚ × ℚ :=
  match previous_center with
  | none => (0, 0)
  | some p => (current_center.1 - p.1, current_center.2 - p.2)

/-- `math.hypot dx dy` over exact rationals, valued in `ℝ`. -/
noncomputable def hypotQ (dx dy : ℚ) : ℝ :=
  Real.sqrt ((dx : ℝ) ^ 2 + (dy : ℝ) ^ 2)

/-- `_assignment_cost` from `src/engine/tracking.py`.  The source reads
`track.last_center[0]` unguarded (callers only invoke it when the center is set);
the embedding totalises that read with `getD (0, 0)`. -/
noncomputable def assignment_cost (track : TrackState) (detection : Detection) : ℝ :=
  let track_height : ℚ := match track.last_bbox with
    | none => 0
    | some b => b.height
  let det_height : ℚ := detection.bbox.height
  let c : ℚ × ℚ := track.last_center.getD (0, 0)
  let dx : ℚ := detection.center.1 - c.1
  let dy : ℚ := detection.center.2 - c.2
  let norm : ℚ := if 0 < track_height then track_height else 1
  hypotQ dx dy / (norm : ℝ) + |((det_height : ℝ) - (track_height : ℝ))| / (norm : ℝ)

/-- Append to a `deque(maxlen = cap)`: oldest entries are evicted from the left
when the capacity is exceeded. -/
def pushCap (cap : ℕ) (xs : List ℚ) (v : ℚ) : List ℚ :=
  let ys := xs ++ [v]
  if cap < ys.length then ys.drop (ys.length - cap) else ys

/-- The track-level effect of `TrackManager._apply_detection`
(field updates on the matched `TrackState`). -/
def trackApply (cap : ℕ) (t : TrackState) (d : Detection) (frame_index : ℤ) : TrackState :=
  { t with
    current_detection := some d
    last_seen_frame := frame_index
    missed_frames := 0
    velocity := velocity t.last_center d.center
    last_center := some d.center
    last_bbox := some d.bbox
    height_history := pushCap cap t.height_history d.bbox.height
    height_history_above :=
      if d.above_threshold then pushCap cap t.height_history_above d.bbox.height
      else t.height_history_above }

/-- `TrackManager._apply_detection`: update the table entry keyed `track_id`. -/
def TrackManager.applyDetection (m : TrackManager) (track_id : ℕ) (d : Detection)
    (frame_index : ℤ) : TrackManager :=
  { m with tracks := m.tracks.map (fun t =>
      if t.track_id = track_id then trackApply m.height_window t d frame_index else t) }

/-- `TrackManager._create_track`: allocate the next id, append a fresh record and
apply the detection to it.  Returns the new id alongside the updated manager. -/
def TrackManager.createTrack (m : TrackManager) (d : Detection) (frame_index : ℤ) :
    TrackManager × ℕ :=
  let id := m.next_id
  let m' := { m with next_id := m.next_id + 1,
                     tracks := m.tracks ++ [{ track_id := id : TrackState }] }
  (m'.applyDetection id d frame_index, id)

/-- `TrackManager.override_detection`: apply only when the id exists. -/
def TrackManager.overrideDetection (m : TrackManager) (track_id : ℕ) (d : Detection)
    (frame_index : ℤ) : TrackManager :=
  if (m.lookup track_id).isSome then m.applyDetection track_id d frame_index else m

/-- `TrackManager._select_primary_tracks`: rank the tracks owning at least one
above-threshold height descending by that average (Python's stable sort with
`reverse=True`, modelled by a stable insertion sort on `≥`), take the configured
count, return their ids. -/
def TrackManager.selectPrimary (m : TrackManager) : List ℕ :=
  let candidates := m.tracks.filter (fun t => t.has_above_threshold)
  let sorted := candidates.insertionSort
    (fun a b => b.average_height_above ≤ a.average_height_above)
  (sorted.take m.primary_track_count).map (fun t => t.track_id)

/-- The per-id keep test of `TrackManager._refresh_primary_tracks`: the id must
still exist and its consecutive-miss streak must not exceed the drop budget. -/
def TrackManager.keepPrimary (m : TrackManager) (id : ℕ) : Bool :=
  match m.lookup id with
  | none => false
  | some t => t.missed_frames ≤ m.primary_drop_frames

/-- `TrackManager._refresh_primary_tracks`. -/
def TrackManager.refreshPrimary (m : TrackManager) : TrackManager :=
  if m.primary_track_ids = [] then
    { m with primary_track_ids := m.selectPrimary }
  else
    let refreshed := m.primary_track_ids.filter (fun id => m.keepPrimary id)
    if refreshed.length < m.primary_track_count then
      { m with primary_track_ids := m.selectPrimary }
    else
      { m with primary_track_ids := refreshed }

/-- Classically decidable `≤` test on `ℝ`, used to model float comparisons in
the assignment engine. -/
noncomputable def rle (a b : ℝ) : Bool := @decide (a ≤ b) (Classical.propDecidable _)

/-- A candidate entry `(cost, track_id, det_idx)` as appended to
`pair_candidates` in `TrackManager.update_tracks`. -/
abbrev Cand := ℝ × ℕ × ℕ

/-- The `pair_candidates` enumeration of `TrackManager.update_tracks`: for each
track (in table order) with a defined `last_center` and `last_bbox`, and each
detection (in list order), keep `(cost, track_id, det_idx)` when the cost is at
most the assignment threshold. -/
noncomputable def TrackManager.candidatePairs (m : TrackManager) (dets : List Detection) :
    List Cand :=
  m.tracks.flatMap (fun t =>
    if t.last_center.isNone || t.last_bbox.isNone then []
    else dets.enum.filterMap (fun p =>
      let cost := assignment_cost t p.2
      if rle cost (m.assignment_threshold : ℝ) then some (cost, t.track_id, p.1) else none))

/-- The comparison key of `pair_candidates.sort(key=lambda item: item[0])`. -/
def costLe (a b : Cand) : Prop := a.1 ≤ b.1

/-- Python's stable ascending sort of the candidate list, modelled by a stable
insertion sort on the cost component. -/
noncomputable def sortPairs (l : List Cand) : List Cand :=
  @List.insertionSort Cand costLe (fun _ _ => Classical.propDecidable _) l

/-- The evolving state of the assignment loop: the manager plus the
`used_tracks` / `used_detections` sets. -/
structure AssignSt where
  m : TrackManager
  usedT : Finset ℕ
  usedD : Finset ℕ

/-- A placeholder detection for the (unreachable) out-of-range list access. -/
def defaultDet : Detection :=
  { landmarks := [], bbox := ⟨0, 0, 0, 0, 0, 0, 0, false⟩, center := (0, 0),
    scale := 0, too_small := false, above_threshold := false }

/-- One step of the greedy acceptance loop of `TrackManager.update_tracks`:
skip a pair whose track or detection is already claimed, otherwise apply the
detection and claim both. -/
def greedyApply (dets : List Detection) (frame_index : ℤ) (st : AssignSt) (c : Cand) :
    AssignSt :=
  if c.2.1 ∈ st.usedT ∨ c.2.2 ∈ st.usedD then st
  else
    { m := st.m.applyDetection c.2.1 (dets.getD c.2.2 defaultDet) frame_index
      usedT := insert c.2.1 st.usedT
      usedD := insert c.2.2 st.usedD }

/-- One step of the unmatched-detection loop of `TrackManager.update_tracks`:
each detection index not yet claimed spawns a new track. -/
def spawnStep (frame_index : ℤ) (st : AssignSt) (p : ℕ × Detection) : AssignSt :=
  if p.1 ∈ st.usedD then st
  else
    let r := st.m.createTrack p.2 frame_index
    { m := r.1, usedT := insert r.2 st.usedT, usedD := insert p.1 st.usedD }

/-- The final loop of `TrackManager.update_tracks`: every track not claimed this
frame has its current detection cleared and its miss counter incremented. -/
def missPass (m : TrackManager) (usedT : Finset ℕ) : TrackManager :=
  { m with tracks := m.tracks.map (fun t =>
      if t.track_id ∈ usedT then t
      else { t with current_detection := none, missed_frames := t.missed_frames + 1 }) }

/-- `TrackManager.update_tracks` from `src/engine/tracking.py`. -/
noncomputable def TrackManager.updateTracks (m : TrackManager) (dets : List Detection)
    (frame_index : ℤ) : TrackManager :=
  let sorted := sortPairs (m.candidatePairs dets)
  let st1 := sorted.foldl (greedyApply dets frame_index) ⟨m, ∅, ∅⟩
  let st2 := dets.enum.foldl (spawnStep frame_index) st1
  (missPass st2.m st2.usedT).refreshPrimary

/-- The pure accepted-pair list of the greedy loop (acceptance order),
`(track_id, det_idx)` for each applied pair. -/
def greedyPairs : List Cand → Finset ℕ → Finset ℕ → List (ℕ × ℕ)
  | [], _, _ => []
  | c :: rest, uT, uD =>
    if c.2.1 ∈ uT ∨ c.2.2 ∈ uD then greedyPairs rest uT uD
    else (c.2.1, c.2.2) :: greedyPairs rest (insert c.2.1 uT) (insert c.2.2 uD)

/-- The track-to-detection matching resolved by the assignment engine for one
frame: greedy acceptance over the cost-sorted candidate list. -/
noncomputable def TrackManager.assignmentPairs (m : TrackManager) (dets : List Detection) :
    List (ℕ × ℕ) :=
  greedyPairs (sortPairs (m.candidatePairs dets)) ∅ ∅

/-- The per-primary-track output record emitted by
`TrackManager._build_track_output`. -/
structure TrackOutput where
  track_id : ℕ
  frame_index : ℤ
  timestamp_ms : ℤ
  landmarks : List Landmark
  is_predicted : Bool
  too_small : Bool
  bbox : Option BBox
deriving DecidableEq

/-- Python truthiness of `track.last_landmarks` (`None` and `[]` are falsy). -/
def lastLandmarksTruthy (t : TrackState) : Bool :=
  match t.last_landmarks with
  | none => false
  | some l => !l.isEmpty

/-- The trailing (no usable above-threshold detection) branch of
`TrackManager._build_track_output`: increment the dropout streak, then either
hold (emit decayed landmarks) or emit nothing. -/
def buildMissOutput (_ema_alpha conf_decay : ℚ) (max_hold : ℕ) (t : TrackState)
    (det : Option Detection) (frame_index timestamp_ms : ℤ) : TrackState × TrackOutput :=
  let t1 := { t with current_dropout := t.current_dropout + 1,
                     longest_dropout := max t.longest_dropout (t.current_dropout + 1) }
  if lastLandmarksTruthy t ∧ t.hold_frames < max_hold then
    let t2 := { t1 with hold_frames := t.hold_frames + 1,
                        predicted_frames := t.predicted_frames + 1 }
    ({ t2 with },
     { track_id := t.track_id, frame_index := frame_index, timestamp_ms := timestamp_ms,
       landmarks := apply_conf_decay (t.last_landmarks.getD []) (conf_decay ^ (t.hold_frames + 1)),
       is_predicted := true,
       too_small := match det with | some d => d.too_small | none => false,
       bbox := det.map (fun d => d.bbox) })
  else
    (t1,
     { track_id := t.track_id, frame_index := frame_index, timestamp_ms := timestamp_ms,
       landmarks := [], is_predicted := false,
       too_small := match det with | some d => d.too_small | none => false,
       bbox := det.map (fun d => d.bbox) })

/-- `TrackManager._build_track_output`: the per-frame lifecycle step of one
track, returning the mutated track together with its output record. -/
def buildTrackOutput (ema_alpha conf_decay : ℚ) (max_hold : ℕ) (t : TrackState)
    (frame_index timestamp_ms : ℤ) : TrackState × TrackOutput :=
  match t.current_detection with
  | some d =>
    if d.above_threshold then
      let smoothed := smooth_landmarks d.landmarks t.last_smoothed ema_alpha
      ({ t with last_smoothed := some smoothed, last_landmarks := some smoothed,
                hold_frames := 0, current_dropout := 0,
                detected_frames := t.detected_frames + 1 },
       { track_id := t.track_id, frame_index := frame_index,
         timestamp_ms := timestamp_ms, landmarks := smoothed,
         is_predicted := false, too_small := false, bbox := some d.bbox })
    else if d.too_small then
      ({ t with current_dropout := t.current_dropout + 1,
                longest_dropout := max t.longest_dropout (t.current_dropout + 1),
                hold_frames := 0 },
       { track_id := t.track_id, frame_index := frame_index,
         timestamp_ms := timestamp_ms, landmarks := [],
         is_predicted := false, too_small := true, bbox := some d.bbox })
    else
      buildMissOutput ema_alpha conf_decay max_hold t (some d) frame_index timestamp_ms
  | none => buildMissOutput ema_alpha conf_decay max_hold t none frame_index timestamp_ms

/-- One iteration of the `build_primary_frame` loop: look up the primary id
(skipping stale ones), build its output, store the mutated track back. -/
def buildStep (frame_index timestamp_ms : ℤ) (acc : TrackManager × List TrackOutput)
    (id : ℕ) : TrackManager × List TrackOutput :=
  match acc.1.lookup id with
  | none => acc
  | some t =>
    let r := buildTrackOutput acc.1.ema_alpha acc.1.conf_decay acc.1.max_hold_frames
      t frame_index timestamp_ms
    ({ acc.1 with tracks := acc.1.tracks.map (fun u => if u.track_id = id then r.1 else u) },
     acc.2 ++ [r.2])

/-- `TrackManager.build_primary_frame`: build (and store back) the output of each
current primary track, in primary-set order, skipping stale ids. -/
def TrackManager.buildPrimaryFrame (m : TrackManager) (frame_index timestamp_ms : ℤ) :
    TrackManager × List TrackOutput :=
  m.primary_track_ids.foldl (buildStep frame_index timestamp_ms) (m, [])

/-- Python `min` over a non-empty list (`0` as the never-used empty default). -/
def minQ : List ℚ → ℚ
  | [] => 0
  | a :: t => t.foldl min a

/-- Python `max` over a non-empty list (`0` as the never-used empty default). -/
def maxQ : List ℚ → ℚ
  | [] => 0
  | a :: t => t.foldl max a

/-- `MIN_BBOX_HEIGHT_PX` from `src/engine/pose.py`. -/
def MIN_BBOX_HEIGHT_PX : ℚ := 120

/-- `MIN_BBOX_HEIGHT_RATIO` from `src/engine/pose.py` (renamed, see header). -/
def MIN_BBOX_HEIGHT_FRAC : ℚ := 12 / 100

/-- The degenerate all-zero box returned for empty or coordinate-less input. -/
def zeroBBox : BBox := ⟨0, 0, 0, 0, 0, 0, 0, false⟩

/-- `_bbox_from_landmarks` from `src/engine/pose.py`.  The `width` argument is
unused there as well. -/
def bbox_from_landmarks (landmarks : List Landmark) (_width height : ℕ) : BBox :=
  let xs := landmarks.filterMap (fun lm => lm.x)
  let ys := landmarks.filterMap (fun lm => lm.y)
  if xs.isEmpty || ys.isEmpty then zeroBBox
  else
    let x_min := max (minQ xs) 0
    let y_min := max (minQ ys) 0
    let x_max := min (maxQ xs) 1
    let y_max := min (maxQ ys) 1
    let hfrac := max (y_max - y_min) 0
    let hpx := hfrac * (height : ℚ)
    { x_min := x_min, y_min := y_min, x_max := x_max, y_max := y_max,
      height := hfrac, height_px := hpx, height_frac := hfrac,
      above_threshold := (MIN_BBOX_HEIGHT_PX ≤ hpx) || (MIN_BBOX_HEIGHT_FRAC ≤ hfrac) }

lemma foldl_min_le_init (a : ℚ) (t : List ℚ) : t.foldl min a ≤ a := by
  induction t generalizing a with
  | nil => simp
  | cons b t ih => exact le_trans (ih (min a b)) (min_le_left a b)

lemma foldl_min_le_mem (a : ℚ) (t : List ℚ) : ∀ b ∈ t, t.foldl min a ≤ b := by
  induction t generalizing a with
  | nil => simp
  | cons c t ih =>
    intro b hb
    rcases List.mem_cons.mp hb with h | h
    · subst h
      exact le_trans (foldl_min_le_init (min a b) t) (min_le_right a b)
    · exact ih (min a c) b h

lemma foldl_min_mem (a : ℚ) (t : List ℚ) : t.foldl min a = a ∨ t.foldl min a ∈ t := by
  induction t generalizing a with
  | nil => simp
  | cons c t ih =>
    rcases ih (min a c) with h | h
    · rcases min_cases a c with ⟨he, _⟩ | ⟨he, _⟩
      · left
        rw [List.foldl_cons, h, he]
      · right
        rw [List.foldl_cons, h, he]
        exact List.mem_cons_self c t
    · right
      rw [List.foldl_cons]
      exact List.mem_cons_of_mem c h

lemma init_le_foldl_max (a : ℚ) (t : List ℚ) : a ≤ t.foldl max a := by
  induction t generalizing a with
  | nil => simp
  | cons b t ih => exact le_trans (le_max_left a b) (ih (max a b))

lemma mem_le_foldl_max (a : ℚ) (t : List ℚ) : ∀ b ∈ t, b ≤ t.foldl max a := by
  induction t generalizing a with
  | nil => simp
  | cons c t ih =>
    intro b hb
    rcases List.mem_cons.mp hb with h | h
    · subst h
      exact le_trans (le_max_right a b) (init_le_foldl_max (max a b) t)
    · exact ih (max a c) b h

lemma foldl_max_mem (a : ℚ) (t : List ℚ) : t.foldl max a = a ∨ t.foldl max a ∈ t := by
  induction t generalizing a with
  | nil => simp
  | cons c t ih =>
    rcases ih (max a c) with h | h
    · rcases max_cases a c with ⟨he, _⟩ | ⟨he, _⟩
      · left
        rw [List.foldl_cons, h, he]
      · right
        rw [List.foldl_cons, h, he]
        exact List.mem_cons_self c t
    · right
      rw [List.foldl_cons]
      exact List.mem_cons_of_mem c h

lemma minQ_mem : ∀ (l : List ℚ), l ≠ [] → minQ l ∈ l
  | [], h => absurd rfl h
  | a :: t, _ => by
    show t.foldl min a ∈ a :: t
    rcases foldl_min_mem a t with h | h
    · rw [h]
      exact List.mem_cons_self a t
    · exact List.mem_cons_of_mem _ h

lemma maxQ_mem : ∀ (l : List ℚ), l ≠ [] → maxQ l ∈ l
  | [], h => absurd rfl h
  | a :: t, _ => by
    show t.foldl max a ∈ a :: t
    rcases foldl_max_mem a t with h | h
    · rw [h]
      exact List.mem_cons_self a t
    · exact List.mem_cons_of_mem _ h

lemma minQ_le : ∀ (l : List ℚ) (b : ℚ), b ∈ l → minQ l ≤ b
  | a :: t, b, hb => by
    show t.foldl min a ≤ b
    rcases List.mem_cons.mp hb with h | h
    · exact h ▸ foldl_min_le_init a t
    · exact foldl_min_le_mem a t b h

lemma le_maxQ : ∀ (l : List ℚ) (b : ℚ), b ∈ l → b ≤ maxQ l
  | a :: t, b, hb => by
    show b ≤ t.foldl max a
    rcases List.mem_cons.mp hb with h | h
    · exact h ▸ init_le_foldl_max a t
    · exact mem_le_foldl_max a t b h

/-- C7 counterexample: for the landmark `(x, y) = (2, 2)` (outside `[0, 1]`, which
raw detector landmarks may produce), `_bbox_from_landmarks` returns
`x_min = 2 > 1` (the code only clamps `x_min`/`y_min` from below), and its
`height` field is `0`, not `y_max - y_min = -1`; so the claim as stated is false. -/
theorem C7_counterexample :
    ¬((bbox_from_landmarks [{ name := "p", x := some 2, y := some 2 }] 100 100).x_min ≤ 1) ∧
    (bbox_from_landmarks [{ name := "p", x := some 2, y := some 2 }] 100 100).height ≠
      (bbox_from_landmarks [{ name := "p", x := some 2, y := some 2 }] 100 100).y_max -
      (bbox_from_landmarks [{ name := "p", x := some 2, y := some 2 }] 100 100).y_min := by
  have hbb : bbox_from_landmarks [{ name := "p", x := some 2, y := some 2 }] 100 100 =
      { x_min := 2, y_min := 2, x_max := 1, y_max := 1, height := 0, height_px := 0,
        height_frac := 0, above_threshold := false } := by
    simp only [bbox_from_landmarks, List.filterMap, List.isEmpty, minQ, maxQ, List.foldl]
    norm_num [max_def, min_def, MIN_BBOX_HEIGHT_PX, MIN_BBOX_HEIGHT_FRAC]
  rw [hbb]
  constructor
  · norm_num
  · norm_num

/-- C7 (amended): `_bbox_from_landmarks` clamps `x_min`/`y_min` from below at `0`
and `x_max`/`y_max` from above at `1`; consequently, whenever every landmark
coordinate already lies in `[0, 1]` (the normalized-coordinate contract), all
four box coordinates lie in `[0, 1]`, `height = y_max - y_min ≥ 0`,
`height_px = height × frame_height`, the ratio field equals `height`, and
`above_threshold` holds exactly when `height_px ≥ MIN_BBOX_HEIGHT_PX` or the
ratio is at least `MIN_BBOX_HEIGHT_FRAC`; an empty or coordinate-less landmark
list yields the all-zero box with `above_threshold = false`. -/
theorem C7_amended (lms : List Landmark) (w h : ℕ)
    (hx : ∀ lm ∈ lms, ∀ v ∈ lm.x, 0 ≤ v ∧ v ≤ 1)
    (hy : ∀ lm ∈ lms, ∀ v ∈ lm.y, 0 ≤ v ∧ v ≤ 1) :
    (0 ≤ (bbox_from_landmarks lms w h).x_min ∧ (bbox_from_landmarks lms w h).x_min ≤ 1) ∧
    (0 ≤ (bbox_from_landmarks lms w h).y_min ∧ (bbox_from_landmarks lms w h).y_min ≤ 1) ∧
    (0 ≤ (bbox_from_landmarks lms w h).x_max ∧ (bbox_from_landmarks lms w h).x_max ≤ 1) ∧
    (0 ≤ (bbox_from_landmarks lms w h).y_max ∧ (bbox_from_landmarks lms w h).y_max ≤ 1) ∧
    (bbox_from_landmarks lms w h).height =
      (bbox_from_landmarks lms w h).y_max - (bbox_from_landmarks lms w h).y_min ∧
    0 ≤ (bbox_from_landmarks lms w h).height ∧
    (bbox_from_landmarks lms w h).height_px = (bbox_from_landmarks lms w h).height * h ∧
    (bbox_from_landmarks lms w h).height_frac = (bbox_from_landmarks lms w h).height ∧
    ((bbox_from_landmarks lms w h).above_threshold = true ↔
      MIN_BBOX_HEIGHT_PX ≤ (bbox_from_landmarks lms w h).height_px ∨
      MIN_BBOX_HEIGHT_FRAC ≤ (bbox_from_landmarks lms w h).height_frac) ∧
    ((lms.filterMap (fun lm => lm.x) = [] ∨ lms.filterMap (fun lm => lm.y) = []) →
      bbox_from_landmarks lms w h = zeroBBox) := by
  have hxs : ∀ v ∈ lms.filterMap (fun lm => lm.x), 0 ≤ v ∧ v ≤ 1 := by
    intro v hv
    rcases List.mem_filterMap.mp hv with ⟨lm, hlm, hsome⟩
    exact hx lm hlm v hsome
  have hys : ∀ v ∈ lms.filterMap (fun lm => lm.y), 0 ≤ v ∧ v ≤ 1 := by
    intro v hv
    rcases List.mem_filterMap.mp hv with ⟨lm, hlm, hsome⟩
    exact hy lm hlm v hsome
  by_cases he :
      ((lms.filterMap (fun lm => lm.x)).isEmpty || (lms.filterMap (fun lm => lm.y)).isEmpty) = true
  · have hz : bbox_from_landmarks lms w h = zeroBBox := by
      unfold bbox_from_landmarks
      rw [if_pos he]
    rw [hz]
    refine ⟨⟨le_refl 0, by norm_num [zeroBBox]⟩, ⟨le_refl 0, by norm_num [zeroBBox]⟩,
      ⟨le_refl 0, by norm_num [zeroBBox]⟩,
      ⟨le_refl 0, by norm_num [zeroBBox]⟩, by norm_num [zeroBBox], by norm_num [zeroBBox],
      by norm_num [zeroBBox], by norm_num [zeroBBox], ?_, fun _ => rfl⟩
    simp only [zeroBBox]
    norm_num [MIN_BBOX_HEIGHT_PX, MIN_BBOX_HEIGHT_FRAC]
  · have hxe : lms.filterMap (fun lm => lm.x) ≠ [] := by
      intro hcon
      apply he
      simp [hcon]
    have hye : lms.filterMap (fun lm => lm.y) ≠ [] := by
      intro hcon
      apply he
      simp [hcon]
    have hminx := hxs _ (minQ_mem _ hxe)
    have hmaxx := hxs _ (maxQ_mem _ hxe)
    have hminy := hys _ (minQ_mem _ hye)
    have hmaxy := hys _ (maxQ_mem _ hye)
    have hmmy : minQ (lms.filterMap (fun lm => lm.y)) ≤ maxQ (lms.filterMap (fun lm => lm.y)) :=
      minQ_le _ _ (maxQ_mem _ hye)
    have hb : bbox_from_landmarks lms w h =
        { x_min := max (minQ (lms.filterMap (fun lm => lm.x))) 0,
          y_min := max (minQ (lms.filterMap (fun lm => lm.y))) 0,
          x_max := min (maxQ (lms.filterMap (fun lm => lm.x))) 1,
          y_max := min (maxQ (lms.filterMap (fun lm => lm.y))) 1,
          height := max (min (maxQ (lms.filterMap (fun lm => lm.y))) 1 -
            max (minQ (lms.filterMap (fun lm => lm.y))) 0) 0,
          height_px := max (min (maxQ (lms.filterMap (fun lm => lm.y))) 1 -
            max (minQ (lms.filterMap (fun lm => lm.y))) 0) 0 * (h : ℚ),
          height_frac := max (min (maxQ (lms.filterMap (fun lm => lm.y))) 1 -
            max (minQ (lms.filterMap (fun lm => lm.y))) 0) 0,
          above_threshold :=
            (MIN_BBOX_HEIGHT_PX ≤ max (min (maxQ (lms.filterMap (fun lm => lm.y))) 1 -
              max (minQ (lms.filterMap (fun lm => lm.y))) 0) 0 * (h : ℚ)) ||
            (MIN_BBOX_HEIGHT_FRAC ≤ max (min (maxQ (lms.filterMap (fun lm => lm.y))) 1 -
              max (minQ (lms.filterMap (fun lm => lm.y))) 0) 0) } := by
      unfold bbox_from_landmarks
      rw [if_neg he]
    have hymin_eq : max (minQ (lms.filterMap (fun lm => lm.y))) 0 =
        minQ (lms.filterMap (fun lm => lm.y)) := max_eq_left hminy.1
    have hymax_eq : min (maxQ (lms.filterMap (fun lm => lm.y))) 1 =
        maxQ (lms.filterMap (fun lm => lm.y)) := min_eq_left hmaxy.2
    have hnonneg : 0 ≤ min (maxQ (lms.filterMap (fun lm => lm.y))) 1 -
        max (minQ (lms.filterMap (fun lm => lm.y))) 0 := by
      rw [hymin_eq, hymax_eq]
      linarith
    rw [hb]
    refine ⟨⟨le_max_right _ 0, max_le hminx.2 (by norm_num)⟩,
      ⟨le_max_right _ 0, max_le hminy.2 (by norm_num)⟩,
      ⟨le_min hmaxx.1 (by norm_num), min_le_right _ 1⟩,
      ⟨le_min hmaxy.1 (by norm_num), min_le_right _ 1⟩,
      max_eq_left hnonneg, le_max_right _ 0, rfl, rfl, ?_, ?_⟩
    · simp only [Bool.or_eq_true, decide_eq_true_eq]
    · intro hcon
      rcases hcon with hcon | hcon
      · exact absurd hcon hxe
      · exact absurd hcon hye

/-- C7 witness: the amended theorem applied at a concrete in-range landmark list. -/
theorem C7_amended_witness :
    0 ≤ (bbox_from_landmarks
      [{ name := "p", x := some (1/2), y := some (1/4) },
       { name := "q", x := some (3/4), y := some (9/10) }] 100 200).x_min := by
  refine (C7_amended
    [{ name := "p", x := some (1/2), y := some (1/4) },
     { name := "q", x := some (3/4), y := some (9/10) }] 100 200 ?_ ?_).1.1
  · intro lm hlm v hv
    fin_cases hlm <;> simp_all <;> constructor <;> linarith
  · intro lm hlm v hv
    fin_cases hlm <;> simp_all <;> constructor <;> linarith

/-- Spec-side lookup of "the same-named entry in the previous smoothed set":
with duplicate names the dictionary comprehension keeps the last one, so the
lookup scans the reversed list. -/
def specFindByName (prev : List Landmark) (n : String) : Option Landmark :=
  prev.reverse.find? (fun p => p.name = n)

lemma previousMap_append (l : List Landmark) (a : Landmark) (n : String) :
    previousMap (l ++ [a]) n = if n = a.name then some a else previousMap l n := by
  simp [previousMap, List.foldl_append]

lemma previousMap_eq_specFind (prev : List Landmark) (n : String) :
    previousMap prev n = specFindByName prev n := by
  induction prev using List.reverseRecOn with
  | nil => rfl
  | append_singleton l a ih =>
    rw [previousMap_append]
    unfold specFindByName
    rw [List.reverse_append]
    by_cases h : n = a.name
    · simp [h, List.find?]
    · have h' : ¬(a.name = n) := fun hc => h hc.symm
      simp only [List.reverse_cons, List.reverse_nil, List.nil_append, List.cons_append,
        List.find?]
      simp only [h', decide_eq_true_eq, if_neg h, decide_False]
      exact ih

/-- The per-landmark EMA merge performed by `smooth_landmarks` when a same-named
previous entry exists. -/
def emaMerge (lm p : Landmark) (alpha : ℚ) : Landmark :=
  { name := lm.name
    x := ema lm.x p.x alpha
    y := ema lm.y p.y alpha
    z := ema lm.z p.z alpha
    conf := ema lm.conf p.conf alpha }

/-- C9: with no previous smoothed set the smoother returns the current set
unchanged; otherwise each current landmark without a same-named previous entry
passes through unchanged and each one with a same-named entry has every scalar
field replaced by `alpha * current + (1 - alpha) * previous`, where a missing
current or previous scalar falls back to the other value unchanged (never an
error, never a substituted zero). -/
theorem C9_smoother (current prev : List Landmark) (alpha : ℚ) :
    smooth_landmarks current none alpha = current ∧
    smooth_landmarks current (some prev) alpha = current.map (fun lm =>
      match specFindByName prev lm.name with
      | none => lm
      | some p => emaMerge lm p alpha) ∧
    (∀ c p : ℚ, ema (some c) (some p) alpha = some (alpha * c + (1 - alpha) * p)) ∧
    (∀ p : Option ℚ, ema none p alpha = p) ∧
    (∀ c : ℚ, ema (some c) none alpha = some c) := by
  refine ⟨rfl, ?_, fun c p => rfl, fun p => by cases p <;> rfl, fun c => rfl⟩
  show (if prev = [] then current
    else current.map (fun lm =>
      match previousMap prev lm.name with
      | none => lm
      | some p => emaMerge lm p alpha)) = _
  by_cases hp : prev = []
  · subst hp
    simp [specFindByName, List.find?]
  · rw [if_neg hp]
    apply List.map_congr_left
    intro lm _
    rw [previousMap_eq_specFind]

/-- One unmatched ("held") frame for a single track: the miss pass of
`update_tracks` clears the current detection and increments the miss counter,
then `_build_track_output` runs on the track. -/
def heldStep (ema_alpha conf_decay : ℚ) (max_hold : ℕ) (frame_index timestamp_ms : ℤ)
    (t : TrackState) : TrackState × TrackOutput :=
  buildTrackOutput ema_alpha conf_decay max_hold
    { t with current_detection := none, missed_frames := t.missed_frames + 1 }
    frame_index timestamp_ms

/-- The track state after `k` consecutive held frames. -/
def heldTrack (ema_alpha conf_decay : ℚ) (max_hold : ℕ) (frame_index timestamp_ms : ℤ)
    (t : TrackState) : ℕ → TrackState
  | 0 => t
  | k + 1 =>
    (heldStep ema_alpha conf_decay max_hold frame_index timestamp_ms
      (heldTrack ema_alpha conf_decay max_hold frame_index timestamp_ms t k)).1

/-- The output emitted on the `h`-th consecutive held frame (`h ≥ 1`). -/
def heldOutput (ema_alpha conf_decay : ℚ) (max_hold : ℕ) (frame_index timestamp_ms : ℤ)
    (t : TrackState) (h : ℕ) : TrackOutput :=
  (heldStep ema_alpha conf_decay max_hold frame_index timestamp_ms
    (heldTrack ema_alpha conf_decay max_hold frame_index timestamp_ms t (h - 1))).2

lemma heldStep_hold (ema_alpha conf_decay : ℚ) (max_hold : ℕ)
    (frame_index timestamp_ms : ℤ) (t : TrackState) (L : List Landmark)
    (hL : t.last_landmarks = some L) (hne : L ≠ []) (hk : t.hold_frames < max_hold) :
    heldStep ema_alpha conf_decay max_hold frame_index timestamp_ms t =
      ({ t with current_detection := none, missed_frames := t.missed_frames + 1,
                current_dropout := t.current_dropout + 1,
                longest_dropout := max t.longest_dropout (t.current_dropout + 1),
                hold_frames := t.hold_frames + 1,
                predicted_frames := t.predicted_frames + 1 },
       { track_id := t.track_id, frame_index := frame_index, timestamp_ms := timestamp_ms,
         landmarks := apply_conf_decay L (conf_decay ^ (t.hold_frames + 1)),
         is_predicted := true, too_small := false, bbox := none }) := by
  unfold heldStep buildTrackOutput buildMissOutput
  have hcond : lastLandmarksTruthy
      { t with current_detection := none, missed_frames := t.missed_frames + 1 } = true ∧
      ({ t with current_detection := none,
                missed_frames := t.missed_frames + 1 } : TrackState).hold_frames < max_hold := by
    refine ⟨?_, hk⟩
    simp [lastLandmarksTruthy, hL, hne]
  rw [if_pos hcond]
  simp [hL]

lemma heldStep_exhausted (ema_alpha conf_decay : ℚ) (max_hold : ℕ)
    (frame_index timestamp_ms : ℤ) (t : TrackState) (hk : ¬t.hold_frames < max_hold) :
    heldStep ema_alpha conf_decay max_hold frame_index timestamp_ms t =
      ({ t with current_detection := none, missed_frames := t.missed_frames + 1,
                current_dropout := t.current_dropout + 1,
                longest_dropout := max t.longest_dropout (t.current_dropout + 1) },
       { track_id := t.track_id, frame_index := frame_index, timestamp_ms := timestamp_ms,
         landmarks := [], is_predicted := false, too_small := false, bbox := none }) := by
  unfold heldStep buildTrackOutput buildMissOutput
  have hcond : ¬(lastLandmarksTruthy
      { t with current_detection := none, missed_frames := t.missed_frames + 1 } = true ∧
      ({ t with current_detection := none,
                missed_frames := t.missed_frames + 1 } : TrackState).hold_frames < max_hold) := by
    rintro ⟨-, hcon⟩
    exact hk hcon
  rw [if_neg hcond]
  rfl

lemma heldTrack_invariant (ema_alpha conf_decay : ℚ) (max_hold : ℕ)
    (frame_index timestamp_ms : ℤ) (t : TrackState) (L : List Landmark)
    (hL : t.last_landmarks = some L) (hne : L ≠ []) (h0 : t.hold_frames = 0) (k : ℕ) :
    (heldTrack ema_alpha conf_decay max_hold frame_index timestamp_ms t k).last_landmarks
      = some L ∧
    (heldTrack ema_alpha conf_decay max_hold frame_index timestamp_ms t k).hold_frames
      = min k max_hold ∧
    (heldTrack ema_alpha conf_decay max_hold frame_index timestamp_ms t k).track_id
      = t.track_id := by
  induction k with
  | zero => exact ⟨hL, by simp [heldTrack, h0], rfl⟩
  | succ k ih =>
    rcases ih with ⟨ihL, ihh, ihid⟩
    show ((heldStep ema_alpha conf_decay max_hold frame_index timestamp_ms
      (heldTrack ema_alpha conf_decay max_hold frame_index timestamp_ms t k)).1).last_landmarks
        = some L ∧
      ((heldStep ema_alpha conf_decay max_hold frame_index timestamp_ms
        (heldTrack ema_alpha conf_decay max_hold frame_index timestamp_ms t k)).1).hold_frames
        = min (k + 1) max_hold ∧
      ((heldStep ema_alpha conf_decay max_hold frame_index timestamp_ms
        (heldTrack ema_alpha conf_decay max_hold frame_index timestamp_ms t k)).1).track_id
        = t.track_id
    by_cases hk : (heldTrack ema_alpha conf_decay max_hold frame_index timestamp_ms
        t k).hold_frames < max_hold
    · rw [heldStep_hold ema_alpha conf_decay max_hold frame_index timestamp_ms _ L ihL hne hk]
      exact ⟨ihL, by simp only []; omega, ihid⟩
    · rw [heldStep_exhausted ema_alpha conf_decay max_hold frame_index timestamp_ms _ hk]
      exact ⟨ihL, by simp only []; omega, ihid⟩

lemma heldOutput_in_budget (ema_alpha conf_decay : ℚ) (max_hold : ℕ)
    (frame_index timestamp_ms : ℤ) (t : TrackState) (L : List Landmark)
    (hL : t.last_landmarks = some L) (hne : L ≠ []) (h0 : t.hold_frames = 0)
    (h : ℕ) (h1 : 1 ≤ h) (hmax : h ≤ max_hold) :
    heldOutput ema_alpha conf_decay max_hold frame_index timestamp_ms t h =
      { track_id := t.track_id, frame_index := frame_index, timestamp_ms := timestamp_ms,
        landmarks := apply_conf_decay L (conf_decay ^ h),
        is_predicted := true, too_small := false, bbox := none } := by
  obtain ⟨hL', hh', hid'⟩ := heldTrack_invariant ema_alpha conf_decay max_hold frame_index
    timestamp_ms t L hL hne h0 (h - 1)
  have hlt : (heldTrack ema_alpha conf_decay max_hold frame_index timestamp_ms
      t (h - 1)).hold_frames < max_hold := by omega
  unfold heldOutput
  rw [heldStep_hold ema_alpha conf_decay max_hold frame_index timestamp_ms _ L hL' hne hlt]
  have hexp : (heldTrack ema_alpha conf_decay max_hold frame_index timestamp_ms
      t (h - 1)).hold_frames + 1 = h := by omega
  rw [hexp]
  simp [hid']

lemma heldOutput_exhausted (ema_alpha conf_decay : ℚ) (max_hold : ℕ)
    (frame_index timestamp_ms : ℤ) (t : TrackState) (L : List Landmark)
    (hL : t.last_landmarks = some L) (hne : L ≠ []) (h0 : t.hold_frames = 0)
    (h : ℕ) (hmax : max_hold < h) :
    heldOutput ema_alpha conf_decay max_hold frame_index timestamp_ms t h =
      { track_id := t.track_id, frame_index := frame_index, timestamp_ms := timestamp_ms,
        landmarks := [], is_predicted := false, too_small := false, bbox := none } := by
  obtain ⟨hL', hh', hid'⟩ := heldTrack_invariant ema_alpha conf_decay max_hold frame_index
    timestamp_ms t L hL hne h0 (h - 1)
  have hnlt : ¬(heldTrack ema_alpha conf_decay max_hold frame_index timestamp_ms
      t (h - 1)).hold_frames < max_hold := by omega
  unfold heldOutput
  rw [heldStep_exhausted ema_alpha conf_decay max_hold frame_index timestamp_ms _ hnlt]
  simp [hid']

/-- C6: for a track entering an unmatched hold run (non-empty last landmark set,
hold counter at zero), the output of the `h`-th consecutive held frame
(`1 ≤ h ≤ MAX_HOLD_FRAMES`) carries exactly the last landmarks with each present
confidence multiplied by `decay_rate ^ h` (coordinates of a landmark whose
coordinates are present are identical, absent confidence stays absent); for a
landmark with strictly positive confidence the emitted confidence strictly
decreases with each additional held frame; and once the hold budget is exhausted
the track emits no landmarks. -/
theorem C6_hold_decay (ema_alpha conf_decay : ℚ) (max_hold : ℕ)
    (frame_index timestamp_ms : ℤ) (t : TrackState) (L : List Landmark)
    (hL : t.last_landmarks = some L) (hne : L ≠ []) (h0 : t.hold_frames = 0)
    (hr0 : 0 < conf_decay) (hr1 : conf_decay < 1) :
    (∀ h, 1 ≤ h → h ≤ max_hold →
      (heldOutput ema_alpha conf_decay max_hold frame_index timestamp_ms t h).landmarks
        = apply_conf_decay L (conf_decay ^ h) ∧
      (heldOutput ema_alpha conf_decay max_hold frame_index timestamp_ms t h).is_predicted
        = true) ∧
    (∀ lm ∈ L, ∀ d : ℚ, lm.x.isSome → lm.y.isSome → lm.z.isSome →
      decayLandmark d lm = { lm with conf := lm.conf.map (fun c => c * d) }) ∧
    (∀ lm ∈ L, lm.conf = none → ∀ d : ℚ, (decayLandmark d lm).conf = none) ∧
    (∀ h, 1 ≤ h → ∀ lm ∈ L, ∀ c : ℚ, lm.conf = some c → 0 < c →
      (decayLandmark (conf_decay ^ (h + 1)) lm).conf = some (c * conf_decay ^ (h + 1)) ∧
      (decayLandmark (conf_decay ^ h) lm).conf = some (c * conf_decay ^ h) ∧
      c * conf_decay ^ (h + 1) < c * conf_decay ^ h) ∧
    (∀ h, max_hold < h →
      (heldOutput ema_alpha conf_decay max_hold frame_index timestamp_ms t h).landmarks
        = [] ∧
      (heldOutput ema_alpha conf_decay max_hold frame_index timestamp_ms t h).is_predicted
        = false) := by
  refine ⟨?_, ?_, ?_, ?_, ?_⟩
  · intro h h1 hmax
    rw [heldOutput_in_budget ema_alpha conf_decay max_hold frame_index timestamp_ms t L
      hL hne h0 h h1 hmax]
    exact ⟨rfl, rfl⟩
  · intro lm _ d hx hy hz
    rcases Option.isSome_iff_exists.mp hx with ⟨vx, hvx⟩
    rcases Option.isSome_iff_exists.mp hy with ⟨vy, hvy⟩
    rcases Option.isSome_iff_exists.mp hz with ⟨vz, hvz⟩
    cases lm
    simp_all [decayLandmark]
  · intro lm _ hconf d
    simp [decayLandmark, hconf]
  · intro h _ lm _ c hconf hc
    refine ⟨by simp [decayLandmark, hconf], by simp [decayLandmark, hconf], ?_⟩
    have hpow : conf_decay ^ (h + 1) < conf_decay ^ h :=
      pow_lt_pow_right_of_lt_one₀ hr0 hr1 (Nat.lt_succ_self h)
    exact mul_lt_mul_of_pos_left hpow hc
  · intro h hmax
    rw [heldOutput_exhausted ema_alpha conf_decay max_hold frame_index timestamp_ms t L
      hL hne h0 h hmax]
    exact ⟨rfl, rfl⟩

/-- Concrete landmark used by the C6 witness. -/
def c6Lm : Landmark :=
  { name := "n", x := some (1/2), y := some (1/3), z := some 0, conf := some 1 }

/-- Concrete held track used by the C6 witness. -/
def c6Track : TrackState := { track_id := 1, last_landmarks := some [c6Lm] }

/-- C6 witness: the hold-decay theorem applied at a concrete track with
`conf_decay = 19/20` and `MAX_HOLD_FRAMES = 3`, evaluated on the first held frame. -/
theorem C6_hold_decay_witness :
    c6Track.last_landmarks = some [c6Lm] ∧ ([c6Lm] ≠ []) ∧ c6Track.hold_frames = 0 ∧
    (0 : ℚ) < 19/20 ∧ (19/20 : ℚ) < 1 ∧
    (heldOutput (2/5) (19/20) 3 0 0 c6Track 1).landmarks
      = apply_conf_decay [c6Lm] ((19/20 : ℚ) ^ 1) :=
  ⟨rfl, by simp, rfl, by norm_num, by norm_num,
   ((C6_hold_decay (2/5) (19/20) 3 0 0 c6Track [c6Lm] rfl (by simp) rfl (by norm_num)
      (by norm_num)).1 1 (by norm_num) (by norm_num)).1⟩

/-- Spec-side Euclidean distance between two centers. -/
noncomputable def euclideanDist (p q : ℚ × ℚ) : ℝ :=
  Real.sqrt (((p.1 : ℝ) - (q.1 : ℝ)) ^ 2 + ((p.2 : ℝ) - (q.2 : ℝ)) ^ 2)

/-- Spec-side assignment cost, written from the spec sentence: `norm` is the
track's last box height when positive and `1` otherwise; `dist_cost` is the
Euclidean distance of the centers divided by `norm`; `size_cost` is the absolute
height difference divided by `norm`; the cost is their sum. -/
noncomputable def specAssignmentCost (last_center : ℚ × ℚ) (last_bbox : BBox)
    (d : Detection) : ℝ :=
  let norm : ℝ := if 0 < last_bbox.height then (last_bbox.height : ℝ) else 1
  euclideanDist last_center d.center / norm +
    |((d.bbox.height : ℝ) - (last_bbox.height : ℝ))| / norm

/-- C2: for a track matched at least once (defined `last_center`/`last_bbox`),
the source cost equals the spec cost `dist_cost + size_cost`, and every
candidate pair of the assignment engine originates from a track whose
`last_center` and `last_bbox` are defined (tracks without them participate in
no candidate pair). -/
theorem C2_assignment_cost (t : TrackState) (d : Detection) (c : ℚ × ℚ) (b : BBox)
    (hc : t.last_center = some c) (hb : t.last_bbox = some b) :
    assignment_cost t d = specAssignmentCost c b d ∧
    (∀ (m : TrackManager) (dets : List Detection) (x : Cand),
      x ∈ m.candidatePairs dets →
      ∃ u ∈ m.tracks, u.last_center.isSome ∧ u.last_bbox.isSome ∧ x.2.1 = u.track_id) := by
  constructor
  · unfold assignment_cost specAssignmentCost euclideanDist hypotQ
    rw [hb, hc]
    simp only [Option.getD_some]
    have hd : Real.sqrt (((d.center.1 : ℝ) - (c.1 : ℝ)) ^ 2 + ((d.center.2 : ℝ) - (c.2 : ℝ)) ^ 2)
        = Real.sqrt (((c.1 : ℝ) - (d.center.1 : ℝ)) ^ 2 + ((c.2 : ℝ) - (d.center.2 : ℝ)) ^ 2) := by
      congr 1
      ring
    rw [show ((d.center.1 - c.1 : ℚ) : ℝ) = (d.center.1 : ℝ) - (c.1 : ℝ) by push_cast; ring,
      show ((d.center.2 - c.2 : ℚ) : ℝ) = (d.center.2 : ℝ) - (c.2 : ℝ) by push_cast; ring, hd]
    by_cases hpos : 0 < b.height
    · rw [if_pos hpos, if_pos hpos]
    · rw [if_neg hpos, if_neg hpos]
      norm_num
  · intro m dets x hx
    rcases List.mem_flatMap.mp hx with ⟨u, hu, hxu⟩
    by_cases hguard : (u.last_center.isNone || u.last_bbox.isNone) = true
    · rw [if_pos hguard] at hxu
      exact absurd hxu (List.not_mem_nil x)
    · rw [if_neg hguard] at hxu
      rcases List.mem_filterMap.mp hxu with ⟨p, _, hp⟩
      by_cases hcost : rle (assignment_cost u p.2) (m.assignment_threshold : ℝ) = true
      · rw [if_pos hcost] at hp
        refine ⟨u, hu, ?_, ?_, ?_⟩
        · cases hcu : u.last_center with
          | none => simp [hcu] at hguard
          | some _ => rfl
        · cases hbu : u.last_bbox with
          | none => simp [hbu] at hguard
          | some _ => rfl
        · obtain rfl := Option.some.inj hp
          rfl
      · rw [if_neg hcost] at hp
        exact Option.noConfusion hp

/-- Concrete box for the C2 witness. -/
def c2BBox : BBox := ⟨0, 0, 1, 1, 1/2, 50, 1/2, true⟩

/-- Concrete matched-once track for the C2 witness. -/
def c2Track : TrackState :=
  { track_id := 1, last_center := some (1/2, 1/2), last_bbox := some c2BBox }

/-- Concrete detection for the C2 witness. -/
def c2Det : Detection :=
  { landmarks := [], bbox := ⟨0, 0, 1, 1, 3/4, 75, 3/4, true⟩, center := (1/4, 1/4),
    scale := 3/4, too_small := false, above_threshold := true }

/-- C2 witness: cost refinement applied at a concrete track/detection pair. -/
theorem C2_assignment_cost_witness :
    c2Track.last_center = some (1/2, 1/2) ∧ c2Track.last_bbox = some c2BBox ∧
    assignment_cost c2Track c2Det = specAssignmentCost (1/2, 1/2) c2BBox c2Det :=
  ⟨rfl, rfl, (C2_assignment_cost c2Track c2Det (1/2, 1/2) c2BBox rfl rfl).1⟩

/-- C10: applying a matched detection to a track — whether above threshold,
below threshold (`too_small`), or injected through the override path — resets
the consecutive-miss counter to zero, and a primary id whose track has a zero
miss counter always passes the primary-drop test and is retained by the
hysteresis filter (it is never dropped from the primary set for missing). -/
theorem C10_match_resets_miss (cap : ℕ) (t : TrackState) (d : Detection) (fi : ℤ)
    (m : TrackManager) (id : ℕ) :
    (trackApply cap t d fi).missed_frames = 0 ∧
    (∀ u ∈ (m.applyDetection id d fi).tracks, u.track_id = id → u.missed_frames = 0) ∧
    ((m.lookup id).isSome →
      ∀ u ∈ (m.overrideDetection id d fi).tracks, u.track_id = id → u.missed_frames = 0) ∧
    (∀ u, m.lookup id = some u → u.missed_frames = 0 → m.keepPrimary id = true) ∧
    (id ∈ m.primary_track_ids → m.keepPrimary id = true →
      id ∈ m.primary_track_ids.filter (fun j => m.keepPrimary j)) := by
  have happly : ∀ u ∈ (m.applyDetection id d fi).tracks, u.track_id = id →
      u.missed_frames = 0 := by
    intro u hu hid
    rcases List.mem_map.mp hu with ⟨v, _, hv⟩
    by_cases hvid : v.track_id = id
    · rw [if_pos hvid] at hv
      rw [← hv]
      rfl
    · rw [if_neg hvid] at hv
      rw [← hv] at hid
      exact absurd hid hvid
  refine ⟨rfl, happly, ?_, ?_, ?_⟩
  · intro hsome u hu hid
    unfold TrackManager.overrideDetection at hu
    rw [if_pos hsome] at hu
    exact happly u hu hid
  · intro u hu hz
    unfold TrackManager.keepPrimary
    rw [hu]
    simp [hz]
  · intro hmem hkeep
    exact List.mem_filter.mpr ⟨hmem, hkeep⟩

/-- Concrete track for the C10 witness (five misses before the match). -/
def c10Track : TrackState := { track_id := 1, missed_frames := 5 }

/-- Concrete manager for the C10 witness. -/
def c10Mgr : TrackManager :=
  { primary_track_count := 1, max_hold_frames := 45, primary_drop_frames := 45,
    ema_alpha := 2/5, conf_decay := 19/20, assignment_threshold := 5/2,
    tracks := [c10Track], primary_track_ids := [1] }

/-- Concrete below-threshold (`too_small`) detection for the C10 witness. -/
def c10Det : Detection :=
  { landmarks := [], bbox := ⟨0, 0, 1, 1, 1/20, 5, 1/20, false⟩, center := (1/2, 1/2),
    scale := 1/20, too_small := true, above_threshold := false }

/-- C10 witness: the reset theorem applied to a concrete too-small override. -/
theorem C10_match_resets_miss_witness :
    (trackApply 30 c10Track c10Det 0).missed_frames = 0 ∧
    (c10Mgr.lookup 1).isSome ∧
    (∀ u ∈ (c10Mgr.overrideDetection 1 c10Det 0).tracks, u.track_id = 1 →
      u.missed_frames = 0) :=
  ⟨(C10_match_resets_miss 30 c10Track c10Det 0 c10Mgr 1).1, by decide,
   (C10_match_resets_miss 30 c10Track c10Det 0 c10Mgr 1).2.2.1 (by decide)⟩

/-- Tracks used by the C5 counterexample. -/
def c5T1 : TrackState := { track_id := 1, missed_frames := 0, height_history_above := [1] }

/-- Long-missed second primary for the C5 counterexample. -/
def c5T2 : TrackState := { track_id := 2, missed_frames := 100, height_history_above := [3] }

/-- Tall non-primary track for the C5 counterexample. -/
def c5T3 : TrackState := { track_id := 3, missed_frames := 0, height_history_above := [5] }

/-- Second tall non-primary track for the C5 counterexample. -/
def c5T4 : TrackState := { track_id := 4, missed_frames := 0, height_history_above := [4] }

/-- Manager for the C5 counterexample: primaries `[1, 2]`, `N = 2`. -/
def c5Mgr : TrackManager :=
  { primary_track_count := 2, max_hold_frames := 45, primary_drop_frames := 45,
    ema_alpha := 2/5, conf_decay := 19/20, assignment_threshold := 5/2,
    tracks := [c5T1, c5T2, c5T3, c5T4], primary_track_ids := [1, 2] }

/-- C5 counterexample: primary track `1` has miss streak `0` (below
`PRIMARY_DROP_FRAMES = 45`), yet after the refresh it is no longer primary:
dropping the long-missed primary `2` leaves the retained set short, the
selector fully recomputes, and the taller non-primary tracks `3` and `4`
displace track `1`.  So an unconditional "retained even if a non-primary track
has a higher average height" is false. -/
theorem C5_counterexample :
    1 ∈ c5Mgr.primary_track_ids ∧
    c5Mgr.lookup 1 = some c5T1 ∧
    c5T1.missed_frames < c5Mgr.primary_drop_frames ∧
    1 ∉ (c5Mgr.refreshPrimary).primary_track_ids := by
  have hres : (c5Mgr.refreshPrimary).primary_track_ids = [3, 4] := by
    norm_num [c5Mgr, c5T1, c5T2, c5T3, c5T4, TrackManager.refreshPrimary,
      TrackManager.keepPrimary, TrackManager.lookup, TrackManager.selectPrimary,
      TrackState.has_above_threshold, TrackState.average_height_above,
      List.find?, List.filter, List.insertionSort, List.orderedInsert]
  refine ⟨by decide, rfl, by decide, ?_⟩
  rw [hres]
  decide

/-- C5 (amended): with a non-empty primary set, the refresh keeps exactly the
primary ids that still exist with miss streak not exceeding
`PRIMARY_DROP_FRAMES`, and fully recomputes by the height ranking only when the
retained set has fewer than `N` ids; in particular a primary track whose miss
streak is within the budget is retained — regardless of any non-primary track's
average height — provided the retained set still has at least `N` ids. -/
theorem C5_refresh_hysteresis (m : TrackManager) (hne : m.primary_track_ids ≠ []) :
    (m.refreshPrimary).primary_track_ids =
      (if (m.primary_track_ids.filter (fun id => m.keepPrimary id)).length
          < m.primary_track_count
       then m.selectPrimary
       else m.primary_track_ids.filter (fun id => m.keepPrimary id)) ∧
    (m.primary_track_count ≤
        (m.primary_track_ids.filter (fun id => m.keepPrimary id)).length →
      ∀ id ∈ m.primary_track_ids, ∀ t, m.lookup id = some t →
        t.missed_frames ≤ m.primary_drop_frames →
        id ∈ (m.refreshPrimary).primary_track_ids) := by
  have hres : (m.refreshPrimary).primary_track_ids =
      (if (m.primary_track_ids.filter (fun id => m.keepPrimary id)).length
          < m.primary_track_count
       then m.selectPrimary
       else m.primary_track_ids.filter (fun id => m.keepPrimary id)) := by
    unfold TrackManager.refreshPrimary
    rw [if_neg hne]
    by_cases hlen : (m.primary_track_ids.filter (fun id => m.keepPrimary id)).length
        < m.primary_track_count
    · rw [if_pos hlen, if_pos hlen]
    · rw [if_neg hlen, if_neg hlen]
  refine ⟨hres, ?_⟩
  intro hlen id hid t hlook hmiss
  have hkeep : m.keepPrimary id = true := by
    unfold TrackManager.keepPrimary
    rw [hlook]
    simpa using hmiss
  rw [hres, if_neg (not_lt.mpr hlen)]
  exact List.mem_filter.mpr ⟨hid, hkeep⟩

/-- Manager for the C5 witness: a single primary with zero miss streak next to a
taller non-primary track. -/
def c5WMgr : TrackManager :=
  { primary_track_count := 1, max_hold_frames := 45, primary_drop_frames := 45,
    ema_alpha := 2/5, conf_decay := 19/20, assignment_threshold := 5/2,
    tracks := [c5T1, c5T3], primary_track_ids := [1] }

/-- C5 witness: the amended hysteresis applied to a concrete manager whose
retained set is full — primary `1` stays primary although non-primary `3` has a
higher average above-threshold height. -/
theorem C5_refresh_hysteresis_witness :
    c5WMgr.primary_track_ids ≠ [] ∧
    c5T1.average_height_above < c5T3.average_height_above ∧
    1 ∈ (c5WMgr.refreshPrimary).primary_track_ids :=
  ⟨by decide,
   by norm_num [c5T1, c5T3, TrackState.average_height_above],
   (C5_refresh_hysteresis c5WMgr (by decide)).2 (by decide) 1 (by decide) c5T1
     rfl (by decide)⟩

/-- The mutated track of the `Active` branch of `_build_track_output`. -/
def activeTrack (alpha : ℚ) (t : TrackState) (d : Detection) : TrackState :=
  { t with last_smoothed := some (smooth_landmarks d.landmarks t.last_smoothed alpha),
           last_landmarks := some (smooth_landmarks d.landmarks t.last_smoothed alpha),
           hold_frames := 0, current_dropout := 0,
           detected_frames := t.detected_frames + 1 }

/-- The emitted record of the `Active` branch of `_build_track_output`. -/
def activeOut (alpha : ℚ) (t : TrackState) (d : Detection)
    (frame_index timestamp_ms : ℤ) : TrackOutput :=
  { track_id := t.track_id, frame_index := frame_index, timestamp_ms := timestamp_ms,
    landmarks := smooth_landmarks d.landmarks t.last_smoothed alpha,
    is_predicted := false, too_small := false, bbox := some d.bbox }

lemma buildTrackOutput_active (ema_alpha conf_decay : ℚ) (max_hold : ℕ) (t : TrackState)
    (d : Detection) (frame_index timestamp_ms : ℤ)
    (hdet : t.current_detection = some d) (habove : d.above_threshold = true) :
    buildTrackOutput ema_alpha conf_decay max_hold t frame_index timestamp_ms =
      (activeTrack ema_alpha t d, activeOut ema_alpha t d frame_index timestamp_ms) := by
  unfold buildTrackOutput
  simp only [hdet]
  rw [if_pos habove]
  simp [activeTrack, activeOut, hdet]

/-- The mutated track of the `TooSmall` branch of `_build_track_output`. -/
def smallTrack (t : TrackState) : TrackState :=
  { t with current_dropout := t.current_dropout + 1,
           longest_dropout := max t.longest_dropout (t.current_dropout + 1),
           hold_frames := 0 }

/-- The emitted record of the `TooSmall` branch of `_build_track_output`. -/
def smallOut (t : TrackState) (d : Detection) (frame_index timestamp_ms : ℤ) : TrackOutput :=
  { track_id := t.track_id, frame_index := frame_index, timestamp_ms := timestamp_ms,
    landmarks := [], is_predicted := false, too_small := true, bbox := some d.bbox }

lemma buildTrackOutput_none (ema_alpha conf_decay : ℚ) (max_hold : ℕ) (t : TrackState)
    (frame_index timestamp_ms : ℤ) (hdet : t.current_detection = none) :
    buildTrackOutput ema_alpha conf_decay max_hold t frame_index timestamp_ms =
      buildMissOutput ema_alpha conf_decay max_hold t none frame_index timestamp_ms := by
  unfold buildTrackOutput
  simp only [hdet]

lemma buildTrackOutput_too_small (ema_alpha conf_decay : ℚ) (max_hold : ℕ) (t : TrackState)
    (d : Detection) (frame_index timestamp_ms : ℤ) (hdet : t.current_detection = some d)
    (h1 : d.above_threshold = false) (h2 : d.too_small = true) :
    buildTrackOutput ema_alpha conf_decay max_hold t frame_index timestamp_ms =
      (smallTrack t, smallOut t d frame_index timestamp_ms) := by
  unfold buildTrackOutput
  simp only [hdet]
  rw [if_neg (by simp [h1]), if_pos h2]
  simp [smallTrack, smallOut, hdet]

lemma buildTrackOutput_other (ema_alpha conf_decay : ℚ) (max_hold : ℕ) (t : TrackState)
    (d : Detection) (frame_index timestamp_ms : ℤ) (hdet : t.current_detection = some d)
    (h1 : d.above_threshold = false) (h2 : d.too_small = false) :
    buildTrackOutput ema_alpha conf_decay max_hold t frame_index timestamp_ms =
      buildMissOutput ema_alpha conf_decay max_hold t (some d) frame_index timestamp_ms := by
  unfold buildTrackOutput
  simp only [hdet]
  rw [if_neg (by simp [h1]), if_neg (by simp [h2])]

lemma buildMissOutput_ids (ema_alpha conf_decay : ℚ) (max_hold : ℕ) (t : TrackState)
    (det : Option Detection) (frame_index timestamp_ms : ℤ) :
    (buildMissOutput ema_alpha conf_decay max_hold t det frame_index timestamp_ms).1.track_id
      = t.track_id ∧
    (buildMissOutput ema_alpha conf_decay max_hold t det frame_index timestamp_ms).2.track_id
      = t.track_id := by
  unfold buildMissOutput
  split <;> exact ⟨rfl, rfl⟩

lemma buildTrackOutput_ids (ema_alpha conf_decay : ℚ) (max_hold : ℕ) (t : TrackState)
    (frame_index timestamp_ms : ℤ) :
    (buildTrackOutput ema_alpha conf_decay max_hold t frame_index timestamp_ms).1.track_id
      = t.track_id ∧
    (buildTrackOutput ema_alpha conf_decay max_hold t frame_index timestamp_ms).2.track_id
      = t.track_id := by
  cases hdet : t.current_detection with
  | none =>
    rw [buildTrackOutput_none ema_alpha conf_decay max_hold t frame_index timestamp_ms hdet]
    exact buildMissOutput_ids ema_alpha conf_decay max_hold t none frame_index timestamp_ms
  | some d =>
    by_cases h1 : d.above_threshold = true
    · rw [buildTrackOutput_active ema_alpha conf_decay max_hold t d frame_index timestamp_ms
        hdet h1]
      exact ⟨rfl, rfl⟩
    · have h1' : d.above_threshold = false := by
        cases hb : d.above_threshold
        · rfl
        · exact absurd hb h1
      by_cases h2 : d.too_small = true
      · rw [buildTrackOutput_too_small ema_alpha conf_decay max_hold t d frame_index
          timestamp_ms hdet h1' h2]
        exact ⟨rfl, rfl⟩
      · have h2' : d.too_small = false := by
          cases hb : d.too_small
          · rfl
          · exact absurd hb h2
        rw [buildTrackOutput_other ema_alpha conf_decay max_hold t d frame_index
          timestamp_ms hdet h1' h2']
        exact buildMissOutput_ids ema_alpha conf_decay max_hold t (some d) frame_index
          timestamp_ms

lemma find?_map_track_ne (l : List TrackState) (j id : ℕ) (x : TrackState)
    (hx : x.track_id = j) (hne : id ≠ j) :
    (l.map (fun u => if u.track_id = j then x else u)).find? (fun u => u.track_id = id)
      = l.find? (fun u => u.track_id = id) := by
  induction l with
  | nil => rfl
  | cons u l ih =>
    by_cases hu : u.track_id = j
    · have hxid : ¬(x.track_id = id) := by rw [hx]; exact fun hc => hne hc.symm
      have huid : ¬(u.track_id = id) := by rw [hu]; exact fun hc => hne hc.symm
      simp only [List.map_cons, if_pos hu]
      rw [List.find?_cons_of_neg _ (by simpa using hxid),
        List.find?_cons_of_neg _ (by simpa using huid)]
      exact ih
    · simp only [List.map_cons, if_neg hu]
      by_cases huid : u.track_id = id
      · rw [List.find?_cons_of_pos _ (by simpa using huid),
          List.find?_cons_of_pos _ (by simpa using huid)]
      · rw [List.find?_cons_of_neg _ (by simpa using huid),
          List.find?_cons_of_neg _ (by simpa using huid)]
        exact ih

lemma find?_map_track_eq (l : List TrackState) (id : ℕ) (x t : TrackState)
    (hx : x.track_id = id) (hl : l.find? (fun u => u.track_id = id) = some t) :
    (l.map (fun u => if u.track_id = id then x else u)).find? (fun u => u.track_id = id)
      = some x := by
  induction l with
  | nil => exact Option.noConfusion hl
  | cons u l ih =>
    by_cases huid : u.track_id = id
    · simp only [List.map_cons, if_pos huid]
      rw [List.find?_cons_of_pos _ (by simpa using hx)]
    · simp only [List.map_cons, if_neg huid]
      rw [List.find?_cons_of_neg _ (by simpa using huid)]
      rw [List.find?_cons_of_neg _ (by simpa using huid)] at hl
      exact ih hl

lemma lookup_track_id (m : TrackManager) (id : ℕ) (t : TrackState)
    (hl : m.lookup id = some t) : t.track_id = id := by
  have := List.find?_some hl
  simpa using this

lemma buildStep_ne (frame_index timestamp_ms : ℤ) (acc : TrackManager × List TrackOutput)
    (j id : ℕ) (hne : id ≠ j) :
    (buildStep frame_index timestamp_ms acc j).1.lookup id = acc.1.lookup id ∧
    (buildStep frame_index timestamp_ms acc j).2.filter (fun o => o.track_id = id)
      = acc.2.filter (fun o => o.track_id = id) ∧
    (buildStep frame_index timestamp_ms acc j).1.ema_alpha = acc.1.ema_alpha := by
  unfold buildStep
  cases hl : acc.1.lookup j with
  | none => exact ⟨rfl, rfl, rfl⟩
  | some t =>
    have htid : t.track_id = j := lookup_track_id acc.1 j t hl
    have hbid := buildTrackOutput_ids acc.1.ema_alpha acc.1.conf_decay acc.1.max_hold_frames
      t frame_index timestamp_ms
    refine ⟨?_, ?_, rfl⟩
    · show TrackManager.lookup _ id = _
      unfold TrackManager.lookup
      exact find?_map_track_ne acc.1.tracks j id _ (hbid.1.trans htid) hne
    · rw [List.filter_append]
      have hQ : ((buildTrackOutput acc.1.ema_alpha acc.1.conf_decay acc.1.max_hold_frames
          t frame_index timestamp_ms).2).track_id = j := hbid.2.trans htid
      have hji : (decide (j = id)) = false := decide_eq_false (fun hc => hne hc.symm)
      simp [List.filter, hQ, hji]

lemma buildFold_preserve (frame_index timestamp_ms : ℤ) (id : ℕ) :
    ∀ (ids : List ℕ) (acc : TrackManager × List TrackOutput), id ∉ ids →
    ((ids.foldl (buildStep frame_index timestamp_ms) acc).1.lookup id = acc.1.lookup id ∧
     (ids.foldl (buildStep frame_index timestamp_ms) acc).2.filter (fun o => o.track_id = id)
       = acc.2.filter (fun o => o.track_id = id))
  | [], _, _ => ⟨rfl, rfl⟩
  | j :: ids, acc, hnot => by
    have hne : id ≠ j := fun h => hnot (h ▸ List.mem_cons_self j ids)
    have hstep := buildStep_ne frame_index timestamp_ms acc j id hne
    have hrest := buildFold_preserve frame_index timestamp_ms id ids
      (buildStep frame_index timestamp_ms acc j) (fun h => hnot (List.mem_cons_of_mem j h))
    exact ⟨hrest.1.trans hstep.1, hrest.2.trans hstep.2.1⟩

/-- The manager after `build_primary_frame` stores back the active-branch track. -/
def activeMgr (m : TrackManager) (id : ℕ) (t : TrackState) (d : Detection) : TrackManager :=
  { m with tracks := m.tracks.map (fun u =>
      if u.track_id = id then activeTrack m.ema_alpha t d else u) }

lemma buildStep_active_eq (frame_index timestamp_ms : ℤ)
    (acc : TrackManager × List TrackOutput) (id : ℕ) (t : TrackState) (d : Detection)
    (hl : acc.1.lookup id = some t) (hdet : t.current_detection = some d)
    (habove : d.above_threshold = true) :
    buildStep frame_index timestamp_ms acc id =
      (activeMgr acc.1 id t d,
       acc.2 ++ [activeOut acc.1.ema_alpha t d frame_index timestamp_ms]) := by
  unfold buildStep
  simp only [hl]
  rw [buildTrackOutput_active acc.1.ema_alpha acc.1.conf_decay acc.1.max_hold_frames
    t d frame_index timestamp_ms hdet habove]
  simp [activeMgr]

lemma buildFold_active (frame_index timestamp_ms : ℤ) (id : ℕ) (t : TrackState)
    (d : Detection) (hdet : t.current_detection = some d)
    (habove : d.above_threshold = true) :
    ∀ (ids : List ℕ) (acc : TrackManager × List TrackOutput), ids.Nodup → id ∈ ids →
      acc.1.lookup id = some t →
      ((ids.foldl (buildStep frame_index timestamp_ms) acc).2.filter
          (fun o => o.track_id = id)
        = acc.2.filter (fun o => o.track_id = id)
          ++ [activeOut acc.1.ema_alpha t d frame_index timestamp_ms] ∧
       (ids.foldl (buildStep frame_index timestamp_ms) acc).1.lookup id
        = some (activeTrack acc.1.ema_alpha t d))
  | [], _, _, hmem, _ => absurd hmem (List.not_mem_nil id)
  | j :: ids, acc, hnd, hmem, hl => by
    rcases List.nodup_cons.mp hnd with ⟨hjnot, hnd'⟩
    by_cases hj : id = j
    · subst hj
      have htid : t.track_id = id := lookup_track_id acc.1 id t hl
      have hstep := buildStep_active_eq frame_index timestamp_ms acc id t d hl hdet habove
      have hlook2 : (buildStep frame_index timestamp_ms acc id).1.lookup id
          = some (activeTrack acc.1.ema_alpha t d) := by
        rw [hstep]
        show TrackManager.lookup _ id = _
        unfold TrackManager.lookup activeMgr
        exact find?_map_track_eq acc.1.tracks id _ t htid hl
      have hpres := buildFold_preserve frame_index timestamp_ms id ids
        (buildStep frame_index timestamp_ms acc id) hjnot
      refine ⟨?_, hpres.1.trans hlook2⟩
      show ((ids.foldl (buildStep frame_index timestamp_ms)
        (buildStep frame_index timestamp_ms acc id)).2).filter (fun o => o.track_id = id) = _
      rw [hpres.2, hstep]
      show ((acc.2 ++ [activeOut acc.1.ema_alpha t d frame_index timestamp_ms]).filter
        (fun o => o.track_id = id)) = _
      rw [List.filter_append]
      have hout : (activeOut acc.1.ema_alpha t d frame_index timestamp_ms).track_id = id :=
        htid
      simp [List.filter, hout]
    · have hne : id ≠ j := hj
      have hstep := buildStep_ne frame_index timestamp_ms acc j id hne
      have hmem' : id ∈ ids := by
        rcases List.mem_cons.mp hmem with h | h
        · exact absurd h hj
        · exact h
      have hrest := buildFold_active frame_index timestamp_ms id t d hdet habove ids
        (buildStep frame_index timestamp_ms acc j) hnd' hmem' (hstep.1.trans hl)
      constructor
      · show ((ids.foldl (buildStep frame_index timestamp_ms)
          (buildStep frame_index timestamp_ms acc j)).2).filter (fun o => o.track_id = id) = _
        rw [hrest.1, hstep.2.1, hstep.2.2]
      · show (ids.foldl (buildStep frame_index timestamp_ms)
          (buildStep frame_index timestamp_ms acc j)).1.lookup id = _
        rw [hrest.2, hstep.2.2]

/-- C3 (amended): for every track in the current primary set (distinct ids) that
is matched this frame to an above-threshold detection, `build_primary_frame`
emits exactly one record for that track, carrying the EMA-smoothed landmarks of
the detection with `is_predicted = false`, and the stored track has its
hold-frame and dropout counters reset to zero and its detected-frame counter
incremented by one. -/
theorem C3_active_lifecycle (m : TrackManager) (frame_index timestamp_ms : ℤ) (id : ℕ)
    (t : TrackState) (d : Detection) (hnd : m.primary_track_ids.Nodup)
    (hid : id ∈ m.primary_track_ids) (hlook : m.lookup id = some t)
    (hdet : t.current_detection = some d) (habove : d.above_threshold = true) :
    (m.buildPrimaryFrame frame_index timestamp_ms).2.filter (fun o => o.track_id = id)
      = [activeOut m.ema_alpha t d frame_index timestamp_ms] ∧
    (m.buildPrimaryFrame frame_index timestamp_ms).1.lookup id
      = some (activeTrack m.ema_alpha t d) ∧
    (activeOut m.ema_alpha t d frame_index timestamp_ms).landmarks
      = smooth_landmarks d.landmarks t.last_smoothed m.ema_alpha ∧
    (activeOut m.ema_alpha t d frame_index timestamp_ms).is_predicted = false ∧
    (activeTrack m.ema_alpha t d).hold_frames = 0 ∧
    (activeTrack m.ema_alpha t d).current_dropout = 0 ∧
    (activeTrack m.ema_alpha t d).detected_frames = t.detected_frames + 1 := by
  have h := buildFold_active frame_index timestamp_ms id t d hdet habove
    m.primary_track_ids (m, []) hnd hid hlook
  refine ⟨?_, h.2, rfl, rfl, rfl, rfl, rfl⟩
  have h1 := h.1
  rw [show ((m, ([] : List TrackOutput)).2).filter (fun o => o.track_id = id) = [] from rfl]
    at h1
  simpa using h1

/-- Above-threshold detection shared by the C3 scenario. -/
def c3Det : Detection :=
  { landmarks := [], bbox := ⟨0, 0, 1, 1, 1, 200, 1, true⟩, center := (1, 1),
    scale := 1, too_small := false, above_threshold := true }

/-- Primary matched track of the C3 scenario. -/
def c3T1 : TrackState := { track_id := 1, current_detection := some c3Det }

/-- Non-primary matched track of the C3 scenario. -/
def c3T2 : TrackState := { track_id := 2, current_detection := some c3Det }

/-- Manager of the C3 scenario: both tracks matched above threshold, only `1`
is primary (`N = 1`). -/
def c3Mgr : TrackManager :=
  { primary_track_count := 1, max_hold_frames := 45, primary_drop_frames := 45,
    ema_alpha := 2/5, conf_decay := 19/20, assignment_threshold := 5/2,
    tracks := [c3T1, c3T2], primary_track_ids := [1] }

/-- C3 counterexample: track `2` is matched this frame to an above-threshold
detection, yet the per-frame processing emits nothing for it and leaves its
counters untouched (`lookup 2` still returns the unmodified track, so its
detected-frame counter is not incremented): `_build_track_output` runs only for
tracks in the primary set, not for every matched track. -/
theorem C3_counterexample :
    c3T2.current_detection = some c3Det ∧ c3Det.above_threshold = true ∧
    (c3Mgr.buildPrimaryFrame 0 0).2.filter (fun o => o.track_id = 2) = [] ∧
    (c3Mgr.buildPrimaryFrame 0 0).1.lookup 2 = some c3T2 := by
  have hfold : c3Mgr.buildPrimaryFrame 0 0 = buildStep 0 0 (c3Mgr, []) 1 := rfl
  have hstep := buildStep_active_eq 0 0 (c3Mgr, []) 1 c3T1 c3Det rfl rfl rfl
  refine ⟨rfl, rfl, ?_, ?_⟩
  · rw [hfold, hstep]
    show (([] : List TrackOutput)
        ++ [activeOut c3Mgr.ema_alpha c3T1 c3Det 0 0]).filter (fun o => o.track_id = 2) = []
    simp [activeOut, c3T1]
  · rw [hfold, hstep]
    show (activeMgr c3Mgr 1 c3T1 c3Det).lookup 2 = some c3T2
    unfold activeMgr TrackManager.lookup
    rw [find?_map_track_ne c3Mgr.tracks 1 2 _ rfl (by decide)]
    rfl

/-- C3 witness: the amended lifecycle theorem applied to the concrete primary
track `1` of the same scenario. -/
theorem C3_active_lifecycle_witness :
    c3Mgr.primary_track_ids.Nodup ∧ 1 ∈ c3Mgr.primary_track_ids ∧
    c3Mgr.lookup 1 = some c3T1 ∧ c3T1.current_detection = some c3Det ∧
    c3Det.above_threshold = true ∧
    (c3Mgr.buildPrimaryFrame 0 0).2.filter (fun o => o.track_id = 1)
      = [activeOut c3Mgr.ema_alpha c3T1 c3Det 0 0] :=
  ⟨by decide, by decide, rfl, rfl, rfl,
   (C3_active_lifecycle c3Mgr 0 0 1 c3T1 c3Det (by decide) (by decide) rfl rfl rfl).1⟩

/-- Spec-side "true maximum length of consecutive miss frames": the greatest `n`
such that `n` consecutive `true` entries occur somewhere in the per-frame miss
list. -/
def missStreakMax (bs : List Bool) : ℕ :=
  Nat.findGreatest (fun n => List.replicate n true <:+: bs) bs.length

/-- The length of the current trailing run of miss frames. -/
def missStreakTrail (bs : List Bool) : ℕ :=
  Nat.findGreatest (fun n => List.replicate n true <:+ bs) bs.length

lemma replicate_suffix_append_true {bs : List Bool} {n : ℕ}
    (h : List.replicate (n + 1) true <:+ bs ++ [true]) : List.replicate n true <:+ bs := by
  rcases h with ⟨u, hu⟩
  rw [List.replicate_succ' n true, ← List.append_assoc] at hu
  exact ⟨u, (List.append_inj' hu (by simp)).1⟩

lemma replicate_suffix_append_true' {bs : List Bool} {n : ℕ}
    (h : List.replicate n true <:+ bs) : List.replicate (n + 1) true <:+ bs ++ [true] := by
  rcases h with ⟨u, hu⟩
  refine ⟨u, ?_⟩
  rw [List.replicate_succ' n true, ← List.append_assoc, hu]

lemma missStreakTrail_append_false (bs : List Bool) :
    missStreakTrail (bs ++ [false]) = 0 := by
  apply Nat.findGreatest_eq_zero_iff.mpr
  intro n hn _ hP
  rcases hP with ⟨u, hu⟩
  rcases n with _ | m
  · exact absurd rfl (Nat.pos_iff_ne_zero.mp hn)
  · rw [List.replicate_succ' m true, ← List.append_assoc] at hu
    have := (List.append_inj' hu (by simp)).2
    simp at this

lemma missStreakTrail_le (bs : List Bool) : missStreakTrail bs ≤ bs.length :=
  Nat.findGreatest_le bs.length

lemma missStreakTrail_spec (bs : List Bool) :
    List.replicate (missStreakTrail bs) true <:+ bs := by
  rcases Nat.eq_zero_or_pos (missStreakTrail bs) with h | h
  · rw [h]
    exact ⟨bs, by simp⟩
  · exact Nat.findGreatest_of_ne_zero rfl (Nat.pos_iff_ne_zero.mp h)

lemma le_missStreakTrail {bs : List Bool} {n : ℕ} (hn : n ≤ bs.length)
    (h : List.replicate n true <:+ bs) : n ≤ missStreakTrail bs :=
  Nat.le_findGreatest hn h

lemma missStreakTrail_append_true (bs : List Bool) :
    missStreakTrail (bs ++ [true]) = missStreakTrail bs + 1 := by
  apply le_antisymm
  · rcases Nat.eq_zero_or_pos (missStreakTrail (bs ++ [true])) with h | h
    · omega
    · rcases Nat.exists_eq_add_of_lt h with ⟨m, hm⟩
      have hP : List.replicate (m + 1) true <:+ bs ++ [true] := by
        have h2 := missStreakTrail_spec (bs ++ [true])
        rwa [show missStreakTrail (bs ++ [true]) = m + 1 by omega] at h2
      have hs := replicate_suffix_append_true hP
      have hmlen : m ≤ bs.length := by
        have := hs.length_le
        simpa using this
      have := le_missStreakTrail hmlen hs
      omega
  · apply le_missStreakTrail
    · have := missStreakTrail_le bs
      simp
      omega
    · exact replicate_suffix_append_true' (missStreakTrail_spec bs)

lemma missStreakMax_le (bs : List Bool) : missStreakMax bs ≤ bs.length :=
  Nat.findGreatest_le bs.length

lemma missStreakMax_spec (bs : List Bool) :
    List.replicate (missStreakMax bs) true <:+: bs := by
  rcases Nat.eq_zero_or_pos (missStreakMax bs) with h | h
  · rw [h]
    exact ⟨[], bs, by simp⟩
  · exact Nat.findGreatest_of_ne_zero rfl (Nat.pos_iff_ne_zero.mp h)

lemma le_missStreakMax {bs : List Bool} {n : ℕ} (hn : n ≤ bs.length)
    (h : List.replicate n true <:+: bs) : n ≤ missStreakMax bs :=
  Nat.le_findGreatest hn h

lemma replicate_infix_last {bs : List Bool} {b : Bool} {n : ℕ}
    (h : List.replicate n true <:+: bs ++ [b]) :
    List.replicate n true <:+: bs ∨ List.replicate n true <:+ bs ++ [b] := by
  rcases h with ⟨s, t, hst⟩
  rcases List.eq_nil_or_concat t with rfl | ⟨t', a, rfl⟩
  · right
    exact ⟨s, by simpa using hst⟩
  · left
    rw [List.concat_eq_append] at hst
    simp only [← List.append_assoc] at hst
    have := (List.append_inj' hst (by simp)).1
    exact ⟨s, t', by simpa [List.append_assoc] using this⟩

lemma missStreakMax_append_false (bs : List Bool) :
    missStreakMax (bs ++ [false]) = missStreakMax bs := by
  apply le_antisymm
  · rcases Nat.eq_zero_or_pos (missStreakMax (bs ++ [false])) with h | h
    · omega
    · have hP : List.replicate (missStreakMax (bs ++ [false])) true <:+: bs ++ [false] :=
        missStreakMax_spec (bs ++ [false])
      rcases replicate_infix_last hP with hin | hsuf
      · refine le_missStreakMax ?_ hin
        have := hin.length_le
        simpa using this
      · rcases Nat.exists_eq_add_of_lt h with ⟨m, hm⟩
        rw [show missStreakMax (bs ++ [false]) = m + 1 by omega] at hsuf
        rcases hsuf with ⟨u, hu⟩
        rw [List.replicate_succ' m true, ← List.append_assoc] at hu
        have := (List.append_inj' hu (by simp)).2
        simp at this
  · apply le_missStreakMax
    · have := missStreakMax_le bs
      simp
      omega
    · have hext : bs <:+: bs ++ [false] := ⟨[], [false], by simp⟩
      exact (missStreakMax_spec bs).trans hext

lemma missStreakMax_append_true (bs : List Bool) :
    missStreakMax (bs ++ [true]) = max (missStreakMax bs) (missStreakTrail bs + 1) := by
  apply le_antisymm
  · rcases Nat.eq_zero_or_pos (missStreakMax (bs ++ [true])) with h | h
    · omega
    · have hP := missStreakMax_spec (bs ++ [true])
      rcases replicate_infix_last hP with hin | hsuf
      · have hlen : missStreakMax (bs ++ [true]) ≤ bs.length := by
          have := hin.length_le
          simpa using this
        have hle := le_missStreakMax hlen hin
        omega
      · rcases Nat.exists_eq_add_of_lt h with ⟨m, hm⟩
        rw [show missStreakMax (bs ++ [true]) = m + 1 by omega] at hsuf
        have hs := replicate_suffix_append_true hsuf
        have hmlen : m ≤ bs.length := by
          have := hs.length_le
          simpa using this
        have htr := le_missStreakTrail hmlen hs
        omega
  · refine max_le ?_ ?_
    · refine le_missStreakMax ?_ ((missStreakMax_spec bs).trans ⟨[], [true], by simp⟩)
      have := missStreakMax_le bs
      simp
      omega
    · refine le_missStreakMax ?_
        (replicate_suffix_append_true' (missStreakTrail_spec bs)).isInfix
      have := missStreakTrail_le bs
      simp
      omega

/-- Whether a per-frame assignment outcome counts as a miss for the dropout
streak: no detection at all, or a detection below the size threshold. -/
def frameMissed (o : Option Detection) : Bool :=
  match o with
  | some d => !d.above_threshold
  | none => true

/-- The assignment-phase effect of one frame on one track: a matched detection
is applied (`_apply_detection`); an unmatched frame clears the current
detection and increments the miss counter (the final loop of `update_tracks`). -/
def frameAssign (cap : ℕ) (frame_index : ℤ) (t : TrackState) (o : Option Detection) :
    TrackState :=
  match o with
  | some d => trackApply cap t d frame_index
  | none => { t with current_detection := none, missed_frames := t.missed_frames + 1 }

/-- One full frame for one track whose output is built: assignment outcome
followed by `_build_track_output`. -/
def frameStep (cap : ℕ) (ema_alpha conf_decay : ℚ) (max_hold : ℕ)
    (frame_index timestamp_ms : ℤ) (t : TrackState) (o : Option Detection) : TrackState :=
  (buildTrackOutput ema_alpha conf_decay max_hold (frameAssign cap frame_index t o)
    frame_index timestamp_ms).1

/-- A run of per-frame outcomes for one track. -/
def trackRun (cap : ℕ) (ema_alpha conf_decay : ℚ) (max_hold : ℕ)
    (frame_index timestamp_ms : ℤ) (t : TrackState) (os : List (Option Detection)) :
    TrackState :=
  os.foldl (frameStep cap ema_alpha conf_decay max_hold frame_index timestamp_ms) t

lemma frameAssign_basic (cap : ℕ) (frame_index : ℤ) (t : TrackState) (o : Option Detection) :
    (frameAssign cap frame_index t o).current_dropout = t.current_dropout ∧
    (frameAssign cap frame_index t o).longest_dropout = t.longest_dropout ∧
    (frameAssign cap frame_index t o).current_detection = o := by
  cases o <;> exact ⟨rfl, rfl, rfl⟩

lemma buildMissOutput_counters (ema_alpha conf_decay : ℚ) (max_hold : ℕ) (t : TrackState)
    (det : Option Detection) (frame_index timestamp_ms : ℤ) :
    (buildMissOutput ema_alpha conf_decay max_hold t det frame_index
      timestamp_ms).1.current_dropout = t.current_dropout + 1 ∧
    (buildMissOutput ema_alpha conf_decay max_hold t det frame_index
      timestamp_ms).1.longest_dropout = max t.longest_dropout (t.current_dropout + 1) := by
  unfold buildMissOutput
  split <;> exact ⟨rfl, rfl⟩

lemma frameStep_counters (cap : ℕ) (ema_alpha conf_decay : ℚ) (max_hold : ℕ)
    (frame_index timestamp_ms : ℤ) (t : TrackState) (o : Option Detection) :
    (frameMissed o = false →
      (frameStep cap ema_alpha conf_decay max_hold frame_index timestamp_ms
        t o).current_dropout = 0 ∧
      (frameStep cap ema_alpha conf_decay max_hold frame_index timestamp_ms
        t o).longest_dropout = t.longest_dropout) ∧
    (frameMissed o = true →
      (frameStep cap ema_alpha conf_decay max_hold frame_index timestamp_ms
        t o).current_dropout = t.current_dropout + 1 ∧
      (frameStep cap ema_alpha conf_decay max_hold frame_index timestamp_ms
        t o).longest_dropout = max t.longest_dropout (t.current_dropout + 1)) := by
  obtain ⟨ha1, ha2, ha3⟩ := frameAssign_basic cap frame_index t o
  cases o with
  | none =>
    refine ⟨fun hcon => by simp [frameMissed] at hcon, fun _ => ?_⟩
    unfold frameStep
    rw [buildTrackOutput_none _ _ _ _ _ _ ha3]
    obtain ⟨hc, hl⟩ := buildMissOutput_counters ema_alpha conf_decay max_hold
      (frameAssign cap frame_index t none) none frame_index timestamp_ms
    rw [hc, hl, ha1, ha2]
    exact ⟨rfl, rfl⟩
  | some d =>
    by_cases hab : d.above_threshold = true
    · refine ⟨fun _ => ?_, fun hcon => by simp [frameMissed, hab] at hcon⟩
      unfold frameStep
      rw [buildTrackOutput_active _ _ _ _ d _ _ ha3 hab]
      exact ⟨rfl, ha2⟩
    · have hab' : d.above_threshold = false := by
        cases hb : d.above_threshold
        · rfl
        · exact absurd hb hab
      refine ⟨fun hcon => by simp [frameMissed, hab'] at hcon, fun _ => ?_⟩
      by_cases hts : d.too_small = true
      · unfold frameStep
        rw [buildTrackOutput_too_small _ _ _ _ d _ _ ha3 hab' hts]
        constructor
        · show (frameAssign cap frame_index t (some d)).current_dropout + 1 = _
          rw [ha1]
        · show max (frameAssign cap frame_index t (some d)).longest_dropout
            ((frameAssign cap frame_index t (some d)).current_dropout + 1) = _
          rw [ha1, ha2]
      · have hts' : d.too_small = false := by
          cases hb : d.too_small
          · rfl
          · exact absurd hb hts
        unfold frameStep
        rw [buildTrackOutput_other _ _ _ _ d _ _ ha3 hab' hts']
        obtain ⟨hc, hl⟩ := buildMissOutput_counters ema_alpha conf_decay max_hold
          (frameAssign cap frame_index t (some d)) (some d) frame_index timestamp_ms
        rw [hc, hl, ha1, ha2]
        exact ⟨rfl, rfl⟩

/-- C4 (amended): for a track whose output is built once per frame (a track in
the primary set), the longest-dropout counter after any run of per-frame
outcomes equals the true maximum length of consecutive frames without an
above-threshold match, the current-dropout counter equals the length of the
trailing run of such frames, and the longest-dropout counter is monotonically
non-decreasing under every per-frame step for every track. -/
theorem C4_longest_dropout (cap : ℕ) (ema_alpha conf_decay : ℚ) (max_hold : ℕ)
    (frame_index timestamp_ms : ℤ) (t0 : TrackState)
    (h1 : t0.current_dropout = 0) (h2 : t0.longest_dropout = 0)
    (os : List (Option Detection)) :
    (trackRun cap ema_alpha conf_decay max_hold frame_index timestamp_ms
      t0 os).longest_dropout = missStreakMax (os.map frameMissed) ∧
    (trackRun cap ema_alpha conf_decay max_hold frame_index timestamp_ms
      t0 os).current_dropout = missStreakTrail (os.map frameMissed) ∧
    (∀ (t : TrackState) (o : Option Detection),
      t.longest_dropout ≤ (frameStep cap ema_alpha conf_decay max_hold frame_index
        timestamp_ms t o).longest_dropout) := by
  have hmono : ∀ (t : TrackState) (o : Option Detection),
      t.longest_dropout ≤ (frameStep cap ema_alpha conf_decay max_hold frame_index
        timestamp_ms t o).longest_dropout := by
    intro t o
    obtain ⟨hfalse, htrue⟩ := frameStep_counters cap ema_alpha conf_decay max_hold
      frame_index timestamp_ms t o
    cases hmiss : frameMissed o
    · rw [(hfalse hmiss).2]
    · rw [(htrue hmiss).2]
      exact le_max_left _ _
  have main : (trackRun cap ema_alpha conf_decay max_hold frame_index timestamp_ms
      t0 os).longest_dropout = missStreakMax (os.map frameMissed) ∧
      (trackRun cap ema_alpha conf_decay max_hold frame_index timestamp_ms
        t0 os).current_dropout = missStreakTrail (os.map frameMissed) := by
    induction os using List.reverseRecOn with
    | nil => exact ⟨by simpa [trackRun] using h2, by simpa [trackRun] using h1⟩
    | append_singleton os o ih =>
      have hfold : trackRun cap ema_alpha conf_decay max_hold frame_index timestamp_ms
          t0 (os ++ [o]) = frameStep cap ema_alpha conf_decay max_hold frame_index
          timestamp_ms (trackRun cap ema_alpha conf_decay max_hold frame_index timestamp_ms
            t0 os) o := by
        unfold trackRun
        rw [List.foldl_append]
        rfl
      obtain ⟨ihL, ihC⟩ := ih
      obtain ⟨hfalse, htrue⟩ := frameStep_counters cap ema_alpha conf_decay max_hold
        frame_index timestamp_ms (trackRun cap ema_alpha conf_decay max_hold frame_index
          timestamp_ms t0 os) o
      have hmap : (os ++ [o]).map frameMissed = os.map frameMissed ++ [frameMissed o] := by
        simp
      cases hmiss : frameMissed o
      · rw [hfold, hmap, hmiss]
        obtain ⟨hc, hl⟩ := hfalse hmiss
        rw [hc, hl, ihL, missStreakMax_append_false, missStreakTrail_append_false]
        exact ⟨rfl, rfl⟩
      · rw [hfold, hmap, hmiss]
        obtain ⟨hc, hl⟩ := htrue hmiss
        rw [hc, hl, ihL, ihC, missStreakMax_append_true, missStreakTrail_append_true]
        exact ⟨rfl, rfl⟩
  exact ⟨main.1, main.2, hmono⟩

/-- Fresh track for the C4 witness. -/
def c4WTrack : TrackState := { track_id := 7 }

/-- C4 witness: the run theorem applied to a fresh track and a one-frame run
with no detection. -/
theorem C4_longest_dropout_witness :
    c4WTrack.current_dropout = 0 ∧ c4WTrack.longest_dropout = 0 ∧
    (trackRun 30 1 1 45 0 0 c4WTrack [none]).longest_dropout
      = missStreakMax ([none].map frameMissed) :=
  ⟨rfl, rfl, (C4_longest_dropout 30 1 1 45 0 0 c4WTrack rfl rfl [none]).1⟩

/-- Primary track of the C4 counterexample scenario. -/
def c4T1 : TrackState := { track_id := 1 }

/-- Non-primary track of the C4 counterexample scenario. -/
def c4T2 : TrackState := { track_id := 2 }

/-- Manager of the C4 counterexample: track `2` is not primary. -/
def c4Mgr : TrackManager :=
  { primary_track_count := 1, max_hold_frames := 45, primary_drop_frames := 45,
    ema_alpha := 1, conf_decay := 1, assignment_threshold := 3,
    tracks := [c4T1, c4T2], primary_track_ids := [1] }

/-- C4 counterexample: after a frame with no detections, track `2` had no
successful match (its miss counter went to `1` and its detection is cleared),
so the true maximum miss streak is `1`, yet its longest-dropout counter is
still `0` — the counter is only maintained for tracks whose output is built
(the primary set), so the unrestricted claim is false. -/
theorem C4_counterexample :
    ((c4Mgr.updateTracks [] 0).buildPrimaryFrame 0 0).1.lookup 2
      = some { c4T2 with current_detection := none, missed_frames := 1 } ∧
    ({ c4T2 with current_detection := none, missed_frames := 1 } : TrackState).longest_dropout
      = 0 ∧
    missStreakMax [true] = 1 := by
  refine ⟨rfl, rfl, ?_⟩
  refine le_antisymm (missStreakMax_le [true]) (le_missStreakMax (by simp) ?_)
  exact ⟨[], [], by simp⟩

instance : IsTotal Cand costLe := ⟨fun a b => le_total a.1 b.1⟩

instance : IsTrans Cand costLe := ⟨fun _ _ _ hab hbc => le_trans hab hbc⟩

/-- Spec-side candidate enumeration, written from the claim's words: all
(track, detection) pairs over participating tracks, kept when the cost is at
most `ASSIGNMENT_THRESHOLD`, tagged with their cost. -/
noncomputable def specCandidates (m : TrackManager) (dets : List Detection) : List Cand :=
  (((m.tracks.filter (fun t => t.last_center.isSome && t.last_bbox.isSome)) ×ˢ
      dets.enum).filter
    (fun p => rle (assignment_cost p.1 p.2.2) (m.assignment_threshold : ℝ))).map
    (fun p => (assignment_cost p.1 p.2.2, p.1.track_id, p.2.1))

/-- Spec-side greedy acceptance: walk the sorted candidates, skip a pair whose
track or detection is already claimed, otherwise accept and claim both. -/
def specGreedy : List Cand → List ℕ → List ℕ → List (ℕ × ℕ)
  | [], _, _ => []
  | c :: rest, uT, uD =>
    if c.2.1 ∈ uT ∨ c.2.2 ∈ uD then specGreedy rest uT uD
    else (c.2.1, c.2.2) :: specGreedy rest (c.2.1 :: uT) (c.2.2 :: uD)

lemma candidateInner_eq (t : TrackState) (th : ℝ) (ps : List (ℕ × Detection)) :
    ps.filterMap (fun p =>
      let cost := assignment_cost t p.2
      if rle cost th then some (cost, t.track_id, p.1) else none)
    = ((ps.map (Prod.mk t)).filter
        (fun q => rle (assignment_cost q.1 q.2.2) th)).map
        (fun q => (assignment_cost q.1 q.2.2, q.1.track_id, q.2.1)) := by
  induction ps with
  | nil => rfl
  | cons p ps ihp =>
    rw [List.filterMap_cons, List.map_cons, List.filter_cons]
    by_cases hc : rle (assignment_cost t p.2) th = true
    · simp only [hc, if_true, List.map_cons]
      rw [ihp]
    · simp only [hc, if_false, Bool.false_eq_true]
      exact ihp

lemma candidatePairs_eq_specCandidates (m : TrackManager) (dets : List Detection) :
    m.candidatePairs dets = specCandidates m dets := by
  unfold TrackManager.candidatePairs specCandidates
  induction m.tracks with
  | nil => rfl
  | cons t ts ih =>
    rw [List.flatMap_cons]
    by_cases hg : (t.last_center.isNone || t.last_bbox.isNone) = true
    · have hg' : (t.last_center.isSome && t.last_bbox.isSome) = false := by
        rcases Bool.or_eq_true_iff.mp hg with h | h
        · simp [Option.isNone_iff_eq_none.mp h]
        · simp [Option.isNone_iff_eq_none.mp h]
      have hfe : List.filter (fun u => u.last_center.isSome && u.last_bbox.isSome) (t :: ts)
          = List.filter (fun u => u.last_center.isSome && u.last_bbox.isSome) ts := by
        rw [List.filter_cons]
        simp [hg']
      rw [if_pos hg, hfe]
      simpa using ih
    · have hg' : (t.last_center.isSome && t.last_bbox.isSome) = true := by
        cases hc : t.last_center with
        | none => exact absurd (by simp [hc]) hg
        | some c =>
          cases hb : t.last_bbox with
          | none => exact absurd (by simp [hb]) hg
          | some b => simp [hc, hb]
      have hfe : List.filter (fun u => u.last_center.isSome && u.last_bbox.isSome) (t :: ts)
          = t :: List.filter (fun u => u.last_center.isSome && u.last_bbox.isSome) ts := by
        rw [List.filter_cons]
        simp [hg']
      rw [if_neg hg, hfe, List.product_cons, List.filter_append, List.map_append,
        ← candidateInner_eq t (m.assignment_threshold : ℝ) dets.enum, ih]

lemma greedyPairs_eq_specGreedy :
    ∀ (l : List Cand) (uT uD : Finset ℕ) (uTl uDl : List ℕ),
    (∀ x, x ∈ uT ↔ x ∈ uTl) → (∀ x, x ∈ uD ↔ x ∈ uDl) →
    greedyPairs l uT uD = specGreedy l uTl uDl
  | [], _, _, _, _, _, _ => rfl
  | c :: rest, uT, uD, uTl, uDl, hT, hD => by
    unfold greedyPairs specGreedy
    by_cases hmem : c.2.1 ∈ uT ∨ c.2.2 ∈ uD
    · have hmem' : c.2.1 ∈ uTl ∨ c.2.2 ∈ uDl := by
        rcases hmem with h | h
        · exact Or.inl ((hT _).mp h)
        · exact Or.inr ((hD _).mp h)
      rw [if_pos hmem, if_pos hmem']
      exact greedyPairs_eq_specGreedy rest uT uD uTl uDl hT hD
    · have hmem' : ¬(c.2.1 ∈ uTl ∨ c.2.2 ∈ uDl) := by
        intro hc
        apply hmem
        rcases hc with h | h
        · exact Or.inl ((hT _).mpr h)
        · exact Or.inr ((hD _).mpr h)
      rw [if_neg hmem, if_neg hmem']
      congr 1
      refine greedyPairs_eq_specGreedy rest _ _ _ _ ?_ ?_
      · intro x
        simp [hT x, or_comm]
      · intro x
        simp [hD x, or_comm]

/-- Applying a list of accepted `(track_id, det_idx)` pairs in order. -/
def applyPairs (dets : List Detection) (frame_index : ℤ) (m : TrackManager)
    (ps : List (ℕ × ℕ)) : TrackManager :=
  ps.foldl (fun acc p => acc.applyDetection p.1 (dets.getD p.2 defaultDet) frame_index) m

lemma applyDetection_ids (m : TrackManager) (id : ℕ) (d : Detection) (frame_index : ℤ) :
    (m.applyDetection id d frame_index).tracks.map (fun t => t.track_id)
      = m.tracks.map (fun t => t.track_id) ∧
    (m.applyDetection id d frame_index).next_id = m.next_id := by
  refine ⟨?_, rfl⟩
  unfold TrackManager.applyDetection
  rw [List.map_map]
  apply List.map_congr_left
  intro t _
  by_cases h : t.track_id = id
  · simp [h, trackApply]
  · simp [h]

lemma applyPairs_ids (dets : List Detection) (frame_index : ℤ) :
    ∀ (ps : List (ℕ × ℕ)) (m : TrackManager),
    (applyPairs dets frame_index m ps).tracks.map (fun t => t.track_id)
      = m.tracks.map (fun t => t.track_id) ∧
    (applyPairs dets frame_index m ps).next_id = m.next_id
  | [], _ => ⟨rfl, rfl⟩
  | p :: ps, m => by
    obtain ⟨h1, h2⟩ := applyPairs_ids dets frame_index ps
      (m.applyDetection p.1 (dets.getD p.2 defaultDet) frame_index)
    obtain ⟨g1, g2⟩ := applyDetection_ids m p.1 (dets.getD p.2 defaultDet) frame_index
    exact ⟨h1.trans g1, h2.trans g2⟩

lemma greedy_foldl_spec (dets : List Detection) (frame_index : ℤ) :
    ∀ (l : List Cand) (st : AssignSt),
    (l.foldl (greedyApply dets frame_index) st).m
      = applyPairs dets frame_index st.m (greedyPairs l st.usedT st.usedD) ∧
    (l.foldl (greedyApply dets frame_index) st).usedT
      = st.usedT ∪ ((greedyPairs l st.usedT st.usedD).map Prod.fst).toFinset ∧
    (l.foldl (greedyApply dets frame_index) st).usedD
      = st.usedD ∪ ((greedyPairs l st.usedT st.usedD).map Prod.snd).toFinset
  | [], st => ⟨rfl, by simp [greedyPairs], by simp [greedyPairs]⟩
  | c :: l, st => by
    rw [List.foldl_cons]
    unfold greedyPairs
    by_cases hmem : c.2.1 ∈ st.usedT ∨ c.2.2 ∈ st.usedD
    · have hskip : greedyApply dets frame_index st c = st := by
        unfold greedyApply
        rw [if_pos hmem]
      rw [if_pos hmem, hskip]
      exact greedy_foldl_spec dets frame_index l st
    · have hstep : greedyApply dets frame_index st c =
          ⟨st.m.applyDetection c.2.1 (dets.getD c.2.2 defaultDet) frame_index,
           insert c.2.1 st.usedT, insert c.2.2 st.usedD⟩ := by
        unfold greedyApply
        rw [if_neg hmem]
      rw [if_neg hmem, hstep]
      obtain ⟨h1, h2, h3⟩ := greedy_foldl_spec dets frame_index l
        ⟨st.m.applyDetection c.2.1 (dets.getD c.2.2 defaultDet) frame_index,
         insert c.2.1 st.usedT, insert c.2.2 st.usedD⟩
      refine ⟨h1, ?_, ?_⟩
    -- used sets: insert then union equals union with the cons'd pair list
      · rw [h2]
        ext x
        simp [or_assoc]
      · rw [h3]
        ext x
        simp [or_assoc]

/-- A freshly constructed `TrackState` (all defaults) with the given id. -/
def freshTrack (id : ℕ) : TrackState := { track_id := id }

/-- The tracks spawned for a list of unmatched (index, detection) pairs,
with consecutively allocated ids starting at `nid`. -/
def spawnedTracks (cap : ℕ) (nid : ℕ) (frame_index : ℤ) :
    List (ℕ × Detection) → List TrackState
  | [] => []
  | p :: ps =>
    trackApply cap (freshTrack nid) p.2 frame_index
      :: spawnedTracks cap (nid + 1) frame_index ps

/-- The set of ids allocated by `k` consecutive spawns starting at `nid`. -/
def spawnIds (nid k : ℕ) : Finset ℕ := (Finset.range k).image (fun i => nid + i)

lemma mem_spawnIds (nid k x : ℕ) : x ∈ spawnIds nid k ↔ nid ≤ x ∧ x < nid + k := by
  unfold spawnIds
  simp only [Finset.mem_image, Finset.mem_range]
  constructor
  · rintro ⟨i, hi, rfl⟩
    omega
  · rintro ⟨h1, h2⟩
    exact ⟨x - nid, by omega, by omega⟩

lemma createTrack_eq (m : TrackManager) (d : Detection) (frame_index : ℤ)
    (hwf : ∀ t ∈ m.tracks, t.track_id < m.next_id) :
    m.createTrack d frame_index =
      ({ m with
          tracks := m.tracks
            ++ [trackApply m.height_window (freshTrack m.next_id) d frame_index],
          next_id := m.next_id + 1 },
       m.next_id) := by
  have htr : (m.tracks ++ [freshTrack m.next_id]).map (fun t =>
        if t.track_id = m.next_id then trackApply m.height_window t d frame_index else t)
      = m.tracks ++ [trackApply m.height_window (freshTrack m.next_id) d frame_index] := by
    rw [List.map_append]
    congr 1
    · conv_rhs => rw [← List.map_id m.tracks]
      apply List.map_congr_left
      intro t ht
      rw [if_neg (Nat.ne_of_lt (hwf t ht))]
      rfl
    · rw [List.map_singleton,
        if_pos (show (freshTrack m.next_id).track_id = m.next_id from rfl)]
  unfold TrackManager.createTrack TrackManager.applyDetection
  simp only [Prod.mk.injEq, TrackManager.mk.injEq, eq_self_iff_true, true_and, and_true]
  exact htr

lemma spawn_foldl_spec (frame_index : ℤ) :
    ∀ (ps : List (ℕ × Detection)) (st : AssignSt),
    (∀ t ∈ st.m.tracks, t.track_id < st.m.next_id) →
    (ps.map Prod.fst).Nodup →
    ((ps.foldl (spawnStep frame_index) st).m =
      { st.m with
        tracks := st.m.tracks ++ spawnedTracks st.m.height_window st.m.next_id frame_index
          (ps.filter (fun p => p.1 ∉ st.usedD)),
        next_id := st.m.next_id + (ps.filter (fun p => p.1 ∉ st.usedD)).length } ∧
    (ps.foldl (spawnStep frame_index) st).usedT =
      st.usedT ∪ spawnIds st.m.next_id (ps.filter (fun p => p.1 ∉ st.usedD)).length ∧
    (ps.foldl (spawnStep frame_index) st).usedD =
      st.usedD ∪ ((ps.filter (fun p => p.1 ∉ st.usedD)).map Prod.fst).toFinset)
  | [], st, _, _ => by
    refine ⟨?_, by simp [spawnIds], by simp⟩
    show st.m = _
    simp [spawnedTracks]
  | p :: ps, st, hwf, hnd => by
    rw [List.foldl_cons, List.filter_cons]
    rw [List.map_cons] at hnd
    rcases List.nodup_cons.mp hnd with ⟨hpnot, hnd'⟩
    by_cases hp : p.1 ∈ st.usedD
    · have hskip : spawnStep frame_index st p = st := by
        unfold spawnStep
        rw [if_pos hp]
      have hcond : (decide (p.1 ∉ st.usedD)) = false := by
        simp [hp]
      rw [hskip, hcond, if_neg (by simp)]
      exact spawn_foldl_spec frame_index ps st hwf hnd'
    · have hcond : (decide (p.1 ∉ st.usedD)) = true := by
        simp [hp]
      have hcreate := createTrack_eq st.m p.2 frame_index hwf
      have hstep : spawnStep frame_index st p =
          ⟨{ st.m with
              tracks := st.m.tracks
                ++ [trackApply st.m.height_window (freshTrack st.m.next_id) p.2 frame_index],
              next_id := st.m.next_id + 1 },
            insert st.m.next_id st.usedT, insert p.1 st.usedD⟩ := by
        unfold spawnStep
        rw [if_neg hp, hcreate]
      rw [hstep, hcond, if_pos (by simp)]
      set st' : AssignSt :=
        ⟨{ st.m with
            tracks := st.m.tracks
              ++ [trackApply st.m.height_window (freshTrack st.m.next_id) p.2 frame_index],
            next_id := st.m.next_id + 1 },
          insert st.m.next_id st.usedT, insert p.1 st.usedD⟩ with hst'
      have hwf' : ∀ t ∈ st'.m.tracks, t.track_id < st'.m.next_id := by
        intro t ht
        rcases List.mem_append.mp ht with h | h
        · exact Nat.lt_succ_of_lt (hwf t h)
        · rcases List.mem_singleton.mp h with rfl
          exact Nat.lt_succ_self _
      obtain ⟨ih1, ih2, ih3⟩ := spawn_foldl_spec frame_index ps st' hwf' hnd'
      have hfiltereq : ps.filter (fun q => q.1 ∉ st'.usedD)
          = ps.filter (fun q => q.1 ∉ st.usedD) := by
        apply List.filter_congr
        intro q hq
        have hqp : q.1 ≠ p.1 := by
          intro hc
          exact hpnot (hc ▸ List.mem_map_of_mem Prod.fst hq)
        simp [hst', Finset.mem_insert, hqp]
      refine ⟨?_, ?_, ?_⟩
      · rw [ih1, hfiltereq]
        show ({ st'.m with tracks := _, next_id := _ } : TrackManager) = _
        rw [show st'.m.height_window = st.m.height_window from rfl,
          show st'.m.next_id = st.m.next_id + 1 from rfl]
        rw [show st'.m.tracks = st.m.tracks
          ++ [trackApply st.m.height_window (freshTrack st.m.next_id) p.2 frame_index]
          from rfl]
        rw [List.append_assoc]
        rw [show ([trackApply st.m.height_window (freshTrack st.m.next_id) p.2 frame_index]
            ++ spawnedTracks st.m.height_window (st.m.next_id + 1) frame_index
              (ps.filter (fun q => q.1 ∉ st.usedD)))
          = spawnedTracks st.m.height_window st.m.next_id frame_index
              (p :: ps.filter (fun q => q.1 ∉ st.usedD)) from rfl]
        show ({ st.m with tracks := _, next_id := (st.m.next_id + 1) + _ } : TrackManager) = _
        rw [show (st.m.next_id + 1) + (ps.filter (fun q => q.1 ∉ st.usedD)).length
          = st.m.next_id + ((p :: ps.filter (fun q => q.1 ∉ st.usedD)).length) by
            simp
            omega]
      · rw [ih2, hfiltereq]
        show (insert st.m.next_id st.usedT) ∪ spawnIds (st.m.next_id + 1) _ = _
        ext x
        simp only [Finset.mem_union, Finset.mem_insert, mem_spawnIds, List.length_cons]
        constructor
        · rintro ((rfl | h) | ⟨h1, h2⟩)
          · exact Or.inr ⟨le_refl _, by omega⟩
          · exact Or.inl h
          · exact Or.inr ⟨by omega, by omega⟩
        · rintro (h | ⟨h1, h2⟩)
          · exact Or.inl (Or.inr h)
          · rcases Nat.eq_or_lt_of_le h1 with heq | hlt
            · exact Or.inl (Or.inl heq.symm)
            · exact Or.inr ⟨by omega, by omega⟩
      · rw [ih3, hfiltereq]
        show (insert p.1 st.usedD) ∪ _ = _
        ext x
        simp only [Finset.mem_union, Finset.mem_insert, List.map_cons, List.toFinset_cons,
          List.mem_toFinset]
        tauto

lemma spawnedTracks_ids (cap : ℕ) (frame_index : ℤ) :
    ∀ (ps : List (ℕ × Detection)) (nid : ℕ) (u : TrackState),
    u ∈ spawnedTracks cap nid frame_index ps →
    nid ≤ u.track_id ∧ u.track_id < nid + ps.length
  | [], _, _, h => absurd h (List.not_mem_nil _)
  | p :: ps, nid, u, h => by
    rcases List.mem_cons.mp h with rfl | h
    · refine ⟨le_refl _, ?_⟩
      show nid < nid + (ps.length + 1)
      omega
    · obtain ⟨h1, h2⟩ := spawnedTracks_ids cap frame_index ps (nid + 1) u h
      refine ⟨by omega, ?_⟩
      simp only [List.length_cons]
      omega

lemma applyPairs_eq_withTracks (dets : List Detection) (frame_index : ℤ) :
    ∀ (ps : List (ℕ × ℕ)) (m : TrackManager),
    applyPairs dets frame_index m ps
      = { m with tracks := (applyPairs dets frame_index m ps).tracks }
  | [], _ => rfl
  | p :: ps, m => by
    show applyPairs dets frame_index
      (m.applyDetection p.1 (dets.getD p.2 defaultDet) frame_index) ps = _
    rw [applyPairs_eq_withTracks dets frame_index ps
      (m.applyDetection p.1 (dets.getD p.2 defaultDet) frame_index)]
    rfl

/-- Spec-side `update_tracks`, assembled from the claim's sentences: greedily
accept the cost-sorted candidate pairs and apply them; every detection left
unmatched spawns exactly one new track; every existing track left unmatched has
its current detection cleared and its miss counter incremented, and no track is
removed; finally the primary set is refreshed. -/
noncomputable def specUpdateTracks (m : TrackManager) (dets : List Detection)
    (frame_index : ℤ) : TrackManager :=
  let pairs := specGreedy (sortPairs (specCandidates m dets)) [] []
  let m1 := applyPairs dets frame_index m pairs
  let um := dets.enum.filter (fun p => p.1 ∉ pairs.map Prod.snd)
  TrackManager.refreshPrimary
    { m1 with
      tracks := (m1.tracks.map (fun t =>
          if t.track_id ∈ pairs.map Prod.fst then t
          else { t with current_detection := none,
                        missed_frames := t.missed_frames + 1 }))
        ++ spawnedTracks m.height_window m.next_id frame_index um,
      next_id := m.next_id + um.length }

lemma updateTracks_eq_spec (m : TrackManager) (dets : List Detection) (frame_index : ℤ)
    (hwf : ∀ t ∈ m.tracks, t.track_id < m.next_id) :
    m.updateTracks dets frame_index = specUpdateTracks m dets frame_index := by
  unfold TrackManager.updateTracks specUpdateTracks
  simp only []
  rw [candidatePairs_eq_specCandidates m dets]
  set S := sortPairs (specCandidates m dets) with hS
  set pairs := specGreedy S [] [] with hpairsdef
  have hgp : greedyPairs S ∅ ∅ = pairs :=
    greedyPairs_eq_specGreedy S ∅ ∅ [] [] (by simp) (by simp)
  set st1 := S.foldl (greedyApply dets frame_index) ⟨m, ∅, ∅⟩ with hst1
  have g1' : st1.m = applyPairs dets frame_index m (greedyPairs S ∅ ∅) :=
    (greedy_foldl_spec dets frame_index S ⟨m, ∅, ∅⟩).1
  rw [hgp] at g1'
  have g2' : st1.usedT = ∅ ∪ ((greedyPairs S ∅ ∅).map Prod.fst).toFinset :=
    (greedy_foldl_spec dets frame_index S ⟨m, ∅, ∅⟩).2.1
  rw [hgp, Finset.empty_union] at g2'
  have g3' : st1.usedD = ∅ ∪ ((greedyPairs S ∅ ∅).map Prod.snd).toFinset :=
    (greedy_foldl_spec dets frame_index S ⟨m, ∅, ∅⟩).2.2
  rw [hgp, Finset.empty_union] at g3'
  have hid1 := (applyPairs_ids dets frame_index pairs m).1
  have hnext1 := (applyPairs_ids dets frame_index pairs m).2
  have hwf1 : ∀ t ∈ st1.m.tracks, t.track_id < st1.m.next_id := by
    intro t ht
    rw [g1'] at ht ⊢
    rw [hnext1]
    have hmem : t.track_id ∈ (applyPairs dets frame_index m pairs).tracks.map
        (fun u => u.track_id) := List.mem_map_of_mem _ ht
    rw [hid1] at hmem
    rcases List.mem_map.mp hmem with ⟨v, hv, hveq⟩
    rw [← hveq]
    exact hwf v hv
  have hnodup : (dets.enum.map Prod.fst).Nodup := by
    rw [List.enum_map_fst]
    exact List.nodup_range dets.length
  obtain ⟨s1, s2, s3⟩ := spawn_foldl_spec frame_index dets.enum st1 hwf1 hnodup
  have hfil : dets.enum.filter (fun p => p.1 ∉ st1.usedD)
      = dets.enum.filter (fun p => p.1 ∉ pairs.map Prod.snd) := by
    apply List.filter_congr
    intro p _
    rw [g3']
    simp [List.mem_toFinset]
  rw [hfil] at s1 s2 s3
  set um := dets.enum.filter (fun p => p.1 ∉ pairs.map Prod.snd) with hum
  have hshape := applyPairs_eq_withTracks dets frame_index pairs m
  have hhw : st1.m.height_window = m.height_window := by
    rw [g1', hshape]
  have hnext1' : st1.m.next_id = m.next_id := by
    rw [g1', hnext1]
  rw [hhw, hnext1'] at s1
  rw [hnext1'] at s2
  set st2 := dets.enum.foldl (spawnStep frame_index) st1 with hst2
  rw [g2'] at s2
  -- compute the miss pass
  have hmain : missPass st2.m st2.usedT =
      { applyPairs dets frame_index m pairs with
        tracks := ((applyPairs dets frame_index m pairs).tracks.map (fun t =>
            if t.track_id ∈ pairs.map Prod.fst then t
            else { t with current_detection := none,
                          missed_frames := t.missed_frames + 1 }))
          ++ spawnedTracks m.height_window m.next_id frame_index um,
        next_id := m.next_id + um.length } := by
    unfold missPass
    rw [s1]
    have htrackseq : (st1.m.tracks ++ spawnedTracks m.height_window m.next_id frame_index
        um).map (fun t => if t.track_id ∈ st2.usedT then t
          else { t with current_detection := none,
                        missed_frames := t.missed_frames + 1 })
        = ((applyPairs dets frame_index m pairs).tracks.map (fun t =>
            if t.track_id ∈ pairs.map Prod.fst then t
            else { t with current_detection := none,
                          missed_frames := t.missed_frames + 1 }))
          ++ spawnedTracks m.height_window m.next_id frame_index um := by
      rw [List.map_append]
      congr 1
      · rw [← g1']
        apply List.map_congr_left
        intro t ht
        have hlt : t.track_id < m.next_id := by
          have := hwf1 t ht
          rwa [hnext1'] at this
        have hiff : t.track_id ∈ st2.usedT ↔ t.track_id ∈ pairs.map Prod.fst := by
          rw [s2]
          simp only [Finset.mem_union, List.mem_toFinset, mem_spawnIds]
          constructor
          · rintro (h | ⟨h1, _⟩)
            · exact h
            · omega
          · intro h
            exact Or.inl h
        exact if_congr hiff rfl rfl
      · conv_rhs => rw [← List.map_id (spawnedTracks m.height_window m.next_id frame_index um)]
        apply List.map_congr_left
        intro u hu
        obtain ⟨h1, h2⟩ := spawnedTracks_ids m.height_window frame_index um m.next_id u hu
        have hmem : u.track_id ∈ st2.usedT := by
          rw [s2]
          simp only [Finset.mem_union, mem_spawnIds]
          exact Or.inr ⟨h1, h2⟩
        rw [if_pos hmem]
        rfl
    rw [htrackseq, g1', hshape]
  rw [hmain, hshape]

/-- C1: the assignment engine enumerates exactly the candidate pairs with cost
at most the threshold, sorts them ascending by cost (a stable sorted
permutation), greedily accepts them skipping claimed tracks/detections, spawns
one new track per unmatched detection, and marks unmatched tracks missed
(detection cleared, miss counter incremented) without removing them — i.e.
`update_tracks` equals the spec-side pipeline assembled from the claim. -/
theorem C1_assignment_engine (m : TrackManager) (dets : List Detection) (frame_index : ℤ)
    (hwf : ∀ t ∈ m.tracks, t.track_id < m.next_id) :
    m.candidatePairs dets = specCandidates m dets ∧
    List.Perm (sortPairs (m.candidatePairs dets)) (m.candidatePairs dets) ∧
    List.Sorted costLe (sortPairs (m.candidatePairs dets)) ∧
    (∀ a b : Cand, costLe a b → List.Sublist [a, b] (m.candidatePairs dets) →
      List.Sublist [a, b] (sortPairs (m.candidatePairs dets))) ∧
    m.assignmentPairs dets = specGreedy (sortPairs (specCandidates m dets)) [] [] ∧
    m.updateTracks dets frame_index = specUpdateTracks m dets frame_index := by
  letI : DecidableRel costLe := fun _ _ => Classical.propDecidable _
  refine ⟨candidatePairs_eq_specCandidates m dets, ?_, ?_, ?_, ?_,
    updateTracks_eq_spec m dets frame_index hwf⟩
  · exact List.perm_insertionSort costLe (m.candidatePairs dets)
  · exact List.sorted_insertionSort costLe (m.candidatePairs dets)
  · intro a b hab hsub
    exact List.pair_sublist_insertionSort hab hsub
  · unfold TrackManager.assignmentPairs
    rw [candidatePairs_eq_specCandidates m dets]
    exact greedyPairs_eq_specGreedy _ ∅ ∅ [] [] (by simp) (by simp)

/-- Concrete manager for the C1 witness. -/
def c1Mgr : TrackManager :=
  { primary_track_count := 1, max_hold_frames := 45, primary_drop_frames := 45,
    ema_alpha := 2/5, conf_decay := 19/20, assignment_threshold := 5/2,
    tracks := [{ track_id := 1 }], primary_track_ids := [], next_id := 2 }

/-- C1 witness: the refinement applied to a concrete well-formed manager. -/
theorem C1_assignment_engine_witness :
    (∀ t ∈ c1Mgr.tracks, t.track_id < c1Mgr.next_id) ∧
    c1Mgr.updateTracks [] 0 = specUpdateTracks c1Mgr [] 0 :=
  ⟨by decide, (C1_assignment_engine c1Mgr [] 0 (by decide)).2.2.2.2.2⟩

/- ### C8 groundwork: generic list lemmas -/

lemma findq_eq_head_filter {α : Type} (p : α → Bool) :
    ∀ (l : List α), l.find? p = (l.filter p).head?
  | [] => rfl
  | a :: l => by
    cases h : p a
    · rw [List.find?_cons_of_neg _ (by simp [h]), List.filter_cons_of_neg (by simp [h])]
      exact findq_eq_head_filter p l
    · rw [List.find?_cons_of_pos _ h, List.filter_cons_of_pos h]
      rfl

lemma findq_append {α : Type} (p : α → Bool) :
    ∀ (l1 l2 : List α), (l1 ++ l2).find? p = ((l1.find? p).or (l2.find? p))
  | [], _ => rfl
  | a :: l1, l2 => by
    cases h : p a
    · rw [List.cons_append, List.find?_cons_of_neg _ (by simp [h]),
        List.find?_cons_of_neg _ (by simp [h]), findq_append p l1 l2]
    · rw [List.cons_append, List.find?_cons_of_pos _ h, List.find?_cons_of_pos _ h]
      rfl

lemma nodup_of_len_le_one {α : Type} : ∀ (l : List α), l.length ≤ 1 → l.Nodup
  | [], _ => List.nodup_nil
  | [a], _ => List.nodup_singleton a
  | _ :: _ :: _, h => by simp at h

lemma filter_eq_single_of_keys {α β : Type} [DecidableEq α] [DecidableEq β] :
    ∀ (l : List (α × β)) (e : α × β), (l.map Prod.fst).Nodup → e ∈ l →
    l.filter (fun x => decide (x = e)) = [e]
  | [], e, _, he => absurd he (List.not_mem_nil e)
  | a :: l, e, hnd, he => by
    rw [List.map_cons] at hnd
    rcases List.nodup_cons.mp hnd with ⟨hfst, hnd'⟩
    rcases List.mem_cons.mp he with rfl | he'
    · rw [List.filter_cons_of_pos (by simp)]
      have hnil : l.filter (fun x => decide (x = e)) = [] := by
        apply List.filter_eq_nil_iff.mpr
        intro x hx
        simp only [decide_eq_true_eq]
        intro hxa
        exact hfst (hxa ▸ List.mem_map_of_mem Prod.fst hx)
      rw [hnil]
    · have hne : a ≠ e := by
        intro hc
        exact hfst (by rw [hc]; exact List.mem_map_of_mem Prod.fst he')
      rw [List.filter_cons_of_neg (by simp [hne])]
      exact filter_eq_single_of_keys l e hnd' he'

lemma product_filter_key {α β : Type} [DecidableEq β] (p : α → Bool) (e : β) :
    ∀ (l1 : List α) (l2 : List β), l2.filter (fun x => decide (x = e)) = [e] →
    (l1 ×ˢ l2).filter (fun q => p q.1 && decide (q.2 = e))
      = (l1.filter p).map (fun a => (a, e))
  | [], _, _ => rfl
  | a :: l1, l2, he => by
    rw [List.product_cons, List.filter_append]
    have hblock : (l2.map (Prod.mk a)).filter (fun q => p q.1 && decide (q.2 = e))
        = if p a = true then [(a, e)] else [] := by
      rw [List.filter_map]
      cases hpa : p a
      · have hz : (l2.filter ((fun q => p q.1 && decide (q.2 = e)) ∘ Prod.mk a)) = [] := by
          apply List.filter_eq_nil_iff.mpr
          intro x _
          simp [hpa]
        rw [hz]
        simp
      · have hz : (l2.filter ((fun q => p q.1 && decide (q.2 = e)) ∘ Prod.mk a))
            = l2.filter (fun x => decide (x = e)) := by
          apply List.filter_congr
          intro x _
          simp [hpa]
        rw [hz, he]
        simp
    rw [hblock, product_filter_key p e l1 l2 he, List.filter_cons]
    cases hpa : p a <;> simp [hpa]

lemma findq_of_unique {α : Type} (p : α → Bool) :
    ∀ (l : List α) (x : α), x ∈ l → p x = true → (∀ y ∈ l, p y = true → y = x) →
    l.find? p = some x
  | [], x, hx, _, _ => absurd hx (List.not_mem_nil x)
  | a :: l, x, hx, hpx, hu => by
    cases ha : p a
    · rw [List.find?_cons_of_neg _ (by simp [ha])]
      have hx' : x ∈ l := by
        rcases List.mem_cons.mp hx with rfl | h
        · rw [hpx] at ha
          exact Bool.noConfusion ha
        · exact h
      exact findq_of_unique p l x hx' hpx (fun y hy => hu y (List.mem_cons_of_mem a hy))
    · rw [List.find?_cons_of_pos _ ha]
      exact congrArg some (hu a (List.mem_cons_self a l) ha)

lemma findq_first_of {α : Type} (Pb Pz : α → Bool) :
    ∀ (l : List α) (x : α),
    (l.find? Pz = none ∨ l.find? Pz = some x) →
    x ∈ l → Pb x = true →
    (∀ u ∈ l, Pb u = true → u = x ∨ Pz u = true) →
    l.find? Pb = some x
  | [], x, _, hx, _, _ => absurd hx (List.not_mem_nil x)
  | a :: l, x, hz, hx, hbx, himp => by
    by_cases hax : a = x
    · subst hax
      exact List.find?_cons_of_pos _ hbx
    · have hza : Pz a = false := by
        cases hpa : Pz a
        · rfl
        · exfalso
          have hsome : (a :: l).find? Pz = some a := List.find?_cons_of_pos _ hpa
          rcases hz with h | h
          · rw [hsome] at h
            exact Option.noConfusion h
          · rw [hsome] at h
            exact hax (Option.some.inj h)
      have hba : Pb a = false := by
        cases hpa : Pb a
        · rfl
        · rcases himp a (List.mem_cons_self a l) hpa with h | h
          · exact absurd h hax
          · rw [h] at hza
            exact Bool.noConfusion hza
      rw [List.find?_cons_of_neg _ (by simp [hba])]
      have hz' : l.find? Pz = none ∨ l.find? Pz = some x := by
        rwa [List.find?_cons_of_neg _ (by simp [hza])] at hz
      have hx' : x ∈ l := by
        rcases List.mem_cons.mp hx with rfl | h
        · exact absurd rfl hax
        · exact h
      exact findq_first_of Pb Pz l x hz' hx' hbx
        (fun u hu hb => himp u (List.mem_cons_of_mem a hu) hb)

lemma track_eq_of_id {l : List TrackState} (hnd : (l.map (fun t => t.track_id)).Nodup)
    {u v : TrackState} (hu : u ∈ l) (hv : v ∈ l) (h : u.track_id = v.track_id) : u = v := by
  induction l with
  | nil => exact absurd hu (List.not_mem_nil u)
  | cons a l ih =>
    rw [List.map_cons] at hnd
    rcases List.nodup_cons.mp hnd with ⟨hfst, hnd'⟩
    rcases List.mem_cons.mp hu with rfl | hu'
    · rcases List.mem_cons.mp hv with rfl | hv'
      · rfl
      · exact absurd (by rw [h]; exact List.mem_map_of_mem (fun t => t.track_id) hv') hfst
    · rcases List.mem_cons.mp hv with rfl | hv'
      · exact absurd (by rw [← h]; exact List.mem_map_of_mem (fun t => t.track_id) hu') hfst
      · exact ih hnd' hu' hv'

lemma pairs_snd_unique {l : List (ℕ × ℕ)} (hnd : (l.map Prod.snd).Nodup)
    {a b c : ℕ} (h1 : (a, c) ∈ l) (h2 : (b, c) ∈ l) : a = b := by
  induction l with
  | nil => exact absurd h1 (List.not_mem_nil _)
  | cons q l ih =>
    rw [List.map_cons] at hnd
    rcases List.nodup_cons.mp hnd with ⟨hfst, hnd'⟩
    rcases List.mem_cons.mp h1 with rfl | h1'
    · rcases List.mem_cons.mp h2 with h | h2'
      · exact ((Prod.mk.injEq _ _ _ _).mp h.symm).1
      · exact absurd (List.mem_map_of_mem Prod.snd h2') hfst
    · rcases List.mem_cons.mp h2 with rfl | h2'
      · exact absurd (List.mem_map_of_mem Prod.snd h1') hfst
      · exact ih hnd' h1' h2'

lemma pairs_fst_unique {l : List (ℕ × ℕ)} (hnd : (l.map Prod.fst).Nodup)
    {a b c : ℕ} (h1 : (a, b) ∈ l) (h2 : (a, c) ∈ l) : b = c := by
  induction l with
  | nil => exact absurd h1 (List.not_mem_nil _)
  | cons q l ih =>
    rw [List.map_cons] at hnd
    rcases List.nodup_cons.mp hnd with ⟨hfst, hnd'⟩
    rcases List.mem_cons.mp h1 with rfl | h1'
    · rcases List.mem_cons.mp h2 with h | h2'
      · exact ((Prod.mk.injEq _ _ _ _).mp h.symm).2
      · exact absurd (List.mem_map_of_mem Prod.fst h2') hfst
    · rcases List.mem_cons.mp h2 with rfl | h2'
      · exact absurd (List.mem_map_of_mem Prod.fst h1') hfst
      · exact ih hnd' h1' h2'

/- ### C8 groundwork: greedy-loop structure -/

lemma rle_true_iff (a b : ℝ) : rle a b = true ↔ a ≤ b := by
  unfold rle
  rw [decide_eq_true_eq]

/-- A candidate entry with zero cost (float test `cost <= 0`). -/
noncomputable def rZero (c : Cand) : Bool := rle c.1 0

/-- A candidate entry that is a zero-cost claim of detection index `i`. -/
noncomputable def isClaim (i : ℕ) (c : Cand) : Bool := rZero c && decide (c.2.2 = i)

lemma greedyPairs_fresh :
    ∀ (l : List Cand) (uT uD : Finset ℕ) (p : ℕ × ℕ), p ∈ greedyPairs l uT uD →
      (∃ c : Cand, (c.2.1, c.2.2) = p ∧ c ∈ l) ∧ p.1 ∉ uT ∧ p.2 ∉ uD
  | [], _, _, p, h => absurd h (List.not_mem_nil p)
  | c :: l, uT, uD, p, h => by
    unfold greedyPairs at h
    by_cases hm : c.2.1 ∈ uT ∨ c.2.2 ∈ uD
    · rw [if_pos hm] at h
      obtain ⟨⟨d, hd1, hd2⟩, h1, h2⟩ := greedyPairs_fresh l uT uD p h
      exact ⟨⟨d, hd1, List.mem_cons_of_mem c hd2⟩, h1, h2⟩
    · rw [if_neg hm] at h
      push_neg at hm
      rcases List.mem_cons.mp h with rfl | h'
      · exact ⟨⟨c, rfl, List.mem_cons_self c l⟩, hm.1, hm.2⟩
      · obtain ⟨⟨d, hd1, hd2⟩, h1, h2⟩ := greedyPairs_fresh l _ _ p h'
        refine ⟨⟨d, hd1, List.mem_cons_of_mem c hd2⟩, ?_, ?_⟩
        · exact fun hc => h1 (Finset.mem_insert_of_mem hc)
        · exact fun hc => h2 (Finset.mem_insert_of_mem hc)

lemma greedyPairs_fst_nodup :
    ∀ (l : List Cand) (uT uD : Finset ℕ), ((greedyPairs l uT uD).map Prod.fst).Nodup
  | [], _, _ => List.nodup_nil
  | c :: l, uT, uD => by
    unfold greedyPairs
    by_cases hm : c.2.1 ∈ uT ∨ c.2.2 ∈ uD
    · rw [if_pos hm]
      exact greedyPairs_fst_nodup l uT uD
    · rw [if_neg hm, List.map_cons, List.nodup_cons]
      refine ⟨?_, greedyPairs_fst_nodup l _ _⟩
      intro hc
      rcases List.mem_map.mp hc with ⟨p, hp, hpe⟩
      exact (greedyPairs_fresh l _ _ p hp).2.1
        (by rw [hpe]; exact Finset.mem_insert_self c.2.1 uT)

lemma greedyPairs_snd_nodup :
    ∀ (l : List Cand) (uT uD : Finset ℕ), ((greedyPairs l uT uD).map Prod.snd).Nodup
  | [], _, _ => List.nodup_nil
  | c :: l, uT, uD => by
    unfold greedyPairs
    by_cases hm : c.2.1 ∈ uT ∨ c.2.2 ∈ uD
    · rw [if_pos hm]
      exact greedyPairs_snd_nodup l uT uD
    · rw [if_neg hm, List.map_cons, List.nodup_cons]
      refine ⟨?_, greedyPairs_snd_nodup l _ _⟩
      intro hc
      rcases List.mem_map.mp hc with ⟨p, hp, hpe⟩
      exact (greedyPairs_fresh l _ _ p hp).2.2
        (by rw [hpe]; exact Finset.mem_insert_self c.2.2 uD)

lemma greedyPairs_append :
    ∀ (l1 l2 : List Cand) (uT uD : Finset ℕ),
    greedyPairs (l1 ++ l2) uT uD = greedyPairs l1 uT uD
      ++ greedyPairs l2 (uT ∪ ((greedyPairs l1 uT uD).map Prod.fst).toFinset)
                        (uD ∪ ((greedyPairs l1 uT uD).map Prod.snd).toFinset)
  | [], l2, uT, uD => by
    show greedyPairs l2 uT uD = [] ++ greedyPairs l2 (uT ∪ _) (uD ∪ _)
    rw [List.nil_append]
    have h1 : uT ∪ (([] : List (ℕ × ℕ)).map Prod.fst).toFinset = uT := by
      simp
    have h2 : uD ∪ (([] : List (ℕ × ℕ)).map Prod.snd).toFinset = uD := by
      simp
    rw [show greedyPairs ([] : List Cand) uT uD = [] from rfl, h1, h2]
  | c :: l1, l2, uT, uD => by
    by_cases hm : c.2.1 ∈ uT ∨ c.2.2 ∈ uD
    · have h1 : greedyPairs ((c :: l1) ++ l2) uT uD = greedyPairs (l1 ++ l2) uT uD := by
        rw [List.cons_append]
        simp only [greedyPairs]
        rw [if_pos hm]
      have h2 : greedyPairs (c :: l1) uT uD = greedyPairs l1 uT uD := by
        simp only [greedyPairs]
        rw [if_pos hm]
      rw [h1, h2, greedyPairs_append l1 l2 uT uD]
    · have h1 : greedyPairs ((c :: l1) ++ l2) uT uD
          = (c.2.1, c.2.2) :: greedyPairs (l1 ++ l2) (insert c.2.1 uT) (insert c.2.2 uD) := by
        rw [List.cons_append]
        simp only [greedyPairs]
        rw [if_neg hm]
      have h2 : greedyPairs (c :: l1) uT uD
          = (c.2.1, c.2.2) :: greedyPairs l1 (insert c.2.1 uT) (insert c.2.2 uD) := by
        simp only [greedyPairs]
        rw [if_neg hm]
      rw [h1, h2, greedyPairs_append l1 l2 (insert c.2.1 uT) (insert c.2.2 uD),
        List.cons_append]
      have hA : insert c.2.1 uT
            ∪ ((greedyPairs l1 (insert c.2.1 uT) (insert c.2.2 uD)).map Prod.fst).toFinset
          = uT ∪ (((c.2.1, c.2.2) :: greedyPairs l1 (insert c.2.1 uT) (insert c.2.2 uD)).map
              Prod.fst).toFinset := by
        ext x
        simp only [Finset.mem_union, Finset.mem_insert, List.map_cons, List.toFinset_cons,
          List.mem_toFinset]
        tauto
      have hB : insert c.2.2 uD
            ∪ ((greedyPairs l1 (insert c.2.1 uT) (insert c.2.2 uD)).map Prod.snd).toFinset
          = uD ∪ (((c.2.1, c.2.2) :: greedyPairs l1 (insert c.2.1 uT) (insert c.2.2 uD)).map
              Prod.snd).toFinset := by
        ext x
        simp only [Finset.mem_union, Finset.mem_insert, List.map_cons, List.toFinset_cons,
          List.mem_toFinset]
        tauto
      rw [hA, hB]

lemma greedyPairs_all_used :
    ∀ (l : List Cand) (uT uD : Finset ℕ), (∀ c ∈ l, c.2.2 ∈ uD) → greedyPairs l uT uD = []
  | [], _, _, _ => rfl
  | c :: l, uT, uD, h => by
    unfold greedyPairs
    rw [if_pos (Or.inr (h c (List.mem_cons_self c l)))]
    exact greedyPairs_all_used l uT uD (fun d hd => h d (List.mem_cons_of_mem c hd))

lemma greedy_zero_first :
    ∀ (l : List Cand) (uT uD : Finset ℕ) (i : ℕ) (z : Cand),
    (∀ c ∈ l, c.1 = 0) →
    ((l.map (fun c => c.2.1)).Nodup) →
    (∀ c ∈ l, c.2.1 ∉ uT) →
    i ∉ uD →
    (l.filter (isClaim i)).head? = some z →
    (z.2.1, i) ∈ greedyPairs l uT uD
  | [], _, _, _, z, _, _, _, _, hhead => by
    rw [List.filter_nil] at hhead
    exact Option.noConfusion hhead
  | c :: l, uT, uD, i, z, hz, hnd, hfresh, hiD, hhead => by
    rw [List.map_cons] at hnd
    rcases List.nodup_cons.mp hnd with ⟨hcnot, hnd'⟩
    by_cases hcl : isClaim i c = true
    · rw [List.filter_cons_of_pos hcl] at hhead
      have hzc : z = c := (Option.some.inj hhead).symm
      have hdet : c.2.2 = i := by
        have := (Bool.and_eq_true _ _).mp hcl
        exact of_decide_eq_true this.2
      have hnot : ¬(c.2.1 ∈ uT ∨ c.2.2 ∈ uD) := by
        rintro (h | h)
        · exact hfresh c (List.mem_cons_self c l) h
        · rw [hdet] at h
          exact hiD h
      unfold greedyPairs
      rw [if_neg hnot, hzc, ← hdet]
      exact List.mem_cons_self _ _
    · rw [List.filter_cons_of_neg (by simp [hcl])] at hhead
      unfold greedyPairs
      by_cases hm : c.2.1 ∈ uT ∨ c.2.2 ∈ uD
      · rw [if_pos hm]
        exact greedy_zero_first l uT uD i z
          (fun d hd => hz d (List.mem_cons_of_mem c hd)) hnd'
          (fun d hd => hfresh d (List.mem_cons_of_mem c hd)) hiD hhead
      · rw [if_neg hm]
        have hdetne : c.2.2 ≠ i := by
          intro hc
          apply hcl
          unfold isClaim
          rw [Bool.and_eq_true]
          refine ⟨?_, decide_eq_true hc⟩
          unfold rZero
          rw [rle_true_iff, hz c (List.mem_cons_self c l)]
        apply List.mem_cons_of_mem
        apply greedy_zero_first l _ _ i z
          (fun d hd => hz d (List.mem_cons_of_mem c hd)) hnd' ?_ ?_ hhead
        · intro d hd
          rw [Finset.mem_insert]
          rintro (h | h)
          · exact hcnot (h ▸ List.mem_map_of_mem (fun c => c.2.1) hd)
          · exact hfresh d (List.mem_cons_of_mem c hd) h
        · rw [Finset.mem_insert]
          rintro (h | h)
          · exact hdetne h.symm
          · exact hiD h

/- ### C8 groundwork: the cost-sorted list splits into zero prefix and positive tail -/

/-- The insertion step of `sortPairs`, with its classical comparison instance. -/
noncomputable def ordIns (a : Cand) (l : List Cand) : List Cand :=
  @List.orderedInsert Cand costLe (fun _ _ => Classical.propDecidable _) a l

lemma sortPairs_cons (a : Cand) (l : List Cand) :
    sortPairs (a :: l) = ordIns a (sortPairs l) := rfl

lemma ordIns_nil (a : Cand) : ordIns a [] = [a] := rfl

lemma ordIns_cons_le {a b : Cand} (l : List Cand) (h : a.1 ≤ b.1) :
    ordIns a (b :: l) = a :: b :: l := by
  unfold ordIns
  rw [List.orderedInsert, if_pos (show costLe a b from h)]

lemma ordIns_cons_gt {a b : Cand} (l : List Cand) (h : ¬ a.1 ≤ b.1) :
    ordIns a (b :: l) = b :: ordIns a l := by
  unfold ordIns
  rw [List.orderedInsert, if_neg (show ¬ costLe a b from h)]

lemma ordIns_all_ge {a : Cand} : ∀ {l : List Cand}, (∀ x ∈ l, a.1 ≤ x.1) →
    ordIns a l = a :: l
  | [], _ => rfl
  | b :: l, h => ordIns_cons_le l (h b (List.mem_cons_self b l))

lemma filter_ordIns_of_neg {p : Cand → Bool} {a : Cand} (hpa : p a = false) :
    ∀ (l : List Cand), (ordIns a l).filter p = l.filter p
  | [] => by
    rw [ordIns_nil, List.filter_cons_of_neg (by simp [hpa])]
  | b :: l => by
    by_cases h : a.1 ≤ b.1
    · rw [ordIns_cons_le l h, List.filter_cons_of_neg (by simp [hpa])]
    · rw [ordIns_cons_gt l h, List.filter_cons, List.filter_cons,
        filter_ordIns_of_neg hpa l]

lemma filter_sortPairs_zero (p : Cand → Bool) (hp : ∀ c, p c = true → c.1 ≤ 0) :
    ∀ (l : List Cand), (∀ x ∈ l, 0 ≤ x.1) → (sortPairs l).filter p = l.filter p
  | [], _ => rfl
  | a :: l, hnn => by
    rw [sortPairs_cons]
    by_cases ha : a.1 ≤ 0
    · have hge : ∀ x ∈ sortPairs l, a.1 ≤ x.1 := by
        intro x hx
        have hx' : x ∈ l :=
          (List.Perm.mem_iff
            (@List.perm_insertionSort Cand costLe (fun _ _ => Classical.propDecidable _) l)).mp hx
        exact le_trans ha (hnn x (List.mem_cons_of_mem a hx'))
      rw [ordIns_all_ge hge, List.filter_cons, List.filter_cons,
        filter_sortPairs_zero p hp l (fun x hx => hnn x (List.mem_cons_of_mem a hx))]
    · have hpa : p a = false := by
        cases h : p a
        · rfl
        · exact absurd (hp a h) ha
      rw [filter_ordIns_of_neg hpa (sortPairs l),
        filter_sortPairs_zero p hp l (fun x hx => hnn x (List.mem_cons_of_mem a hx)),
        List.filter_cons_of_neg (by simp [hpa])]

lemma sorted_zero_split :
    ∀ (l : List Cand), List.Sorted costLe l → (∀ x ∈ l, 0 ≤ x.1) →
    l = l.filter rZero ++ l.filter (fun c => !(rZero c))
  | [], _, _ => rfl
  | a :: l, hs, hnn => by
    rcases List.sorted_cons.mp hs with ⟨hall, hs'⟩
    by_cases ha : a.1 ≤ 0
    · have hra : rZero a = true := (rle_true_iff _ _).mpr ha
      rw [List.filter_cons_of_pos hra, List.filter_cons_of_neg (by simp [hra]),
        List.cons_append]
      exact congrArg (List.cons a)
        (sorted_zero_split l hs' (fun x hx => hnn x (List.mem_cons_of_mem a hx)))
    · have hra : rZero a = false := by
        cases h : rZero a
        · rfl
        · exact absurd ((rle_true_iff _ _).mp h) ha
      have hzl : l.filter rZero = [] := by
        apply List.filter_eq_nil_iff.mpr
        intro x hx
        have hx0 : ¬ x.1 ≤ 0 := fun hc => ha (le_trans (hall x hx) hc)
        simp only [rZero, rle_true_iff]
        exact hx0
      have hnzl : l.filter (fun c => !(rZero c)) = l := by
        apply List.filter_eq_self.mpr
        intro x hx
        have hx0 : ¬ x.1 ≤ 0 := fun hc => ha (le_trans (hall x hx) hc)
        simp only [rZero, Bool.not_eq_true', ← Bool.not_eq_true, rle_true_iff]
        simpa using hx0
      rw [List.filter_cons_of_neg (by simp [hra]), List.filter_cons_of_pos (by simp [hra]),
        hzl, hnzl, List.nil_append]

/- ### C8 groundwork: zero assignment cost means equal center and box height -/

lemma assignment_cost_nonneg (t : TrackState) (d : Detection) : 0 ≤ assignment_cost t d := by
  have key : ∀ (n x y dh th : ℚ), (0:ℝ) ≤ (n : ℝ) →
      (0:ℝ) ≤ Real.sqrt ((x : ℝ) ^ 2 + (y : ℝ) ^ 2) / (n : ℝ)
        + |((dh : ℝ) - (th : ℝ))| / (n : ℝ) := by
    intro n x y dh th hn
    exact add_nonneg (div_nonneg (Real.sqrt_nonneg _) hn)
      (div_nonneg (abs_nonneg _) hn)
  have hnorm : ∀ h : ℚ, (0:ℚ) ≤ (if 0 < h then h else 1) := by
    intro h
    by_cases hh : 0 < h
    · rw [if_pos hh]
      exact le_of_lt hh
    · rw [if_neg hh]
      norm_num
  unfold assignment_cost hypotQ
  cases hb : t.last_bbox with
  | none => exact key (if 0 < (0:ℚ) then 0 else 1) _ _ _ _ (by exact_mod_cast hnorm 0)
  | some b =>
    exact key (if 0 < b.height then b.height else 1) _ _ _ _ (by exact_mod_cast hnorm b.height)

lemma assignment_cost_eq_zero (t : TrackState) (d : Detection) (c : ℚ × ℚ) (b : BBox)
    (hc : t.last_center = some c) (hb : t.last_bbox = some b) :
    assignment_cost t d = 0 ↔ c = d.center ∧ b.height = d.bbox.height := by
  unfold assignment_cost hypotQ
  rw [hb, hc]
  simp only [Option.getD_some]
  set n : ℚ := if 0 < b.height then b.height else 1 with hn
  have hnpos : (0:ℝ) < (n : ℝ) := by
    rw [hn]
    by_cases hh : 0 < b.height
    · rw [if_pos hh]
      exact_mod_cast hh
    · rw [if_neg hh]
      norm_num
  constructor
  · intro h
    have h1 : (0:ℝ) ≤ Real.sqrt (((d.center.1 - c.1 : ℚ):ℝ) ^ 2 + ((d.center.2 - c.2 : ℚ):ℝ) ^ 2)
        / (n : ℝ) := div_nonneg (Real.sqrt_nonneg _) (le_of_lt hnpos)
    have h2 : (0:ℝ) ≤ |((d.bbox.height:ℝ) - (b.height:ℝ))| / (n : ℝ) :=
      div_nonneg (abs_nonneg _) (le_of_lt hnpos)
    have hA1 : Real.sqrt (((d.center.1 - c.1 : ℚ):ℝ) ^ 2 + ((d.center.2 - c.2 : ℚ):ℝ) ^ 2)
        / (n : ℝ) = 0 := by linarith
    have hA2 : |((d.bbox.height:ℝ) - (b.height:ℝ))| / (n : ℝ) = 0 := by linarith
    have hs : Real.sqrt (((d.center.1 - c.1 : ℚ):ℝ) ^ 2 + ((d.center.2 - c.2 : ℚ):ℝ) ^ 2) = 0 := by
      rcases div_eq_zero_iff.mp hA1 with h' | h'
      · exact h'
      · exact absurd h' (ne_of_gt hnpos)
    have habs : |((d.bbox.height:ℝ) - (b.height:ℝ))| = 0 := by
      rcases div_eq_zero_iff.mp hA2 with h' | h'
      · exact h'
      · exact absurd h' (ne_of_gt hnpos)
    have hXnn : (0:ℝ) ≤ ((d.center.1 - c.1 : ℚ):ℝ) ^ 2 + ((d.center.2 - c.2 : ℚ):ℝ) ^ 2 :=
      add_nonneg (sq_nonneg _) (sq_nonneg _)
    have hX : ((d.center.1 - c.1 : ℚ):ℝ) ^ 2 + ((d.center.2 - c.2 : ℚ):ℝ) ^ 2 = 0 :=
      le_antisymm (Real.sqrt_eq_zero'.mp hs) hXnn
    have hx0 : ((d.center.1 - c.1 : ℚ):ℝ) = 0 := by
      have := (add_eq_zero_iff_of_nonneg (sq_nonneg _) (sq_nonneg _)).mp hX
      exact sq_eq_zero_iff.mp this.1
    have hy0 : ((d.center.2 - c.2 : ℚ):ℝ) = 0 := by
      have := (add_eq_zero_iff_of_nonneg (sq_nonneg _) (sq_nonneg _)).mp hX
      exact sq_eq_zero_iff.mp this.2
    have hcx : c.1 = d.center.1 := by
      have hz : d.center.1 - c.1 = 0 := by exact_mod_cast hx0
      linarith
    have hcy : c.2 = d.center.2 := by
      have hz : d.center.2 - c.2 = 0 := by exact_mod_cast hy0
      linarith
    have hh : b.height = d.bbox.height := by
      have h0 : ((d.bbox.height:ℝ) - (b.height:ℝ)) = 0 := abs_eq_zero.mp habs
      have h0' : (d.bbox.height:ℝ) = (b.height:ℝ) := by linarith
      exact_mod_cast h0'.symm
    exact ⟨Prod.ext_iff.mpr ⟨hcx, hcy⟩, hh⟩
  · rintro ⟨h1, h2⟩
    rw [← h1, ← h2]
    simp [Real.sqrt_zero]

/-- The matching key test: the track's remembered center equals the detection's
center and the remembered box height equals the detection's box height. -/
def keyMatch (t : TrackState) (d : Detection) : Bool :=
  decide (t.last_center = some d.center)
    && decide (t.last_bbox.map BBox.height = some d.bbox.height)

lemma keyMatch_fields {t : TrackState} {d : Detection} (h : keyMatch t d = true) :
    t.last_center = some d.center ∧ ∃ b, t.last_bbox = some b ∧ b.height = d.bbox.height := by
  unfold keyMatch at h
  rw [Bool.and_eq_true, decide_eq_true_eq, decide_eq_true_eq] at h
  obtain ⟨b, hb, hbh⟩ := Option.map_eq_some'.mp h.2
  exact ⟨h.1, b, hb, hbh⟩

lemma keyMatch_iff_zero (t : TrackState) (d : Detection) (c : ℚ × ℚ) (b : BBox)
    (hc : t.last_center = some c) (hb : t.last_bbox = some b) :
    keyMatch t d = true ↔ assignment_cost t d = 0 := by
  rw [assignment_cost_eq_zero t d c b hc hb]
  unfold keyMatch
  rw [hc, hb]
  simp only [Option.map_some', Bool.and_eq_true, decide_eq_true_eq, Option.some.injEq]

/- ### C8 groundwork: candidate enumeration and the claimant lists -/

lemma mem_specCandidates {m : TrackManager} {dets : List Detection} {x : Cand} :
    x ∈ specCandidates m dets ↔
      ∃ t ∈ m.tracks, (t.last_center.isSome && t.last_bbox.isSome) = true ∧
        ∃ i d, dets.get? i = some d ∧
          rle (assignment_cost t d) (m.assignment_threshold : ℝ) = true ∧
          x = (assignment_cost t d, t.track_id, i) := by
  unfold specCandidates
  rw [List.mem_map]
  constructor
  · rintro ⟨⟨t, i, d⟩, hq, rfl⟩
    rw [List.mem_filter] at hq
    obtain ⟨hq1, hq2⟩ := hq
    obtain ⟨ht, he⟩ := List.pair_mem_product.mp hq1
    rw [List.mem_filter] at ht
    exact ⟨t, ht.1, ht.2, i, d, List.mem_enum_iff_get?.mp he, hq2, rfl⟩
  · rintro ⟨t, ht, hg, i, d, hget, hrle, rfl⟩
    refine ⟨(t, (i, d)), ?_, rfl⟩
    rw [List.mem_filter]
    refine ⟨?_, hrle⟩
    exact List.pair_mem_product.mpr ⟨List.mem_filter.mpr ⟨ht, hg⟩, List.mem_enum_iff_get?.mpr hget⟩

lemma specCandidates_nonneg (m : TrackManager) (dets : List Detection) :
    ∀ x ∈ specCandidates m dets, 0 ≤ x.1 := by
  intro x hx
  rcases mem_specCandidates.mp hx with ⟨t, _, _, i, d, _, _, rfl⟩
  exact assignment_cost_nonneg t d

lemma pairwise_of_mem {α : Type} {S : α → α → Prop} :
    ∀ (l : List α), (∀ x ∈ l, ∀ y ∈ l, S x y) → l.Pairwise S
  | [], _ => List.Pairwise.nil
  | a :: l, h => by
    rw [List.pairwise_cons]
    exact ⟨fun y hy => h a (List.mem_cons_self a l) y (List.mem_cons_of_mem a hy),
      pairwise_of_mem l (fun x hx y hy =>
        h x (List.mem_cons_of_mem a hx) y (List.mem_cons_of_mem a hy))⟩

lemma pairwise_product {α β : Type} {R : α × β → α × β → Prop} :
    ∀ (l1 : List α) (l2 : List β), l1.Nodup →
    (∀ a ∈ l1, l2.Pairwise (fun x y => R (a, x) (a, y))) →
    (∀ a ∈ l1, ∀ b ∈ l1, a ≠ b → ∀ x ∈ l2, ∀ y ∈ l2, R (a, x) (b, y)) →
    (l1 ×ˢ l2).Pairwise R
  | [], _, _, _, _ => List.Pairwise.nil
  | a :: l1, l2, hnd, hin, hacross => by
    rcases List.nodup_cons.mp hnd with ⟨hanot, hnd'⟩
    rw [List.product_cons]
    apply List.pairwise_append.mpr
    refine ⟨?_, ?_, ?_⟩
    · rw [List.pairwise_map]
      exact hin a (List.mem_cons_self a l1)
    · exact pairwise_product l1 l2 hnd'
        (fun b hb => hin b (List.mem_cons_of_mem a hb))
        (fun b hb b' hb' hne => hacross b (List.mem_cons_of_mem a hb)
          b' (List.mem_cons_of_mem a hb') hne)
    · intro q hq q' hq'
      rcases List.mem_map.mp hq with ⟨x, hx, rfl⟩
      rcases q' with ⟨b, y⟩
      have hq2 := List.pair_mem_product.mp hq'
      have hab : a ≠ b := fun hc => hanot (hc ▸ hq2.1)
      exact hacross a (List.mem_cons_self a l1) b (List.mem_cons_of_mem a hq2.1)
        hab x hx y hq2.2

lemma zero_claims_tracks_nodup (m : TrackManager) (dets : List Detection)
    (hnd : (m.tracks.map (fun t => t.track_id)).Nodup)
    (hdist : ∀ i j di dj, dets.get? i = some di → dets.get? j = some dj →
      di.center = dj.center → di.bbox.height = dj.bbox.height → i = j) :
    (((specCandidates m dets).filter rZero).map (fun c => c.2.1)).Nodup := by
  have htrnd : (m.tracks.filter
      (fun t => t.last_center.isSome && t.last_bbox.isSome)).Nodup :=
    (List.Nodup.of_map _ hnd).filter _
  have hQ : (specCandidates m dets).Pairwise
      (fun a b => a.1 = 0 → b.1 = 0 → a.2.1 ≠ b.2.1) := by
    unfold specCandidates
    rw [List.pairwise_map]
    apply List.Pairwise.filter
    apply pairwise_product _ _ htrnd
    · intro u hu
      rw [List.mem_filter] at hu
      obtain ⟨hum, hg⟩ := hu
      cases hc : u.last_center with
      | none => simp [hc] at hg
      | some c =>
      cases hbb : u.last_bbox with
      | none => simp [hbb] at hg
      | some b =>
      have henum : dets.enum.Pairwise (fun x y => x.1 ≠ y.1) := by
        apply (List.pairwise_map).mp
        rw [List.enum_map_fst]
        exact List.nodup_range dets.length
      apply List.Pairwise.imp_of_mem ?_ henum
      intro x y hx hy hne
      intro hz1 hz2
      exfalso
      obtain ⟨h1c, h1h⟩ := (assignment_cost_eq_zero u x.2 c b hc hbb).mp hz1
      obtain ⟨h2c, h2h⟩ := (assignment_cost_eq_zero u y.2 c b hc hbb).mp hz2
      have hg1 : dets.get? x.1 = some x.2 := List.mem_enum_iff_get?.mp (by
        rcases x with ⟨x1, x2⟩
        exact hx)
      have hg2 : dets.get? y.1 = some y.2 := List.mem_enum_iff_get?.mp (by
        rcases y with ⟨y1, y2⟩
        exact hy)
      exact hne (hdist x.1 y.1 x.2 y.2 hg1 hg2 (h1c ▸ h2c ▸ rfl) (h1h ▸ h2h ▸ rfl))
    · intro u hu v hv hne x _ y _
      intro _ _
      intro hc
      rw [List.mem_filter] at hu hv
      exact hne (track_eq_of_id hnd hu.1 hv.1 hc)
  have hflt : ((specCandidates m dets).filter rZero).Pairwise
      (fun a b => a.1 = 0 → b.1 = 0 → a.2.1 ≠ b.2.1) := List.Pairwise.filter rZero hQ
  have hze : ∀ c ∈ (specCandidates m dets).filter rZero, c.1 = 0 := by
    intro c hc
    rw [List.mem_filter] at hc
    have h1 : c.1 ≤ 0 := (rle_true_iff _ _).mp hc.2
    exact le_antisymm h1 (specCandidates_nonneg m dets c hc.1)
  show (((specCandidates m dets).filter rZero).map (fun c => c.2.1)).Pairwise (fun a b => a ≠ b)
  rw [List.pairwise_map]
  apply List.Pairwise.imp_of_mem ?_ hflt
  intro a b ha hb h
  exact h (hze a ha) (hze b hb)

lemma claim_filter_eq (m : TrackManager) (dets : List Detection) (i : ℕ) (d : Detection)
    (hget : dets.get? i = some d) (hθ : 0 ≤ m.assignment_threshold) :
    (specCandidates m dets).filter (isClaim i)
      = (m.tracks.filter (fun u => keyMatch u d)).map
          (fun u => (assignment_cost u d, u.track_id, i)) := by
  unfold specCandidates
  rw [List.filter_map, List.filter_filter]
  have hpt : ∀ q ∈ ((m.tracks.filter
        (fun t => t.last_center.isSome && t.last_bbox.isSome)) ×ˢ dets.enum),
      (((isClaim i ∘ fun p => (assignment_cost p.1 p.2.2, p.1.track_id, p.2.1)) q)
          && (rle (assignment_cost q.1 q.2.2) (m.assignment_threshold : ℝ)))
        = (keyMatch q.1 d && decide (q.2 = (i, d))) := by
    rintro ⟨u, j, dj⟩ hq
    simp only [Function.comp_apply]
    obtain ⟨hu, he⟩ := List.pair_mem_product.mp hq
    rw [List.mem_filter] at hu
    obtain ⟨hum, hg⟩ := hu
    cases hc : u.last_center with
    | none => simp [hc] at hg
    | some c =>
    cases hbb : u.last_bbox with
    | none => simp [hbb] at hg
    | some b =>
    have hgj : dets.get? j = some dj := List.mem_enum_iff_get?.mp he
    by_cases hji : j = i
    · subst hji
      have hdd : dj = d := by
        rw [hget] at hgj
        exact (Option.some.inj hgj).symm
      subst hdd
      unfold isClaim rZero
      simp only [decide_eq_true_eq]
      cases hk : keyMatch u dj
      · have hnz : ¬ assignment_cost u dj = 0 := by
          intro hc0
          rw [(keyMatch_iff_zero u dj c b hc hbb).mpr hc0] at hk
          exact Bool.noConfusion hk
        have hpos : ¬ assignment_cost u dj ≤ 0 := by
          intro hle
          exact hnz (le_antisymm hle (assignment_cost_nonneg u dj))
        have hrz : rle (assignment_cost u dj) 0 = false := by
          cases hr : rle (assignment_cost u dj) 0
          · rfl
          · exact absurd ((rle_true_iff _ _).mp hr) hpos
        rw [hrz]
        simp
      · have hz0 : assignment_cost u dj = 0 := (keyMatch_iff_zero u dj c b hc hbb).mp hk
        have hrz : rle (assignment_cost u dj) 0 = true := by
          rw [rle_true_iff, hz0]
        have hrth : rle (assignment_cost u dj) ((m.assignment_threshold : ℚ) : ℝ) = true := by
          rw [rle_true_iff, hz0]
          exact_mod_cast hθ
        rw [hrz, hrth]
        simp
    · unfold isClaim
      have h1 : decide (j = i) = false := by
        simp [hji]
      have h2 : decide (((j, dj) : ℕ × Detection) = (i, d)) = false := by
        simp only [decide_eq_false_iff_not]
        intro hc
        exact hji ((Prod.mk.injEq _ _ _ _).mp hc).1
      rw [h1, h2]
      simp
  rw [List.filter_congr hpt]
  have henodup : (dets.enum.map Prod.fst).Nodup := by
    rw [List.enum_map_fst]
    exact List.nodup_range dets.length
  have hsingle : dets.enum.filter (fun x => decide (x = (i, d))) = [(i, d)] :=
    filter_eq_single_of_keys dets.enum (i, d) henodup (List.mem_enum_iff_get?.mpr hget)
  rw [product_filter_key (fun u => keyMatch u d) (i, d) _ dets.enum hsingle, List.map_map]
  have htf : (m.tracks.filter
        (fun t => t.last_center.isSome && t.last_bbox.isSome)).filter (fun u => keyMatch u d)
      = m.tracks.filter (fun u => keyMatch u d) := by
    rw [List.filter_filter]
    apply List.filter_congr
    intro u _
    cases hk : keyMatch u d
    · simp
    · obtain ⟨hc, b, hbb, _⟩ := keyMatch_fields hk
      simp [hc, hbb]
  rw [htf]
  rfl

/- ### C8 groundwork: the first key-matching track in table order wins its detection -/

lemma sortPairs_sorted (l : List Cand) : List.Sorted costLe (sortPairs l) := by
  letI : DecidableRel costLe := fun _ _ => Classical.propDecidable _
  exact List.sorted_insertionSort costLe l

lemma sortPairs_mem {l : List Cand} {x : Cand} : x ∈ sortPairs l ↔ x ∈ l := by
  letI : DecidableRel costLe := fun _ _ => Classical.propDecidable _
  exact List.Perm.mem_iff (List.perm_insertionSort costLe l)

lemma accept_first_claimant (m : TrackManager) (dets : List Detection) (i : ℕ) (d : Detection)
    (hget : dets.get? i = some d)
    (hθ : 0 ≤ m.assignment_threshold)
    (hnd : (m.tracks.map (fun t => t.track_id)).Nodup)
    (hdist : ∀ a b da db, dets.get? a = some da → dets.get? b = some db →
      da.center = db.center → da.bbox.height = db.bbox.height → a = b)
    (z : TrackState)
    (hz : m.tracks.find? (fun u => keyMatch u d) = some z) :
    (z.track_id, i) ∈ greedyPairs (sortPairs (specCandidates m dets)) ∅ ∅ := by
  have hclaimz : ∀ c : Cand, isClaim i c = true → c.1 ≤ 0 := by
    intro c hc
    unfold isClaim rZero at hc
    rw [Bool.and_eq_true] at hc
    exact (rle_true_iff _ _).mp hc.1
  have hrz : ∀ c : Cand, rZero c = true → c.1 ≤ 0 := by
    intro c hc
    unfold rZero at hc
    exact (rle_true_iff _ _).mp hc
  have hnnS : ∀ x ∈ sortPairs (specCandidates m dets), 0 ≤ x.1 := by
    intro x hx
    exact specCandidates_nonneg m dets x (sortPairs_mem.mp hx)
  have hclaim : (sortPairs (specCandidates m dets)).filter (isClaim i)
      = (m.tracks.filter (fun u => keyMatch u d)).map
          (fun u => (assignment_cost u d, u.track_id, i)) := by
    rw [filter_sortPairs_zero (isClaim i) hclaimz (specCandidates m dets)
        (specCandidates_nonneg m dets),
      claim_filter_eq m dets i d hget hθ]
  have hhead : ((sortPairs (specCandidates m dets)).filter (isClaim i)).head?
      = some (assignment_cost z d, z.track_id, i) := by
    rw [hclaim, List.head?_map, ← findq_eq_head_filter, hz]
    rfl
  have hZeq : (sortPairs (specCandidates m dets)).filter rZero
      = (specCandidates m dets).filter rZero :=
    filter_sortPairs_zero rZero hrz (specCandidates m dets) (specCandidates_nonneg m dets)
  have hsplit := sorted_zero_split (sortPairs (specCandidates m dets))
    (sortPairs_sorted (specCandidates m dets)) hnnS
  have hZfilter : ((sortPairs (specCandidates m dets)).filter rZero).filter (isClaim i)
      = (sortPairs (specCandidates m dets)).filter (isClaim i) := by
    rw [List.filter_filter]
    apply List.filter_congr
    intro c _
    unfold isClaim
    cases hr : rZero c <;> simp [hr]
  have hznodup : (((sortPairs (specCandidates m dets)).filter rZero).map
      (fun c => c.2.1)).Nodup := by
    rw [hZeq]
    exact zero_claims_tracks_nodup m dets hnd hdist
  have hallzero : ∀ c ∈ (sortPairs (specCandidates m dets)).filter rZero, c.1 = 0 := by
    intro c hc
    rw [List.mem_filter] at hc
    exact le_antisymm (hrz c hc.2) (hnnS c hc.1)
  have hmem0 : ((assignment_cost z d, z.track_id, i).2.1, i)
      ∈ greedyPairs ((sortPairs (specCandidates m dets)).filter rZero) ∅ ∅ := by
    apply greedy_zero_first _ ∅ ∅ i _ hallzero hznodup
      (fun c _ => Finset.not_mem_empty _) (Finset.not_mem_empty _)
    rw [hZfilter]
    exact hhead
  rw [hsplit, greedyPairs_append]
  exact List.mem_append_left _ hmem0

/- ### C8 groundwork: the per-track effect of one `update_tracks` call -/

/-- The cumulative effect on one track record of applying the accepted pairs in
order (each pair updates only the track whose id it names). -/
def applySeq (cap : ℕ) (dets : List Detection) (fi : ℤ) (ps : List (ℕ × ℕ))
    (t : TrackState) : TrackState :=
  ps.foldl (fun acc p =>
    if acc.track_id = p.1 then trackApply cap acc (dets.getD p.2 defaultDet) fi else acc) t

lemma applyPairs_tracks (dets : List Detection) (fi : ℤ) :
    ∀ (ps : List (ℕ × ℕ)) (m : TrackManager),
    (applyPairs dets fi m ps).tracks = m.tracks.map (applySeq m.height_window dets fi ps)
  | [], m => (List.map_id' m.tracks).symm
  | p :: ps, m => by
    have hstep : applyPairs dets fi m (p :: ps)
        = applyPairs dets fi (m.applyDetection p.1 (dets.getD p.2 defaultDet) fi) ps := rfl
    rw [hstep, applyPairs_tracks dets fi ps (m.applyDetection p.1 (dets.getD p.2 defaultDet) fi)]
    show (m.applyDetection p.1 (dets.getD p.2 defaultDet) fi).tracks.map
        (applySeq m.height_window dets fi ps) = _
    unfold TrackManager.applyDetection
    rw [List.map_map]
    apply List.map_congr_left
    intro t _
    rfl

lemma applySeq_track_id (cap : ℕ) (dets : List Detection) (fi : ℤ) :
    ∀ (ps : List (ℕ × ℕ)) (t : TrackState), (applySeq cap dets fi ps t).track_id = t.track_id
  | [], _ => rfl
  | p :: ps, t => by
    show (applySeq cap dets fi ps
      (if t.track_id = p.1 then trackApply cap t (dets.getD p.2 defaultDet) fi
       else t)).track_id = t.track_id
    by_cases h : t.track_id = p.1
    · rw [if_pos h, applySeq_track_id cap dets fi ps _]
      rfl
    · rw [if_neg h, applySeq_track_id cap dets fi ps _]

lemma applySeq_not_mem (cap : ℕ) (dets : List Detection) (fi : ℤ) :
    ∀ (ps : List (ℕ × ℕ)) (t : TrackState), t.track_id ∉ ps.map Prod.fst →
    applySeq cap dets fi ps t = t
  | [], _, _ => rfl
  | p :: ps, t, h => by
    rw [List.map_cons] at h
    have h1 : t.track_id ≠ p.1 := fun hc => h (hc ▸ List.mem_cons_self _ _)
    have h2 : t.track_id ∉ ps.map Prod.fst := fun hc => h (List.mem_cons_of_mem _ hc)
    show applySeq cap dets fi ps
      (if t.track_id = p.1 then trackApply cap t (dets.getD p.2 defaultDet) fi else t) = t
    rw [if_neg h1]
    exact applySeq_not_mem cap dets fi ps t h2

lemma applySeq_mem (cap : ℕ) (dets : List Detection) (fi : ℤ) :
    ∀ (ps : List (ℕ × ℕ)) (t : TrackState) (i : ℕ),
    (ps.map Prod.fst).Nodup → (t.track_id, i) ∈ ps →
    (applySeq cap dets fi ps t).last_center = some ((dets.getD i defaultDet).center) ∧
    (applySeq cap dets fi ps t).last_bbox = some ((dets.getD i defaultDet).bbox)
  | [], _, _, _, h => absurd h (List.not_mem_nil _)
  | p :: ps, t, i, hnd, hmem => by
    rw [List.map_cons] at hnd
    rcases List.nodup_cons.mp hnd with ⟨hp1, hnd'⟩
    show (applySeq cap dets fi ps
        (if t.track_id = p.1 then trackApply cap t (dets.getD p.2 defaultDet) fi
         else t)).last_center = some ((dets.getD i defaultDet).center) ∧
      (applySeq cap dets fi ps
        (if t.track_id = p.1 then trackApply cap t (dets.getD p.2 defaultDet) fi
         else t)).last_bbox = some ((dets.getD i defaultDet).bbox)
    rcases List.mem_cons.mp hmem with heq | hmem'
    · have hp : p.1 = t.track_id := by rw [← heq]
      have hpi : p.2 = i := by rw [← heq]
      rw [if_pos hp.symm]
      have hnm : (trackApply cap t (dets.getD p.2 defaultDet) fi).track_id
          ∉ ps.map Prod.fst := by
        show t.track_id ∉ ps.map Prod.fst
        rw [← hp]
        exact hp1
      rw [applySeq_not_mem cap dets fi ps _ hnm, hpi]
      exact ⟨rfl, rfl⟩
    · have htp : t.track_id ≠ p.1 := by
        intro hc
        exact hp1 (by
          have := List.mem_map_of_mem Prod.fst hmem'
          rwa [hc] at this)
      rw [if_neg htp]
      exact applySeq_mem cap dets fi ps t i hnd' hmem'

lemma refreshPrimary_parts (m : TrackManager) :
    (m.refreshPrimary).tracks = m.tracks ∧ (m.refreshPrimary).next_id = m.next_id ∧
    (m.refreshPrimary).assignment_threshold = m.assignment_threshold ∧
    (m.refreshPrimary).height_window = m.height_window := by
  unfold TrackManager.refreshPrimary
  by_cases h : m.primary_track_ids = []
  · rw [if_pos h]
    exact ⟨rfl, rfl, rfl, rfl⟩
  · rw [if_neg h]
    by_cases h2 : (m.primary_track_ids.filter (fun id => m.keepPrimary id)).length
        < m.primary_track_count
    · rw [if_pos h2]
      exact ⟨rfl, rfl, rfl, rfl⟩
    · rw [if_neg h2]
      exact ⟨rfl, rfl, rfl, rfl⟩

lemma spawnedTracks_map_id (cap : ℕ) (fi : ℤ) :
    ∀ (ps : List (ℕ × Detection)) (nid : ℕ),
    (spawnedTracks cap nid fi ps).map (fun t => t.track_id) = List.range' nid ps.length
  | [], _ => rfl
  | p :: ps, nid => by
    show (nid :: (spawnedTracks cap (nid + 1) fi ps).map (fun t => t.track_id)) = _
    rw [spawnedTracks_map_id cap fi ps (nid + 1), List.length_cons,
      List.range'_succ nid ps.length 1]

lemma updateTracks_shape (m : TrackManager) (dets : List Detection) (fi : ℤ)
    (hwf : ∀ t ∈ m.tracks, t.track_id < m.next_id) :
    (m.updateTracks dets fi).tracks =
      (m.tracks.map (fun t =>
        let u := applySeq m.height_window dets fi
          (greedyPairs (sortPairs (specCandidates m dets)) ∅ ∅) t
        if u.track_id ∈ (greedyPairs (sortPairs (specCandidates m dets)) ∅ ∅).map Prod.fst
          then u
          else { u with current_detection := none, missed_frames := u.missed_frames + 1 }))
      ++ spawnedTracks m.height_window m.next_id fi
          (dets.enum.filter (fun p =>
            p.1 ∉ (greedyPairs (sortPairs (specCandidates m dets)) ∅ ∅).map Prod.snd)) ∧
    (m.updateTracks dets fi).next_id = m.next_id +
      (dets.enum.filter (fun p =>
        p.1 ∉ (greedyPairs (sortPairs (specCandidates m dets)) ∅ ∅).map Prod.snd)).length ∧
    (m.updateTracks dets fi).assignment_threshold = m.assignment_threshold ∧
    (m.updateTracks dets fi).height_window = m.height_window := by
  rw [updateTracks_eq_spec m dets fi hwf]
  unfold specUpdateTracks
  have hgp : specGreedy (sortPairs (specCandidates m dets)) [] []
      = greedyPairs (sortPairs (specCandidates m dets)) ∅ ∅ :=
    (greedyPairs_eq_specGreedy _ ∅ ∅ [] [] (by simp) (by simp)).symm
  simp only [hgp]
  set gp := greedyPairs (sortPairs (specCandidates m dets)) ∅ ∅ with hgpdef
  set M : TrackManager :=
    { applyPairs dets fi m gp with
      tracks := ((applyPairs dets fi m gp).tracks.map (fun t =>
          if t.track_id ∈ gp.map Prod.fst then t
          else { t with current_detection := none,
                        missed_frames := t.missed_frames + 1 }))
        ++ spawnedTracks m.height_window m.next_id fi
            (dets.enum.filter (fun p => p.1 ∉ gp.map Prod.snd)),
      next_id := m.next_id
        + (dets.enum.filter (fun p => p.1 ∉ gp.map Prod.snd)).length } with hM
  obtain ⟨hr1, hr2, hr3, hr4⟩ := refreshPrimary_parts M
  refine ⟨?_, ?_, ?_, ?_⟩
  · rw [hr1, hM]
    show ((applyPairs dets fi m gp).tracks.map _) ++ _ = _
    congr 1
    rw [applyPairs_tracks dets fi gp m, List.map_map]
    apply List.map_congr_left
    intro t _
    rfl
  · rw [hr2, hM]
  · rw [hr3, hM]
    show (applyPairs dets fi m gp).assignment_threshold = m.assignment_threshold
    rw [applyPairs_eq_withTracks dets fi gp m]
  · rw [hr4, hM]
    show (applyPairs dets fi m gp).height_window = m.height_window
    rw [applyPairs_eq_withTracks dets fi gp m]

/- ### C8 groundwork: id bookkeeping across one update -/

/-- The image of one pre-existing track after the greedy-apply pass and the
miss-marking pass of `update_tracks`. -/
def maskApply (cap : ℕ) (dets : List Detection) (fi : ℤ) (ps : List (ℕ × ℕ))
    (t : TrackState) : TrackState :=
  let u := applySeq cap dets fi ps t
  if u.track_id ∈ ps.map Prod.fst then u
  else { u with current_detection := none, missed_frames := u.missed_frames + 1 }

lemma updateTracks_tracks (m : TrackManager) (dets : List Detection) (fi : ℤ)
    (hwf : ∀ t ∈ m.tracks, t.track_id < m.next_id) :
    (m.updateTracks dets fi).tracks =
      m.tracks.map (maskApply m.height_window dets fi
        (greedyPairs (sortPairs (specCandidates m dets)) ∅ ∅))
      ++ spawnedTracks m.height_window m.next_id fi
          (dets.enum.filter (fun p =>
            p.1 ∉ (greedyPairs (sortPairs (specCandidates m dets)) ∅ ∅).map Prod.snd)) := by
  rw [(updateTracks_shape m dets fi hwf).1]
  rfl

lemma maskApply_track_id (cap : ℕ) (dets : List Detection) (fi : ℤ) (ps : List (ℕ × ℕ))
    (t : TrackState) : (maskApply cap dets fi ps t).track_id = t.track_id := by
  simp only [maskApply]
  by_cases h : (applySeq cap dets fi ps t).track_id ∈ ps.map Prod.fst
  · rw [if_pos h]
    exact applySeq_track_id cap dets fi ps t
  · rw [if_neg h]
    exact applySeq_track_id cap dets fi ps t

lemma maskApply_keys (cap : ℕ) (dets : List Detection) (fi : ℤ) (ps : List (ℕ × ℕ))
    (t : TrackState) :
    (maskApply cap dets fi ps t).last_center = (applySeq cap dets fi ps t).last_center ∧
    (maskApply cap dets fi ps t).last_bbox = (applySeq cap dets fi ps t).last_bbox := by
  simp only [maskApply]
  by_cases h : (applySeq cap dets fi ps t).track_id ∈ ps.map Prod.fst
  · rw [if_pos h]
    exact ⟨rfl, rfl⟩
  · rw [if_neg h]
    exact ⟨rfl, rfl⟩

lemma getD_eq_of_getq {α : Type} (dflt : α) :
    ∀ (l : List α) (i : ℕ) (x : α), l.get? i = some x → l.getD i dflt = x
  | [], i, x, h => by
    rw [List.get?_nil] at h
    exact Option.noConfusion h
  | a :: l, 0, x, h => Option.some.inj h
  | a :: l, i + 1, x, h => getD_eq_of_getq dflt l i x h

lemma spawnedTracks_mem_of (cap : ℕ) (fi : ℤ) :
    ∀ (ps : List (ℕ × Detection)) (nid : ℕ) (p : ℕ × Detection), p ∈ ps →
    ∃ u ∈ spawnedTracks cap nid fi ps,
      u.last_center = some p.2.center ∧ u.last_bbox = some p.2.bbox
  | [], _, _, h => absurd h (List.not_mem_nil _)
  | q :: ps, nid, p, h => by
    rcases List.mem_cons.mp h with rfl | h'
    · exact ⟨trackApply cap (freshTrack nid) p.2 fi,
        List.mem_cons_self _ _, rfl, rfl⟩
    · obtain ⟨u, hu, h1, h2⟩ := spawnedTracks_mem_of cap fi ps (nid + 1) p h'
      exact ⟨u, List.mem_cons_of_mem _ hu, h1, h2⟩

lemma gp_pair_candidate (m : TrackManager) (dets : List Detection) {tid i : ℕ}
    (h : (tid, i) ∈ greedyPairs (sortPairs (specCandidates m dets)) ∅ ∅) :
    ∃ u ∈ m.tracks, u.track_id = tid ∧ ∃ d, dets.get? i = some d := by
  obtain ⟨⟨c, hce, hcS⟩, _, _⟩ := greedyPairs_fresh _ ∅ ∅ (tid, i) h
  have hcS' := sortPairs_mem.mp hcS
  rcases mem_specCandidates.mp hcS' with ⟨u, hu, _, j, d, hget, _, rfl⟩
  have h1 : u.track_id = tid := ((Prod.mk.injEq _ _ _ _).mp hce).1
  have h2 : j = i := ((Prod.mk.injEq _ _ _ _).mp hce).2
  exact ⟨u, hu, h1, d, h2 ▸ hget⟩

lemma updateTracks_ids (m : TrackManager) (dets : List Detection) (fi : ℤ)
    (hwf : ∀ t ∈ m.tracks, t.track_id < m.next_id) :
    (m.updateTracks dets fi).tracks.map (fun t => t.track_id)
      = m.tracks.map (fun t => t.track_id)
        ++ List.range' m.next_id
            (dets.enum.filter (fun p =>
              p.1 ∉ (greedyPairs (sortPairs (specCandidates m dets)) ∅ ∅).map
                Prod.snd)).length := by
  rw [updateTracks_tracks m dets fi hwf, List.map_append, List.map_map,
    spawnedTracks_map_id]
  congr 1
  apply List.map_congr_left
  intro t _
  exact maskApply_track_id _ dets fi _ t

lemma updateTracks_ids_nodup (m : TrackManager) (dets : List Detection) (fi : ℤ)
    (hwf : ∀ t ∈ m.tracks, t.track_id < m.next_id)
    (hnd : (m.tracks.map (fun t => t.track_id)).Nodup) :
    ((m.updateTracks dets fi).tracks.map (fun t => t.track_id)).Nodup := by
  rw [updateTracks_ids m dets fi hwf]
  rw [List.nodup_append]
  refine ⟨hnd, List.nodup_range' _ _, ?_⟩
  intro x hx hx'
  rcases List.mem_map.mp hx with ⟨t, ht, rfl⟩
  have h1 := hwf t ht
  have h2 := (List.mem_range'_1.mp hx').1
  omega

lemma updateTracks_wf (m : TrackManager) (dets : List Detection) (fi : ℤ)
    (hwf : ∀ t ∈ m.tracks, t.track_id < m.next_id) :
    ∀ t ∈ (m.updateTracks dets fi).tracks, t.track_id < (m.updateTracks dets fi).next_id := by
  intro t ht
  have hmem : t.track_id ∈ (m.updateTracks dets fi).tracks.map (fun t => t.track_id) :=
    List.mem_map_of_mem _ ht
  rw [updateTracks_ids m dets fi hwf] at hmem
  rw [(updateTracks_shape m dets fi hwf).2.1]
  rcases List.mem_append.mp hmem with h | h
  · rcases List.mem_map.mp h with ⟨u, hu, he⟩
    have := hwf u hu
    omega
  · have := (List.mem_range'_1.mp h).2
    omega

/- ### C8 groundwork: the repeat-frame matching -/

lemma matched_pair_again (m : TrackManager) (dets : List Detection) (f1 : ℤ)
    (hwf : ∀ t ∈ m.tracks, t.track_id < m.next_id)
    (hnd : (m.tracks.map (fun t => t.track_id)).Nodup)
    (hθ : 0 ≤ m.assignment_threshold)
    (hdist : ∀ a b da db, dets.get? a = some da → dets.get? b = some db →
      da.center = db.center → da.bbox.height = db.bbox.height → a = b)
    {tid i : ℕ}
    (hp : (tid, i) ∈ greedyPairs (sortPairs (specCandidates m dets)) ∅ ∅) :
    (tid, i) ∈ greedyPairs (sortPairs
      (specCandidates (m.updateTracks dets f1) dets)) ∅ ∅ := by
  set gp1 := greedyPairs (sortPairs (specCandidates m dets)) ∅ ∅ with hgp1def
  obtain ⟨u, hu, hutid, d, hget⟩ := gp_pair_candidate m dets hp
  have hpu : (u.track_id, i) ∈ gp1 := by
    rw [hutid]
    exact hp
  have hfnd : (gp1.map Prod.fst).Nodup := greedyPairs_fst_nodup _ ∅ ∅
  have hsnd : (gp1.map Prod.snd).Nodup := greedyPairs_snd_nodup _ ∅ ∅
  have hkeys := applySeq_mem m.height_window dets f1 gp1 u i hfnd hpu
  have hgetD : dets.getD i defaultDet = d := getD_eq_of_getq defaultDet dets i d hget
  rw [hgetD] at hkeys
  obtain ⟨hzc, hzb⟩ := maskApply_keys m.height_window dets f1 gp1 u
  have hzkey : keyMatch (maskApply m.height_window dets f1 gp1 u) d = true := by
    unfold keyMatch
    rw [hzc, hzb, hkeys.1, hkeys.2]
    simp
  have hztid : (maskApply m.height_window dets f1 gp1 u).track_id = tid := by
    rw [maskApply_track_id, hutid]
  have h0 : m.tracks.find? (fun t => keyMatch t d) = none ∨
      m.tracks.find? (fun t => keyMatch t d) = some u := by
    cases hfz : m.tracks.find? (fun t => keyMatch t d) with
    | none => exact Or.inl rfl
    | some w =>
      right
      have hwmem := List.mem_of_find?_eq_some hfz
      have hwp := accept_first_claimant m dets i d hget hθ hnd hdist w hfz
      have hwid : w.track_id = u.track_id := pairs_snd_unique hsnd hwp hpu
      exact congrArg some (track_eq_of_id hnd hwmem hu hwid)
  have h3 : ∀ v ∈ m.tracks,
      (fun t => keyMatch (maskApply m.height_window dets f1 gp1 t) d) v = true →
      v = u ∨ (fun t => keyMatch t d) v = true := by
    intro v hv hkv
    simp only at hkv
    obtain ⟨hvc, hvb⟩ := maskApply_keys m.height_window dets f1 gp1 v
    by_cases hvm : v.track_id ∈ gp1.map Prod.fst
    · left
      obtain ⟨q, hq, hqe⟩ := List.mem_map.mp hvm
      rcases q with ⟨q1, j⟩
      have hq' : (v.track_id, j) ∈ gp1 := by
        rw [← hqe]
        exact hq
      obtain ⟨u', hu', hu'id, dj, hgetj⟩ := gp_pair_candidate m dets hq'
      have hkeysv := applySeq_mem m.height_window dets f1 gp1 v j hfnd hq'
      have hgetDj : dets.getD j defaultDet = dj := getD_eq_of_getq defaultDet dets j dj hgetj
      rw [hgetDj] at hkeysv
      obtain ⟨hc1, b, hb1, hbh⟩ := keyMatch_fields hkv
      have hcenter : dj.center = d.center := by
        rw [hvc] at hc1
        rw [hkeysv.1] at hc1
        exact Option.some.inj hc1
      have hheight : dj.bbox.height = d.bbox.height := by
        rw [hvb] at hb1
        rw [hkeysv.2] at hb1
        have hbe : dj.bbox = b := Option.some.inj hb1
        rw [hbe]
        exact hbh
      have hji : j = i := hdist j i dj d hgetj hget hcenter hheight
      have hvid : v.track_id = u.track_id := pairs_snd_unique hsnd (hji ▸ hq') hpu
      exact track_eq_of_id hnd hv hu hvid
    · right
      show keyMatch v d = true
      have happ := applySeq_not_mem m.height_window dets f1 gp1 v hvm
      unfold keyMatch at hkv ⊢
      rw [hvc, hvb, happ] at hkv
      exact hkv
  have hfb : m.tracks.find?
      (fun t => keyMatch (maskApply m.height_window dets f1 gp1 t) d) = some u :=
    findq_first_of _ _ m.tracks u h0 hu hzkey h3
  have hm1tr := updateTracks_tracks m dets f1 hwf
  have hfind : (m.updateTracks dets f1).tracks.find? (fun t => keyMatch t d)
      = some (maskApply m.height_window dets f1 gp1 u) := by
    rw [hm1tr, findq_append, List.find?_map]
    have hcomp : m.tracks.find?
        ((fun t => keyMatch t d) ∘ maskApply m.height_window dets f1 gp1) = some u := hfb
    rw [hcomp]
    rfl
  have hθ2 : 0 ≤ (m.updateTracks dets f1).assignment_threshold := by
    rw [(updateTracks_shape m dets f1 hwf).2.2.1]
    exact hθ
  have hnd2 := updateTracks_ids_nodup m dets f1 hwf hnd
  have hfin := accept_first_claimant (m.updateTracks dets f1) dets i d hget hθ2 hnd2 hdist
    (maskApply m.height_window dets f1 gp1 u) hfind
  rw [hztid] at hfin
  exact hfin

lemma det_covered_again (m : TrackManager) (dets : List Detection) (f1 : ℤ)
    (hwf : ∀ t ∈ m.tracks, t.track_id < m.next_id)
    (hnd : (m.tracks.map (fun t => t.track_id)).Nodup)
    (hθ : 0 ≤ m.assignment_threshold)
    (hdist : ∀ a b da db, dets.get? a = some da → dets.get? b = some db →
      da.center = db.center → da.bbox.height = db.bbox.height → a = b)
    (i : ℕ) (hi : i < dets.length) :
    ∃ tid, (tid, i) ∈ greedyPairs (sortPairs
      (specCandidates (m.updateTracks dets f1) dets)) ∅ ∅ := by
  set gp1 := greedyPairs (sortPairs (specCandidates m dets)) ∅ ∅ with hgp1def
  cases hget : dets.get? i with
  | none =>
    exfalso
    have := List.get?_eq_none.mp hget
    omega
  | some d =>
  have hfnd : (gp1.map Prod.fst).Nodup := greedyPairs_fst_nodup _ ∅ ∅
  have hm1tr := updateTracks_tracks m dets f1 hwf
  have hclaim : ∃ z ∈ (m.updateTracks dets f1).tracks, keyMatch z d = true := by
    by_cases him : i ∈ gp1.map Prod.snd
    · obtain ⟨q, hq, hqe⟩ := List.mem_map.mp him
      rcases q with ⟨tid, j⟩
      have hji : j = i := hqe
      subst hji
      obtain ⟨u, hu, hutid, d', hget'⟩ := gp_pair_candidate m dets hq
      have hpu : (u.track_id, j) ∈ gp1 := by
        rw [hutid]
        exact hq
      have hkeys := applySeq_mem m.height_window dets f1 gp1 u j hfnd hpu
      have hgetD : dets.getD j defaultDet = d := getD_eq_of_getq defaultDet dets j d hget
      rw [hgetD] at hkeys
      obtain ⟨hzc, hzb⟩ := maskApply_keys m.height_window dets f1 gp1 u
      refine ⟨maskApply m.height_window dets f1 gp1 u, ?_, ?_⟩
      · rw [hm1tr]
        exact List.mem_append_left _ (List.mem_map_of_mem _ hu)
      · unfold keyMatch
        rw [hzc, hzb, hkeys.1, hkeys.2]
        simp
    · have hium : (i, d) ∈ dets.enum.filter (fun p => p.1 ∉ gp1.map Prod.snd) := by
        rw [List.mem_filter]
        refine ⟨List.mem_enum_iff_get?.mpr hget, ?_⟩
        simp only [decide_eq_true_eq]
        exact him
      obtain ⟨z, hz, hzc, hzb⟩ := spawnedTracks_mem_of m.height_window f1 _ m.next_id
        (i, d) hium
      refine ⟨z, ?_, ?_⟩
      · rw [hm1tr]
        exact List.mem_append_right _ hz
      · unfold keyMatch
        rw [hzc, hzb]
        simp
  obtain ⟨z0, hz0mem, hz0key⟩ := hclaim
  have hisSome : ((m.updateTracks dets f1).tracks.find? (fun t => keyMatch t d)).isSome :=
    List.find?_isSome.mpr ⟨z0, hz0mem, hz0key⟩
  obtain ⟨z, hz⟩ := Option.isSome_iff_exists.mp hisSome
  have hθ2 : 0 ≤ (m.updateTracks dets f1).assignment_threshold := by
    rw [(updateTracks_shape m dets f1 hwf).2.2.1]
    exact hθ
  have hnd2 := updateTracks_ids_nodup m dets f1 hwf hnd
  exact ⟨z.track_id,
    accept_first_claimant (m.updateTracks dets f1) dets i d hget hθ2 hnd2 hdist z hz⟩

/-- C8 (amended): when the same detection list is presented on two consecutive
frames, provided no two detections share both their center and their box height
and the assignment threshold is non-negative, the assignment engine reproduces
the pairing: every track matched on the first frame is matched to the detection
with the same index on the second, every detection is matched on the second
frame, and the second call creates no new tracks (`next_id` and the track count
are unchanged). -/
theorem C8_identical_frames (m : TrackManager) (dets : List Detection) (f1 f2 : ℤ)
    (hwf : ∀ t ∈ m.tracks, t.track_id < m.next_id)
    (hnd : (m.tracks.map (fun t => t.track_id)).Nodup)
    (hθ : 0 ≤ m.assignment_threshold)
    (hdist : ∀ a b da db, dets.get? a = some da → dets.get? b = some db →
      da.center = db.center → da.bbox.height = db.bbox.height → a = b) :
    (∀ p ∈ m.assignmentPairs dets, p ∈ (m.updateTracks dets f1).assignmentPairs dets) ∧
    (∀ i, i < dets.length →
      ∃ tid, (tid, i) ∈ (m.updateTracks dets f1).assignmentPairs dets) ∧
    ((m.updateTracks dets f1).updateTracks dets f2).next_id
      = (m.updateTracks dets f1).next_id ∧
    ((m.updateTracks dets f1).updateTracks dets f2).tracks.length
      = (m.updateTracks dets f1).tracks.length := by
  have hap1 : m.assignmentPairs dets
      = greedyPairs (sortPairs (specCandidates m dets)) ∅ ∅ := by
    unfold TrackManager.assignmentPairs
    rw [candidatePairs_eq_specCandidates]
  have hap2 : (m.updateTracks dets f1).assignmentPairs dets
      = greedyPairs (sortPairs (specCandidates (m.updateTracks dets f1) dets)) ∅ ∅ := by
    unfold TrackManager.assignmentPairs
    rw [candidatePairs_eq_specCandidates]
  have hwf2 := updateTracks_wf m dets f1 hwf
  have hc1 : ∀ p ∈ m.assignmentPairs dets,
      p ∈ (m.updateTracks dets f1).assignmentPairs dets := by
    intro p hp
    rcases p with ⟨tid, i⟩
    rw [hap1] at hp
    rw [hap2]
    exact matched_pair_again m dets f1 hwf hnd hθ hdist hp
  have hc2 : ∀ i, i < dets.length →
      ∃ tid, (tid, i) ∈ (m.updateTracks dets f1).assignmentPairs dets := by
    intro i hi
    rw [hap2]
    exact det_covered_again m dets f1 hwf hnd hθ hdist i hi
  have hum2 : dets.enum.filter (fun p =>
      p.1 ∉ (greedyPairs (sortPairs
        (specCandidates (m.updateTracks dets f1) dets)) ∅ ∅).map Prod.snd) = [] := by
    apply List.filter_eq_nil_iff.mpr
    intro p hp
    have hg : dets.get? p.1 = some p.2 := List.mem_enum_iff_get?.mp (by
      rcases p with ⟨a, b⟩
      exact hp)
    have hplt : p.1 < dets.length := (List.get?_eq_some.mp hg).choose
    obtain ⟨tid, htid⟩ := hc2 p.1 hplt
    rw [hap2] at htid
    simp only [decide_eq_true_eq]
    intro hc
    exact hc (List.mem_map_of_mem Prod.snd htid)
  obtain ⟨hsh2, hnext2, _, _⟩ := updateTracks_shape (m.updateTracks dets f1) dets f2 hwf2
  refine ⟨hc1, hc2, ?_, ?_⟩
  · rw [hnext2, hum2]
    rfl
  · rw [updateTracks_tracks (m.updateTracks dets f1) dets f2 hwf2, hum2]
    rw [List.length_append, List.length_map]
    show _ + (spawnedTracks _ _ _ ([] : List (ℕ × Detection))).length = _
    rfl

/- ### C8 counterexample: two identical detections swap their matched tracks -/

/-- Shared bounding box (height 1) for the C8 counterexample. -/
def c8Box : BBox := ⟨0, 0, 1, 1, 1, 100, 1, false⟩

/-- The detection presented twice per frame in the C8 counterexample. -/
def c8Det : Detection :=
  { landmarks := [], bbox := c8Box, center := (0, 0), scale := 1,
    too_small := false, above_threshold := false }

/-- Track 1: one unit further from the detections than track 2. -/
def c8T1 : TrackState := { track_id := 1, last_center := some (0, 2), last_bbox := some c8Box }

/-- Track 2: the closer track. -/
def c8T2 : TrackState := { track_id := 2, last_center := some (0, 1), last_bbox := some c8Box }

/-- The C8 counterexample manager. -/
def c8Mgr : TrackManager :=
  { primary_track_count := 1, max_hold_frames := 45, primary_drop_frames := 45,
    ema_alpha := 2/5, conf_decay := 19/20, assignment_threshold := 5/2,
    tracks := [c8T1, c8T2], primary_track_ids := [], next_id := 3 }

lemma c8_cost1 : assignment_cost c8T1 c8Det = 2 := by
  unfold assignment_cost hypotQ c8T1 c8Det c8Box
  have h4 : Real.sqrt (((0 - 0 : ℚ) : ℝ) ^ 2 + ((0 - 2 : ℚ) : ℝ) ^ 2) = 2 := by
    rw [show (((0 - 0 : ℚ) : ℝ) ^ 2 + ((0 - 2 : ℚ) : ℝ) ^ 2) = 2 ^ 2 by push_cast; norm_num]
    exact Real.sqrt_sq (by norm_num)
  simp only [Option.getD_some]
  rw [h4]
  norm_num

lemma c8_cost2 : assignment_cost c8T2 c8Det = 1 := by
  unfold assignment_cost hypotQ c8T2 c8Det c8Box
  have h1 : Real.sqrt (((0 - 0 : ℚ) : ℝ) ^ 2 + ((0 - 1 : ℚ) : ℝ) ^ 2) = 1 := by
    rw [show (((0 - 0 : ℚ) : ℝ) ^ 2 + ((0 - 1 : ℚ) : ℝ) ^ 2) = 1 ^ 2 by push_cast; norm_num]
    exact Real.sqrt_sq (by norm_num)
  simp only [Option.getD_some]
  rw [h1]
  norm_num

lemma c8_rle0 : rle (0:ℝ) ((5:ℝ)/2) = true := by
  rw [rle_true_iff]
  norm_num

lemma c8_rle1 : rle (1:ℝ) ((5:ℝ)/2) = true := by
  rw [rle_true_iff]
  norm_num

lemma c8_rle2 : rle (2:ℝ) ((5:ℝ)/2) = true := by
  rw [rle_true_iff]
  norm_num

lemma c8_cand1 : c8Mgr.candidatePairs [c8Det, c8Det]
    = [(2, 1, 0), (2, 1, 1), (1, 2, 0), (1, 2, 1)] := by
  have hg1 : (c8T1.last_center.isNone || c8T1.last_bbox.isNone) = false := rfl
  have hg2 : (c8T2.last_center.isNone || c8T2.last_bbox.isNone) = false := rfl
  have hth : c8Mgr.assignment_threshold = 5/2 := rfl
  have htr : c8Mgr.tracks = [c8T1, c8T2] := rfl
  have hid1 : c8T1.track_id = 1 := rfl
  have hid2 : c8T2.track_id = 2 := rfl
  have hcc1 : c8T1.last_center = some (0, 2) := rfl
  have hcb1 : c8T1.last_bbox = some c8Box := rfl
  have hcc2 : c8T2.last_center = some (0, 1) := rfl
  have hcb2 : c8T2.last_bbox = some c8Box := rfl
  unfold TrackManager.candidatePairs
  rw [htr, hth]
  simp [List.enum, List.enumFrom, List.filterMap_cons, hg1, hg2, hcc1, hcb1, hcc2, hcb2,
    c8_cost1, c8_cost2, c8_rle1, c8_rle2, hid1, hid2]

lemma c8_sort1 : sortPairs [((2:ℝ), 1, 0), (2, 1, 1), (1, 2, 0), (1, 2, 1)]
    = [(1, 2, 0), (1, 2, 1), (2, 1, 0), (2, 1, 1)] := by
  have s1 : sortPairs [((1:ℝ), 2, 1)] = [((1:ℝ), 2, 1)] := by
    rw [sortPairs_cons, show sortPairs ([] : List Cand) = [] from rfl, ordIns_nil]
  have s2 : sortPairs [((1:ℝ), 2, 0), (1, 2, 1)] = [((1:ℝ), 2, 0), (1, 2, 1)] := by
    rw [sortPairs_cons, s1, ordIns_cons_le _ (by norm_num)]
  have s3 : sortPairs [((2:ℝ), 1, 1), (1, 2, 0), (1, 2, 1)]
      = [((1:ℝ), 2, 0), (1, 2, 1), (2, 1, 1)] := by
    rw [sortPairs_cons, s2, ordIns_cons_gt _ (by norm_num),
      ordIns_cons_gt _ (by norm_num), ordIns_nil]
  rw [sortPairs_cons, s3, ordIns_cons_gt _ (by norm_num),
    ordIns_cons_gt _ (by norm_num), ordIns_cons_le _ (by norm_num)]

lemma c8_greedy1 : greedyPairs [((1:ℝ), 2, 0), (1, 2, 1), (2, 1, 0), (2, 1, 1)] ∅ ∅
    = [(2, 0), (1, 1)] := by
  simp [greedyPairs, Finset.mem_insert]

lemma c8_pairs1 : c8Mgr.assignmentPairs [c8Det, c8Det] = [(2, 0), (1, 1)] := by
  unfold TrackManager.assignmentPairs
  rw [c8_cand1, c8_sort1, c8_greedy1]

/-- Track 1 as it stands after the first frame (matched to detection 1). -/
def c8T1' : TrackState :=
  { track_id := 1, last_center := some (0, 0), last_bbox := some c8Box,
    velocity := (0, -2), current_detection := some c8Det, last_seen_frame := 0,
    missed_frames := 0, height_history := [1], height_history_above := [] }

/-- Track 2 as it stands after the first frame (matched to detection 0). -/
def c8T2' : TrackState :=
  { track_id := 2, last_center := some (0, 0), last_bbox := some c8Box,
    velocity := (0, -1), current_detection := some c8Det, last_seen_frame := 0,
    missed_frames := 0, height_history := [1], height_history_above := [] }

lemma c8_spec1 : specCandidates c8Mgr [c8Det, c8Det]
    = [((2:ℝ), 1, 0), (2, 1, 1), (1, 2, 0), (1, 2, 1)] := by
  rw [← candidatePairs_eq_specCandidates, c8_cand1]

lemma c8_gp1 : greedyPairs (sortPairs (specCandidates c8Mgr [c8Det, c8Det])) ∅ ∅
    = [(2, 0), (1, 1)] := by
  rw [c8_spec1, c8_sort1, c8_greedy1]

lemma c8_mask1 : maskApply 30 [c8Det, c8Det] 0 [(2, 0), (1, 1)] c8T1 = c8T1' := by
  simp [maskApply, applySeq, trackApply, velocity, pushCap, List.foldl_cons, List.foldl_nil,
    List.getD_cons_zero, List.getD_cons_succ, List.getElem_cons_succ, List.getElem_cons_zero,
    c8T1, c8T1', c8Det, c8Box]
  exact ⟨rfl, rfl, ⟨rfl, rfl⟩, rfl, rfl, rfl⟩

lemma c8_mask2 : maskApply 30 [c8Det, c8Det] 0 [(2, 0), (1, 1)] c8T2 = c8T2' := by
  simp [maskApply, applySeq, trackApply, velocity, pushCap, List.foldl_cons, List.foldl_nil,
    List.getD_cons_zero, List.getD_cons_succ, List.getElem_cons_succ, List.getElem_cons_zero,
    c8T2, c8T2', c8Det, c8Box]

lemma c8_m1_tracks : (c8Mgr.updateTracks [c8Det, c8Det] 0).tracks = [c8T1', c8T2'] := by
  have h := updateTracks_tracks c8Mgr [c8Det, c8Det] 0 (by decide)
  rw [c8_gp1] at h
  have hum : ([c8Det, c8Det].enum.filter
      (fun p => p.1 ∉ ([((2:ℕ), (0:ℕ)), (1, 1)]).map Prod.snd)) = [] := by
    simp [List.enum, List.enumFrom]
  rw [hum] at h
  rw [h]
  show [c8T1, c8T2].map (maskApply 30 [c8Det, c8Det] 0 [(2, 0), (1, 1)]) ++ [] = _
  rw [List.map_cons, List.map_cons, List.map_nil, c8_mask1, c8_mask2]
  rfl

lemma c8_zero1 : assignment_cost c8T1' c8Det = 0 :=
  (assignment_cost_eq_zero c8T1' c8Det (0, 0) c8Box rfl rfl).mpr ⟨rfl, rfl⟩

lemma c8_zero2 : assignment_cost c8T2' c8Det = 0 :=
  (assignment_cost_eq_zero c8T2' c8Det (0, 0) c8Box rfl rfl).mpr ⟨rfl, rfl⟩

lemma c8_cand2 : (c8Mgr.updateTracks [c8Det, c8Det] 0).candidatePairs [c8Det, c8Det]
    = [((0:ℝ), 1, 0), (0, 1, 1), (0, 2, 0), (0, 2, 1)] := by
  have hth : (c8Mgr.updateTracks [c8Det, c8Det] 0).assignment_threshold = 5/2 :=
    (updateTracks_shape c8Mgr [c8Det, c8Det] 0 (by decide)).2.2.1
  have hg1 : (c8T1'.last_center.isNone || c8T1'.last_bbox.isNone) = false := rfl
  have hg2 : (c8T2'.last_center.isNone || c8T2'.last_bbox.isNone) = false := rfl
  have hid1 : c8T1'.track_id = 1 := rfl
  have hid2 : c8T2'.track_id = 2 := rfl
  have hcc1 : c8T1'.last_center = some (0, 0) := rfl
  have hcb1 : c8T1'.last_bbox = some c8Box := rfl
  have hcc2 : c8T2'.last_center = some (0, 0) := rfl
  have hcb2 : c8T2'.last_bbox = some c8Box := rfl
  unfold TrackManager.candidatePairs
  rw [c8_m1_tracks, hth]
  simp [List.enum, List.enumFrom, List.filterMap_cons, hg1, hg2, hcc1, hcb1, hcc2, hcb2,
    c8_zero1, c8_zero2, c8_rle0, hid1, hid2]

lemma c8_sort2 : sortPairs [((0:ℝ), 1, 0), (0, 1, 1), (0, 2, 0), (0, 2, 1)]
    = [((0:ℝ), 1, 0), (0, 1, 1), (0, 2, 0), (0, 2, 1)] := by
  have s1 : sortPairs [((0:ℝ), 2, 1)] = [((0:ℝ), 2, 1)] := by
    rw [sortPairs_cons, show sortPairs ([] : List Cand) = [] from rfl, ordIns_nil]
  have s2 : sortPairs [((0:ℝ), 2, 0), (0, 2, 1)] = [((0:ℝ), 2, 0), (0, 2, 1)] := by
    rw [sortPairs_cons, s1, ordIns_cons_le _ (by norm_num)]
  have s3 : sortPairs [((0:ℝ), 1, 1), (0, 2, 0), (0, 2, 1)]
      = [((0:ℝ), 1, 1), (0, 2, 0), (0, 2, 1)] := by
    rw [sortPairs_cons, s2, ordIns_cons_le _ (by norm_num)]
  rw [sortPairs_cons, s3, ordIns_cons_le _ (by norm_num)]

lemma c8_greedy2 : greedyPairs [((0:ℝ), 1, 0), (0, 1, 1), (0, 2, 0), (0, 2, 1)] ∅ ∅
    = [(1, 0), (2, 1)] := by
  simp [greedyPairs, Finset.mem_insert]

/-- C8 as stated is falsified when two detections share their center and box
height: with two identical detections and two tracks, track 1 is matched to
detection 1 on the first frame, but on the immediately following identical
frame the now-zero-cost claims are enumerated in table order and track 1 is
matched to detection 0 instead. -/
theorem C8_counterexample :
    (1, 1) ∈ c8Mgr.assignmentPairs [c8Det, c8Det] ∧
    (1, 1) ∉ (c8Mgr.updateTracks [c8Det, c8Det] 0).assignmentPairs [c8Det, c8Det] := by
  constructor
  · rw [c8_pairs1]
    decide
  · have h2 : (c8Mgr.updateTracks [c8Det, c8Det] 0).assignmentPairs [c8Det, c8Det]
        = [(1, 0), (2, 1)] := by
      unfold TrackManager.assignmentPairs
      rw [c8_cand2, c8_sort2, c8_greedy2]
    rw [h2]
    decide

/-- Concrete box for the C8 witness. -/
def c8WBox : BBox := ⟨0, 0, 1, 1, 1, 100, 1, false⟩

/-- Concrete detection for the C8 witness. -/
def c8WDet : Detection :=
  { landmarks := [], bbox := c8WBox, center := (0, 0), scale := 1,
    too_small := false, above_threshold := false }

/-- Concrete well-formed manager for the C8 witness. -/
def c8WMgr : TrackManager :=
  { primary_track_count := 1, max_hold_frames := 45, primary_drop_frames := 45,
    ema_alpha := 2/5, conf_decay := 19/20, assignment_threshold := 5/2,
    tracks := [{ track_id := 1, last_center := some (0, 1), last_bbox := some c8WBox }],
    primary_track_ids := [], next_id := 2 }

/-- C8 witness: the amended theorem applied to a concrete manager and a
single-detection frame repeated twice. -/
theorem C8_identical_frames_witness :
    (∀ t ∈ c8WMgr.tracks, t.track_id < c8WMgr.next_id) ∧
    (c8WMgr.tracks.map (fun t => t.track_id)).Nodup ∧
    0 ≤ c8WMgr.assignment_threshold ∧
    ((c8WMgr.updateTracks [c8WDet] 0).updateTracks [c8WDet] 1).next_id
      = (c8WMgr.updateTracks [c8WDet] 0).next_id :=
  ⟨by decide, by decide, by norm_num [c8WMgr],
   (C8_identical_frames c8WMgr [c8WDet] 0 1 (by decide) (by decide) (by norm_num [c8WMgr])
     (by
       intro a b da db ha hb hcc hhh
       cases a with
       | zero =>
         cases b with
         | zero => rfl
         | succ b => exact absurd hb (by simp)
       | succ a => exact absurd ha (by simp))).2.2.1⟩
